import Mathlib

/-!
# Pipeline merge sort (PRL-2021-PMS): shallow embedding of pms.hpp / pms.cpp

Every MPI process of the program is a deterministic sequential loop that talks to its
neighbours through blocking, in-order point-to-point channels.  A process is embedded as a
state record together with the two channel endpoints it uses:

* inbox  : the messages sent by previous_pid() that the process has not received yet
           (head = next message MPI_Recv will return);
* outbox : the messages the process has passed to MPI_Send so far, in send order.

The pipeline is the composition in which the outbox of rank r is the inbox of rank r + 1.

Reading front() of an empty std::queue is undefined behaviour in C++ and a receive on a
channel on which nothing more is sent never returns; both are made explicit as a Fault.
-/

namespace PMS

/-! ## pms.hpp : constants and data model -/

/-- constexpr auto EXPECTED_NUMS = 16 -/
def EXPECTED_NUMS : Nat := 16

/-- constexpr auto EXPECTED_PROCESSES = 5 -/
def EXPECTED_PROCESSES : Nat := 5

/-- using Primitive = unsigned char -/
abbrev Primitive := Fin 256

/-- using Sequence = std::vector of Primitive (also Input and Output) -/
abbrev Sequence := List Primitive

/-- using PipeQ = std::queue of Primitive; the head of the list is front(), push appends -/
abbrev PipeQ := List Primitive

/-- using Pid = int; the Base constructor aborts unless FIRST_PID <= pid <= LAST_PID -/
abbrev Pid := Nat

/-- struct Pipe: a queue and the taken counter -/
structure Pipe where
  queue : PipeQ
  taken : Nat
deriving DecidableEq, Repr

/-- constexpr Pid FIRST_PID = 0 -/
def FIRST_PID : Pid := 0

/-- constexpr Pid LAST_PID = EXPECTED_PROCESSES - 1 -/
def LAST_PID : Pid := EXPECTED_PROCESSES - 1

/-- enum class PipeSelect: Upper = 0, Lower = 1 -/
inductive PipeSelect where
  | Upper
  | Lower
deriving DecidableEq, Repr

/-- struct Message: a primitive and the pipe (sent as the MPI tag) -/
structure Message where
  primitive : Primitive
  pipe : PipeSelect
deriving DecidableEq, Repr

/-- The two ways a stage can leave defined behaviour: front() / pop() on an empty queue,
or a blocking receive on a channel that carries no further message. -/
inductive Fault where
  | emptyQueue
  | recvBlocked
deriving DecidableEq, Repr

/-- Base::in_seq_len: pow(2, pid_ - 1) converted to int (0.5 truncates to 0 at pid 0) -/
def in_seq_len (pid : Pid) : Nat :=
  if pid = 0 then 0 else 2 ^ (pid - 1)

/-- Base::out_seq_len: pow(2, pid_) converted to int -/
def out_seq_len (pid : Pid) : Nat :=
  2 ^ pid

/-- PipeSelect after the if / else of Base::toggle_pipe -/
def PipeSelect.toggle : PipeSelect → PipeSelect
  | .Upper => .Lower
  | .Lower => .Upper

namespace Processors

/-! ## Processors::First -/

/-- State of a First processor: the Base members, input_, and the channel to next_pid(). -/
structure First where
  pid_ : Pid
  count_ : Nat
  pipe_select_ : PipeSelect
  sent_to_selected_ : Nat
  input_ : Sequence
  outbox : List Message
deriving DecidableEq, Repr

/-- Constructor First(pid, count) with input_ as read by read_input -/
def First.init (pid : Pid) (count : Nat) (input : Sequence) : First :=
  { pid_ := pid, count_ := count, pipe_select_ := .Upper, sent_to_selected_ := 0,
    input_ := input, outbox := [] }

/-- Base::send_to_next_p on a First: MPI_Send then ++sent_to_selected_ -/
def First.send_to_next_p (s : First) (msg : Message) : First :=
  { s with outbox := s.outbox ++ [msg], sent_to_selected_ := s.sent_to_selected_ + 1 }

/-- Base::should_toggle_pipe on a First -/
def First.should_toggle_pipe (s : First) : Bool :=
  decide (s.sent_to_selected_ ≥ out_seq_len s.pid_)

/-- Base::toggle_pipe on a First (its clear_taken override is empty) -/
def First.toggle_pipe (s : First) : First :=
  { s with pipe_select_ := s.pipe_select_.toggle, sent_to_selected_ := 0 }

/-- Body of the range-for of First::sort for one element num -/
def First.sort_body (s : First) (num : Primitive) : First :=
  let s1 := s.send_to_next_p { primitive := num, pipe := s.pipe_select_ }
  if s1.should_toggle_pipe then s1.toggle_pipe else s1

/-- First::sort: for(const auto& num : input_) -/
def First.sort (s : First) : First :=
  s.input_.foldl First.sort_body s

/-! ## Processors::Mid -/

/-- State of a Mid processor: the Base members, pipes_[0], pipes_[1], started_, and the
channels from previous_pid() and to next_pid(). -/
structure Mid where
  pid_ : Pid
  count_ : Nat
  pipe_select_ : PipeSelect
  sent_to_selected_ : Nat
  pipes_0 : Pipe
  pipes_1 : Pipe
  started_ : Bool
  inbox : List Message
  outbox : List Message
deriving DecidableEq, Repr

/-- Constructor Mid(pid, count); inbox is what previous_pid() sends to this process -/
def Mid.init (pid : Pid) (count : Nat) (inbox : List Message) : Mid :=
  { pid_ := pid, count_ := count, pipe_select_ := .Upper, sent_to_selected_ := 0,
    pipes_0 := { queue := [], taken := 0 }, pipes_1 := { queue := [], taken := 0 },
    started_ := false, inbox := inbox, outbox := [] }

/-- Base::send_to_next_p on a Mid -/
def Mid.send_to_next_p (s : Mid) (msg : Message) : Mid :=
  { s with outbox := s.outbox ++ [msg], sent_to_selected_ := s.sent_to_selected_ + 1 }

/-- Base::receive_from_prev_p: blocking MPI_Recv of the next message of the channel -/
def Mid.receive_from_prev_p (s : Mid) : Except Fault (Message × Mid) :=
  match s.inbox with
  | [] => .error .recvBlocked
  | m :: rest => .ok (m, { s with inbox := rest })

/-- Mid::clear_taken -/
def Mid.clear_taken (s : Mid) : Mid :=
  { s with pipes_0 := { s.pipes_0 with taken := 0 }, pipes_1 := { s.pipes_1 with taken := 0 } }

/-- Base::toggle_pipe on a Mid: flip pipe_select_, zero sent_to_selected_, clear_taken() -/
def Mid.toggle_pipe (s : Mid) : Mid :=
  Mid.clear_taken { s with pipe_select_ := s.pipe_select_.toggle, sent_to_selected_ := 0 }

/-- Base::should_toggle_pipe on a Mid -/
def Mid.should_toggle_pipe (s : Mid) : Bool :=
  decide (s.sent_to_selected_ ≥ out_seq_len s.pid_)

/-- Mid::can_sort_begin -/
def Mid.can_sort_begin (s : Mid) : Bool :=
  decide (s.pipes_0.queue.length ≥ in_seq_len s.pid_) && decide (s.pipes_1.queue.length ≥ 1)

/-- Mid::start_sort -/
def Mid.start_sort (s : Mid) : Mid :=
  { s with started_ := true }

/-- Mid::save_message: push the primitive on pipes_[static_cast of msg.pipe] -/
def Mid.save_message (s : Mid) (msg : Message) : Mid :=
  match msg.pipe with
  | .Upper => { s with pipes_0 := { s.pipes_0 with queue := s.pipes_0.queue ++ [msg.primitive] } }
  | .Lower => { s with pipes_1 := { s.pipes_1 with queue := s.pipes_1.queue ++ [msg.primitive] } }

/-- The statements pipe.taken++; val = pipe.queue.front(); pipe.queue.pop(); return val
of Mid::next_primitive, for pipe = pipes_[0] (Upper) or pipes_[1] (Lower). -/
def Mid.take_from (s : Mid) : PipeSelect → Except Fault (Primitive × Mid)
  | .Upper =>
    match s.pipes_0.queue with
    | [] => .error .emptyQueue
    | val :: q => .ok (val, { s with pipes_0 := { queue := q, taken := s.pipes_0.taken + 1 } })
  | .Lower =>
    match s.pipes_1.queue with
    | [] => .error .emptyQueue
    | val :: q => .ok (val, { s with pipes_1 := { queue := q, taken := s.pipes_1.taken + 1 } })

/-- Mid::next_primitive.  The edge-case loop over i = 0, 1 is unrolled: at i = 0 the test is
on pipes_[0] and the other pipe is pipes_[1]; at i = 1 the roles are swapped. -/
def Mid.next_primitive (s : Mid) : Except Fault (Primitive × Mid) :=
  if decide (s.pipes_0.taken ≥ in_seq_len s.pid_) || s.pipes_0.queue.isEmpty then
    s.take_from .Lower
  else if decide (s.pipes_1.taken ≥ in_seq_len s.pid_) || s.pipes_1.queue.isEmpty then
    s.take_from .Upper
  else
    match s.pipes_0.queue, s.pipes_1.queue with
    | val1 :: _, val2 :: _ => if val1 > val2 then s.take_from .Lower else s.take_from .Upper
    | _, _ => .error .emptyQueue

/-- First part of the loop body of Mid::sort and Last::sort at index i:
if(i < EXPECTED_NUMS) save_message(receive_from_prev_p()) -/
def Mid.sort_recv (nums i : Nat) (s : Mid) : Except Fault Mid :=
  if i < nums then
    match s.receive_from_prev_p with
    | .error e => .error e
    | .ok (msg, s1) => .ok (s1.save_message msg)
  else .ok s

/-- The latch of the loop body: if(can_sort_begin()) start_sort() -/
def Mid.sort_latch (s : Mid) : Mid :=
  if s.can_sort_begin then s.start_sort else s

/-- Rest of the loop body of Mid::sort after the receive: the latch, the continue when not
started, then send_to_next_p of next_primitive() and the toggle test. -/
def Mid.sort_emit (s : Mid) : Except Fault Mid :=
  let s1 := s.sort_latch
  if !s1.started_ then .ok s1
  else
    match s1.next_primitive with
    | .error e => .error e
    | .ok (val, s2) =>
      let s3 := s2.send_to_next_p { primitive := val, pipe := s2.pipe_select_ }
      .ok (if s3.should_toggle_pipe then s3.toggle_pipe else s3)

/-- One iteration of the for-loop of Mid::sort at index i -/
def Mid.sort_body (nums i : Nat) (s : Mid) : Except Fault Mid :=
  match s.sort_recv nums i with
  | .error e => .error e
  | .ok s1 => s1.sort_emit

/-- The next k iterations of the for-loop of Mid::sort, starting at index i -/
def Mid.sort_loop (nums : Nat) : Nat → Nat → Mid → Except Fault Mid
  | 0, _, s => .ok s
  | k + 1, i, s =>
    match s.sort_body nums i with
    | .error e => .error e
    | .ok s1 => Mid.sort_loop nums k (i + 1) s1

/-- Mid::sort: for(int i = 0; i < EXPECTED_NUMS + in_seq_len(); ++i) -/
def Mid.sort (s : Mid) : Except Fault Mid :=
  Mid.sort_loop EXPECTED_NUMS (EXPECTED_NUMS + in_seq_len s.pid_) 0 s

/-! ## Processors::Last -/

/-- State of a Last processor: a Mid (its base class) and output_ -/
structure Last where
  mid : Mid
  output_ : Sequence
deriving DecidableEq, Repr

/-- Constructor Last(pid, count) -/
def Last.init (pid : Pid) (count : Nat) (inbox : List Message) : Last :=
  { mid := Mid.init pid count inbox, output_ := [] }

/-- The statements val = pipe.queue.front(); pipe.queue.pop(); return val of
Last::next_primitive (taken is not touched). -/
def Last.take_from (s : Mid) : PipeSelect → Except Fault (Primitive × Mid)
  | .Upper =>
    match s.pipes_0.queue with
    | [] => .error .emptyQueue
    | val :: q => .ok (val, { s with pipes_0 := { s.pipes_0 with queue := q } })
  | .Lower =>
    match s.pipes_1.queue with
    | [] => .error .emptyQueue
    | val :: q => .ok (val, { s with pipes_1 := { s.pipes_1 with queue := q } })

/-- Last::next_primitive on the Mid members; the edge-case loop tests only queue.empty() -/
def Last.next_primitive (s : Mid) : Except Fault (Primitive × Mid) :=
  if s.pipes_0.queue.isEmpty then
    Last.take_from s .Lower
  else if s.pipes_1.queue.isEmpty then
    Last.take_from s .Upper
  else
    match s.pipes_0.queue, s.pipes_1.queue with
    | val1 :: _, val2 :: _ =>
      if val1 > val2 then Last.take_from s .Lower else Last.take_from s .Upper
    | _, _ => .error .emptyQueue

/-- Rest of the loop body of Last::sort after the receive: the latch, the continue when not
started, then output_.push_back(next_primitive()). -/
def Last.sort_emit (s : Last) : Except Fault Last :=
  let m1 := s.mid.sort_latch
  if !m1.started_ then .ok { s with mid := m1 }
  else
    match Last.next_primitive m1 with
    | .error e => .error e
    | .ok (val, m2) => .ok { mid := m2, output_ := s.output_ ++ [val] }

/-- One iteration of the for-loop of Last::sort at index i -/
def Last.sort_body (nums i : Nat) (s : Last) : Except Fault Last :=
  match s.mid.sort_recv nums i with
  | .error e => .error e
  | .ok m1 => Last.sort_emit { s with mid := m1 }

/-- The next k iterations of the for-loop of Last::sort, starting at index i -/
def Last.sort_loop (nums : Nat) : Nat → Nat → Last → Except Fault Last
  | 0, _, s => .ok s
  | k + 1, i, s =>
    match s.sort_body nums i with
    | .error e => .error e
    | .ok s1 => Last.sort_loop nums k (i + 1) s1

/-- Last::sort: for(int i = 0; i < EXPECTED_NUMS + in_seq_len(); ++i) -/
def Last.sort (s : Last) : Except Fault Last :=
  Last.sort_loop EXPECTED_NUMS (EXPECTED_NUMS + in_seq_len s.mid.pid_) 0 s

end Processors

open Processors

/-! ## The pipeline: ranks 0 .. 4 chained by their channels -/

/-- Final states of the five processes of one run -/
structure PipelineRun where
  first : First
  mid1 : Mid
  mid2 : Mid
  mid3 : Mid
  last : Last
deriving DecidableEq, Repr

/-- App::get_processor for ranks 0 .. LAST_PID with count = EXPECTED_PROCESSES, each
process run to completion on the messages its predecessor sends, in send order. -/
def pipeline (input : Sequence) : Except Fault PipelineRun :=
  let p0 := (First.init 0 EXPECTED_PROCESSES input).sort
  match (Mid.init 1 EXPECTED_PROCESSES p0.outbox).sort with
  | .error e => .error e
  | .ok p1 =>
    match (Mid.init 2 EXPECTED_PROCESSES p1.outbox).sort with
    | .error e => .error e
    | .ok p2 =>
      match (Mid.init 3 EXPECTED_PROCESSES p2.outbox).sort with
      | .error e => .error e
      | .ok p3 =>
        match (Last.init 4 EXPECTED_PROCESSES p3.outbox).sort with
        | .error e => .error e
        | .ok p4 => .ok { first := p0, mid1 := p1, mid2 := p2, mid3 := p3, last := p4 }

/-! ## First::run, App::get_processor and a launch of count processes

The constants of pms.hpp are compile-time constants; to talk about the program built for
other values they are gathered in a Config, and the functions that read them take it. -/

/-- enum class ExitCode -/
inductive ExitCode where
  | OK
  | INPUT_ERR
  | PROCESS_ERR
deriving DecidableEq, Repr

/-- The assignment-based constants of pms.hpp -/
structure Config where
  EXPECTED_NUMS : Nat
  EXPECTED_PROCESSES : Nat
deriving DecidableEq, Repr

/-- The constants as pms.hpp sets them: 16 numbers, 5 processes -/
def Config.pms : Config :=
  { EXPECTED_NUMS := PMS.EXPECTED_NUMS, EXPECTED_PROCESSES := PMS.EXPECTED_PROCESSES }

/-- constexpr Pid LAST_PID = EXPECTED_PROCESSES - 1, for a Config -/
def Config.LAST_PID (cfg : Config) : Pid :=
  cfg.EXPECTED_PROCESSES - 1

namespace Processors

/-- Base::next_pid on a First -/
def First.next_pid (s : First) : Pid :=
  s.pid_ + 1

/-- Base::next_pid on a Mid -/
def Mid.next_pid (s : Mid) : Pid :=
  s.pid_ + 1

/-- First::check_processes.  Base::abort calls MPI_Abort, which ends the program with the
exit code; the error value keeps the state of the process at that point. -/
def First.check_processes (cfg : Config) (s : First) : Except (ExitCode × First) Unit :=
  if s.count_ = cfg.EXPECTED_PROCESSES then .ok ()
  else .error (.PROCESS_ERR, s)

/-- First::read_input: file is the content of ./numbers, none when the file is not there -/
def First.read_input (s : First) (file : Option Sequence) : Except (ExitCode × First) First :=
  match file with
  | none => .error (.INPUT_ERR, s)
  | some bytes => .ok { s with input_ := bytes }

/-- First::check_input -/
def First.check_input (cfg : Config) (s : First) : Except (ExitCode × First) Unit :=
  if s.input_.length = cfg.EXPECTED_NUMS then .ok ()
  else .error (.INPUT_ERR, s)

/-- First::run: check_processes(); read_input(); check_input(); print_sequence; sort() -/
def First.run (cfg : Config) (s : First) (file : Option Sequence) :
    Except (ExitCode × First) First :=
  match s.check_processes cfg with
  | .error e => .error e
  | .ok _ =>
    match s.read_input file with
    | .error e => .error e
    | .ok s1 =>
      match s1.check_input cfg with
      | .error e => .error e
      | .ok _ => .ok s1.sort

/-- Mid::run, that is Mid::sort, for a Config -/
def Mid.run (cfg : Config) (s : Mid) : Except Fault Mid :=
  Mid.sort_loop cfg.EXPECTED_NUMS (cfg.EXPECTED_NUMS + in_seq_len s.pid_) 0 s

/-- Last::run, that is Last::sort followed by print_sequence(output_), for a Config -/
def Last.run (cfg : Config) (s : Last) : Except Fault Last :=
  Last.sort_loop cfg.EXPECTED_NUMS (cfg.EXPECTED_NUMS + in_seq_len s.mid.pid_) 0 s

end Processors

/-- Processor: the object App::get_processor creates, of class First, Mid or Last -/
inductive Processor where
  | first (s : First)
  | mid (s : Mid)
  | last (s : Last)
deriving DecidableEq, Repr

/-- How a process ends before its run() returns: Base::abort with an exit code, or a Fault -/
inductive Stop where
  | abort (code : ExitCode)
  | fault (f : Fault)
deriving DecidableEq, Repr

/-- The pid sanity check of the Base constructor: abort unless FIRST_PID <= pid <= LAST_PID -/
def Base.check_pid (cfg : Config) (pid : Pid) : Except Stop Unit :=
  if pid < FIRST_PID ∨ pid > cfg.LAST_PID then .error (.abort .PROCESS_ERR) else .ok ()

/-- App::get_processor: First when pid == FIRST_PID, else Last when pid == LAST_PID, else
Mid; every constructor runs the pid check of Base.  inbox is the channel from
previous_pid(). -/
def App.get_processor (cfg : Config) (pid : Pid) (count : Nat) (inbox : List Message) :
    Except Stop Processor :=
  if pid = FIRST_PID then
    match Base.check_pid cfg pid with
    | .error e => .error e
    | .ok _ => .ok (.first (First.init pid count []))
  else if pid = cfg.LAST_PID then
    match Base.check_pid cfg pid with
    | .error e => .error e
    | .ok _ => .ok (.last (Last.init pid count inbox))
  else
    match Base.check_pid cfg pid with
    | .error e => .error e
    | .ok _ => .ok (.mid (Mid.init pid count inbox))

/-- App::run: processor_->run() -/
def Processor.run (cfg : Config) (file : Option Sequence) : Processor → Except Stop Processor
  | .first s =>
    match s.run cfg file with
    | .error e => .error (.abort e.1)
    | .ok s1 => .ok (.first s1)
  | .mid s =>
    match s.run cfg with
    | .error f => .error (.fault f)
    | .ok s1 => .ok (.mid s1)
  | .last s =>
    match s.run cfg with
    | .error f => .error (.fault f)
    | .ok s1 => .ok (.last s1)

/-- What a process has passed to MPI_Send for next_pid(); a Last never sends -/
def Processor.outbox : Processor → List Message
  | .first s => s.outbox
  | .mid s => s.outbox
  | .last s => s.mid.outbox

/-- The processes of ranks pid, pid + 1, .. (k of them) of a launch of count processes, each
run to completion on what the rank before it sent -/
def launch_from (cfg : Config) (count : Nat) (file : Option Sequence) :
    Nat → Pid → List Message → Except Stop (List Processor)
  | 0, _, _ => .ok []
  | k + 1, pid, inbox =>
    match App.get_processor cfg pid count inbox with
    | .error e => .error e
    | .ok p =>
      match p.run cfg file with
      | .error e => .error e
      | .ok p1 =>
        match launch_from cfg count file k (pid + 1) p1.outbox with
        | .error e => .error e
        | .ok ps => .ok (p1 :: ps)

/-- The program launched with count processes (ranks 0 .. count - 1) on the file ./numbers -/
def launch (cfg : Config) (count : Nat) (file : Option Sequence) :
    Except Stop (List Processor) :=
  launch_from cfg count file count 0 []

/-! ## Specification-side vocabulary -/

/-- Messages of the primitives xs, all carrying the tag p -/
def tagged (p : PipeSelect) (xs : List Primitive) : List Message :=
  xs.map (fun x => { primitive := x, pipe := p })

/-- Messages of the primitives xs whose tags alternate element by element, starting at p -/
def alternate : PipeSelect → List Primitive → List Message
  | _, [] => []
  | p, x :: xs => { primitive := x, pipe := p } :: alternate p.toggle xs

/-- The tag the spec gives to the k-th message of a stream of runs of length len -/
def tagAt (len k : Nat) : PipeSelect :=
  if (k / len) % 2 = 0 then .Upper else .Lower

/-- The standard two-way merge: while both lists are non-empty take the head of the first
when it is <= the head of the second, otherwise the head of the second; then the rest. -/
def mergeLE (xs ys : List Primitive) : List Primitive :=
  List.merge xs ys (fun a b => decide (a ≤ b))

/-- A stream of runs whose tags alternate run by run, starting at p -/
def altTagged : PipeSelect → List (List Primitive) → List Message
  | _, [] => []
  | p, b :: bs => tagged p b ++ altTagged p.toggle bs

/-- The runs obtained by merging the runs two by two: the first with the second, the third
with the fourth, and so on -/
def mergePairs : List (List Primitive) → List (List Primitive)
  | u :: l :: bs => mergeLE u l :: mergePairs bs
  | _ => []

/-- A stream made of pairs of runs: each pair is sent as its first run tagged Upper followed
by its second run tagged Lower -/
def pairStream : List (List Primitive × List Primitive) → List Message
  | [] => []
  | q :: ps => tagged .Upper q.1 ++ (tagged .Lower q.2 ++ pairStream ps)

/-- The runs of a stream of runs whose tags alternate run by run, each as its messages -/
def tagRuns : PipeSelect → List (List Primitive) → List (List Message)
  | _, [] => []
  | p, b :: bs => tagged p b :: tagRuns p.toggle bs

/-- The runs of a message stream: its maximal blocks of consecutive messages that carry the
same tag -/
def runsOf (stream : List Message) : List (List Message) :=
  stream.splitBy (fun a b => decide (a.pipe = b.pipe))

/-- Every element as a run of length one -/
def singletons (xs : List Primitive) : List (List Primitive) :=
  xs.map (fun x => [x])

/-- The primitives of the Upper-tagged messages of a stream, in order -/
def uppers (stream : List Message) : List Primitive :=
  (stream.filter (fun m => decide (m.pipe = .Upper))).map Message.primitive

/-- The primitives of the Lower-tagged messages of a stream, in order -/
def lowers (stream : List Message) : List Primitive :=
  (stream.filter (fun m => decide (m.pipe = .Lower))).map Message.primitive

/-- The j-th block of n consecutive elements of xs (j counted from 0) -/
def block (n j : Nat) (xs : List Primitive) : List Primitive :=
  (xs.drop (j * n)).take n

/-- The number of elements held in the two queues of a stage -/
def occupancy (s : Mid) : Nat :=
  s.pipes_0.queue.length + s.pipes_1.queue.length

/-- Tagging invariant of a Mid stage whose runs have length len: sent_to_selected_ counts the
messages sent under the current tag, and every message sent so far carries the tag of its
position. -/
def TagInv (len : Nat) (s : Mid) : Prop :=
  out_seq_len s.pid_ = len ∧
  s.sent_to_selected_ < len ∧
  s.sent_to_selected_ = s.outbox.length % len ∧
  s.pipe_select_ = tagAt len s.outbox.length ∧
  ∀ (k : Nat) (m : Message), s.outbox[k]? = some m → m.pipe = tagAt len k

/-- Buffering invariant of a stage whose input runs have length len: once started the two
queues hold at most len elements between iterations; before that pipes_[1] is empty and the
stream still has to deliver the rest of the first Upper run, then a Lower message. -/
def BufInv (len : Nat) (s : Mid) : Prop :=
  in_seq_len s.pid_ = len ∧
  ((s.started_ = true ∧ occupancy s ≤ len) ∨
   (s.started_ = false ∧ s.pipes_1.queue = [] ∧
     ∃ (us : List Primitive) (y : Primitive) (rest : List Message),
       s.inbox = tagged .Upper us ++ { primitive := y, pipe := .Lower } :: rest ∧
       s.pipes_0.queue.length + us.length = len))

/-- Merging invariant of a Mid stage at index i of its loop, inside the merge of one pair
of runs: a and b elements of the current Upper and Lower run have been taken; ua is what is
left of the Upper run in pipes_[0], followed by nq, the part of the next Upper run already
received; lq is what is left of the Lower run in pipes_[1] and lin the part of it still to
be received; nin is the part of the next Upper run still to be received and rest the stream
after it, which is empty or a Lower run followed by pairs of runs. -/
def MergeInv (nums i : Nat) (s : Mid) : Prop :=
  0 < s.pid_ ∧
  ∃ (ua lq lin nq nin : List Primitive) (rest : List Message) (a b : Nat),
    s.sent_to_selected_ = a + b ∧
    s.pipes_0 = { queue := ua ++ nq, taken := a } ∧
    s.pipes_1 = { queue := lq, taken := b } ∧
    s.inbox = tagged .Lower lin ++ (tagged .Upper nin ++ rest) ∧
    1 ≤ ua.length + lq.length + lin.length ∧
    a + ua.length = in_seq_len s.pid_ ∧
    b + lq.length + lin.length = in_seq_len s.pid_ ∧
    (s.started_ = true ∨ (a = 0 ∧ b = 0)) ∧
    (ua.length + lq.length = nin.length ∨ (nin = [] ∧ rest = [])) ∧
    lin.length + nin.length + rest.length = nums - i ∧
    ((nq = [] ∧ nin = [] ∧ rest = [] ∧
        i + (ua.length + lq.length + lin.length) = nums + in_seq_len s.pid_) ∨
     ∃ (l1 : List Primitive) (ps1 : List (List Primitive × List Primitive)),
       rest = tagged .Lower l1 ++ pairStream ps1 ∧
       (nq ++ nin).length = in_seq_len s.pid_ ∧ l1.length = in_seq_len s.pid_ ∧
       ∀ c ∈ ps1, c.1.length = in_seq_len s.pid_ ∧ c.2.length = in_seq_len s.pid_)

/-! ## A short stream for rank 1 and the states the loop of Mid::sort goes through on it -/

/-- Three messages for a stage at rank 1: 5 on Upper, 3 on Lower, 9 on Upper -/
def sampleStream : List Message :=
  [{ primitive := 5, pipe := .Upper }, { primitive := 3, pipe := .Lower },
   { primitive := 9, pipe := .Upper }]

/-- The Mid at rank 1 after its first iteration on sampleStream: 5 is buffered -/
def sampleAfter1 : Mid :=
  { pid_ := 1, count_ := 5, pipe_select_ := .Upper, sent_to_selected_ := 0,
    pipes_0 := { queue := [5], taken := 0 }, pipes_1 := { queue := [], taken := 0 },
    started_ := false,
    inbox := [{ primitive := 3, pipe := .Lower }, { primitive := 9, pipe := .Upper }],
    outbox := [] }

/-- The same Mid after the receive of its second iteration: 3 has arrived on Lower -/
def sampleRecv2 : Mid :=
  { pid_ := 1, count_ := 5, pipe_select_ := .Upper, sent_to_selected_ := 0,
    pipes_0 := { queue := [5], taken := 0 }, pipes_1 := { queue := [3], taken := 0 },
    started_ := false, inbox := [{ primitive := 9, pipe := .Upper }], outbox := [] }

/-- The same Mid after its second iteration: started, 3 sent under Upper -/
def sampleAfter2 : Mid :=
  { pid_ := 1, count_ := 5, pipe_select_ := .Upper, sent_to_selected_ := 1,
    pipes_0 := { queue := [5], taken := 0 }, pipes_1 := { queue := [], taken := 1 },
    started_ := true, inbox := [{ primitive := 9, pipe := .Upper }],
    outbox := [{ primitive := 3, pipe := .Upper }] }

/-- The same Mid after its third iteration: 5 sent, the run of two is complete, the tag
toggled -/
def sampleAfter3 : Mid :=
  { pid_ := 1, count_ := 5, pipe_select_ := .Lower, sent_to_selected_ := 0,
    pipes_0 := { queue := [9], taken := 0 }, pipes_1 := { queue := [], taken := 0 },
    started_ := true, inbox := [],
    outbox := [{ primitive := 3, pipe := .Upper }, { primitive := 5, pipe := .Upper }] }

/-! ## A stream of 16 messages for rank 1 that is not made of pairs of runs -/

/-- Sixteen messages for a stage at rank 1: 1 on Upper, 2 on Lower, then 3 .. 16 all on
Upper -/
def unpairedStream : List Message :=
  { primitive := 1, pipe := .Upper } :: { primitive := 2, pipe := .Lower } ::
    tagged .Upper [3, 4, 5, 6, 7, 8, 9, 10, 11, 12, 13, 14, 15, 16]

/-- The Mid at rank 1 after its first iteration on unpairedStream: 1 is buffered -/
def unpairedAfter1 : Mid :=
  { pid_ := 1, count_ := 5, pipe_select_ := .Upper, sent_to_selected_ := 0,
    pipes_0 := { queue := [1], taken := 0 }, pipes_1 := { queue := [], taken := 0 },
    started_ := false,
    inbox := { primitive := 2, pipe := .Lower } ::
      tagged .Upper [3, 4, 5, 6, 7, 8, 9, 10, 11, 12, 13, 14, 15, 16],
    outbox := [] }

/-- The same Mid after the receive of its second iteration: 2 has arrived on Lower -/
def unpairedRecv2 : Mid :=
  { pid_ := 1, count_ := 5, pipe_select_ := .Upper, sent_to_selected_ := 0,
    pipes_0 := { queue := [1], taken := 0 }, pipes_1 := { queue := [2], taken := 0 },
    started_ := false,
    inbox := tagged .Upper [3, 4, 5, 6, 7, 8, 9, 10, 11, 12, 13, 14, 15, 16],
    outbox := [] }

/-- The same Mid after four iterations: 1 and 2 were sent under Upper, the tag toggled, 3
was sent under Lower from pipes_[0], whose taken counter is 1; pipes_[1] is empty -/
def unpairedAfter4 : Mid :=
  { pid_ := 1, count_ := 5, pipe_select_ := .Lower, sent_to_selected_ := 1,
    pipes_0 := { queue := [4], taken := 1 }, pipes_1 := { queue := [], taken := 0 },
    started_ := true,
    inbox := tagged .Upper [5, 6, 7, 8, 9, 10, 11, 12, 13, 14, 15, 16],
    outbox := [{ primitive := 1, pipe := .Upper }, { primitive := 2, pipe := .Upper },
               { primitive := 3, pipe := .Lower }] }

/-! ## A stream of 16 messages for rank 4 that is not one Upper run and one Lower run -/

/-- Sixteen messages for the stage at rank 4: eight on Upper, one on Lower, seven on Upper -/
def raggedStream : List Message :=
  tagged .Upper [10, 20, 30, 40, 50, 60, 70, 80] ++
    ({ primitive := 5, pipe := .Lower } :: tagged .Upper [90, 100, 110, 120, 130, 140, 150])

/-- The Last at rank 4 after eight iterations on raggedStream: eight elements are buffered -/
def raggedAfter8 : Last :=
  { mid := { pid_ := 4, count_ := 5, pipe_select_ := .Upper, sent_to_selected_ := 0,
             pipes_0 := { queue := [10, 20, 30, 40, 50, 60, 70, 80], taken := 0 },
             pipes_1 := { queue := [], taken := 0 },
             started_ := false,
             inbox := { primitive := 5, pipe := .Lower } ::
               tagged .Upper [90, 100, 110, 120, 130, 140, 150],
             outbox := [] },
    output_ := [] }

/-- Its Mid members after the receive of iteration 8: 5 has arrived on Lower -/
def raggedRecv9 : Mid :=
  { pid_ := 4, count_ := 5, pipe_select_ := .Upper, sent_to_selected_ := 0,
    pipes_0 := { queue := [10, 20, 30, 40, 50, 60, 70, 80], taken := 0 },
    pipes_1 := { queue := [5], taken := 0 },
    started_ := false,
    inbox := tagged .Upper [90, 100, 110, 120, 130, 140, 150],
    outbox := [] }

/-! ## Basic facts -/

@[simp] theorem toggle_toggle (p : PipeSelect) : p.toggle.toggle = p := by
  cases p <;> rfl

theorem alternate_getElem? (xs : List Primitive) :
    ∀ (p : PipeSelect) (k : Nat), (alternate p xs)[k]? =
      xs[k]?.map (fun x => { primitive := x, pipe := if k % 2 = 0 then p else p.toggle }) := by
  induction xs with
  | nil => intro p k; simp [alternate]
  | cons x xs ih =>
    intro p k
    cases k with
    | zero => simp [alternate]
    | succ k =>
      simp only [alternate, List.getElem?_cons_succ, ih]
      rcases Nat.mod_two_eq_zero_or_one k with h | h
      · have h2 : (k + 1) % 2 = 1 := by omega
        simp [h, h2]
      · have h2 : (k + 1) % 2 = 0 := by omega
        simp [h, h2]

theorem alternate_length (xs : List Primitive) : ∀ p, (alternate p xs).length = xs.length := by
  induction xs with
  | nil => intro p; rfl
  | cons x xs ih => intro p; simp [alternate, ih]

theorem first_foldl_outbox (xs : List Primitive) :
    ∀ s : First, s.pid_ = 0 → s.sent_to_selected_ = 0 →
      (xs.foldl First.sort_body s).outbox = s.outbox ++ alternate s.pipe_select_ xs := by
  induction xs with
  | nil => intro s _ _; simp [alternate]
  | cons x xs ih =>
    intro s h0 h1
    have hb : First.sort_body s x =
        { s with outbox := s.outbox ++ [{ primitive := x, pipe := s.pipe_select_ }],
                 pipe_select_ := s.pipe_select_.toggle } := by
      simp [First.sort_body, First.send_to_next_p, First.should_toggle_pipe,
        First.toggle_pipe, out_seq_len, h0, h1]
    have h := ih (First.sort_body s x) (by rw [hb]; exact h0) (by rw [hb]; exact h1)
    rw [List.foldl_cons, h, hb]
    simp [alternate]

theorem first_sort_outbox (count : Nat) (input : Sequence) :
    ((First.init FIRST_PID count input).sort).outbox = alternate .Upper input := by
  unfold First.sort
  rw [first_foldl_outbox] <;> simp [First.init, FIRST_PID]

/-! ## The merge of one pair of runs inside Mid::sort -/

theorem mergeLE_nil_left (ys : List Primitive) : mergeLE [] ys = ys := by
  simp [mergeLE]

theorem mergeLE_nil_right (xs : List Primitive) : mergeLE xs [] = xs := by
  simp [mergeLE]

theorem mergeLE_cons_cons (x y : Primitive) (xs ys : List Primitive) :
    mergeLE (x :: xs) (y :: ys) =
      if x ≤ y then x :: mergeLE xs (y :: ys) else y :: mergeLE (x :: xs) ys := by
  simp [mergeLE, List.cons_merge_cons]

theorem in_seq_len_pos {pid : Nat} (h : 0 < pid) : 0 < in_seq_len pid := by
  have : pid ≠ 0 := by omega
  simp [in_seq_len, this]

theorem out_seq_len_eq {pid : Nat} (h : 0 < pid) : out_seq_len pid = 2 * in_seq_len pid := by
  have : pid ≠ 0 := by omega
  obtain ⟨m, rfl⟩ : ∃ m, pid = m + 1 := ⟨pid - 1, by omega⟩
  simp [in_seq_len, out_seq_len, pow_succ]
  omega

/-- The emitting half of one iteration of Mid::sort inside a merge: ua is what is left of
the Upper run, lq ++ lin what is left of the Lower run (lq received, lin not yet). -/
theorem mid_emit_step (pid count : Nat) (hpid : 0 < pid) (p : PipeSelect) (st : Bool)
    (a b : Nat) (ua lq lin nq : List Primitive) (inb out : List Message)
    (ha : a + ua.length = in_seq_len pid) (hb : b + lq.length + lin.length = in_seq_len pid)
    (hlook : lq = [] → lin = [])
    (hst : st = true ∨ (a = 0 ∧ b = 0))
    (hne : 1 ≤ ua.length + lq.length + lin.length) :
    ∃ (v : Primitive) (ua1 lq1 : List Primitive) (a1 b1 : Nat),
      mergeLE ua (lq ++ lin) = v :: mergeLE ua1 (lq1 ++ lin) ∧
      a1 + ua1.length = in_seq_len pid ∧ b1 + lq1.length + lin.length = in_seq_len pid ∧
      ua1.length + lq1.length + 1 = ua.length + lq.length ∧
      Mid.sort_emit
        { pid_ := pid, count_ := count, pipe_select_ := p, sent_to_selected_ := a + b,
          pipes_0 := { queue := ua ++ nq, taken := a }, pipes_1 := { queue := lq, taken := b },
          started_ := st, inbox := inb, outbox := out } =
      .ok (if ua1.length + lq1.length + lin.length = 0 then
          { pid_ := pid, count_ := count, pipe_select_ := p.toggle, sent_to_selected_ := 0,
            pipes_0 := { queue := nq, taken := 0 }, pipes_1 := { queue := [], taken := 0 },
            started_ := true, inbox := inb,
            outbox := out ++ [{ primitive := v, pipe := p }] }
        else
          { pid_ := pid, count_ := count, pipe_select_ := p, sent_to_selected_ := a1 + b1,
            pipes_0 := { queue := ua1 ++ nq, taken := a1 },
            pipes_1 := { queue := lq1, taken := b1 },
            started_ := true, inbox := inb,
            outbox := out ++ [{ primitive := v, pipe := p }] }) := by
  have hL := in_seq_len_pos hpid
  have hO := out_seq_len_eq hpid
  have hlatch : ∀ q0 q1 : PipeQ, in_seq_len pid ≤ q0.length ∨ st = true → 1 ≤ q1.length ∨ st = true →
      Mid.sort_latch
        { pid_ := pid, count_ := count, pipe_select_ := p, sent_to_selected_ := a + b,
          pipes_0 := { queue := q0, taken := a }, pipes_1 := { queue := q1, taken := b },
          started_ := st, inbox := inb, outbox := out } =
        { pid_ := pid, count_ := count, pipe_select_ := p, sent_to_selected_ := a + b,
          pipes_0 := { queue := q0, taken := a }, pipes_1 := { queue := q1, taken := b },
          started_ := true, inbox := inb, outbox := out } := by
    intro q0 q1 h0 h1
    cases st with
    | true => simp [Mid.sort_latch, Mid.start_sort]
    | false =>
      have h0 : in_seq_len pid ≤ q0.length := by simpa using h0
      have h1 : 1 ≤ q1.length := by simpa using h1
      have h2 : q1 ≠ [] := by
        intro h; rw [h] at h1; simp at h1
      simp [Mid.sort_latch, Mid.start_sort, Mid.can_sort_begin, h0, h2]
  have hq0 : in_seq_len pid ≤ (ua ++ nq).length ∨ st = true := by
    rcases hst with h | ⟨h, _⟩
    · exact Or.inr h
    · left; rw [List.length_append]; omega
  have hq1 : 1 ≤ lq.length ∨ st = true := by
    rcases hst with h | ⟨_, h⟩
    · exact Or.inr h
    · left
      cases lq with
      | nil => simp [hlook rfl] at hb; omega
      | cons y ys => simp
  unfold Mid.sort_emit
  simp only [hlatch _ _ hq0 hq1]
  cases ua with
  | nil =>
    cases lq with
    | nil => simp [hlook rfl] at hne
    | cons y lq1 =>
      refine ⟨y, [], lq1, a, b + 1, ?_, ?_, ?_, ?_, ?_⟩
      · simp [mergeLE_nil_left]
      · simpa using ha
      · simp at hb ⊢; omega
      · simp
      · simp only [List.length_nil, List.length_cons] at ha hb
        have c1 : in_seq_len pid ≤ a := by omega
        by_cases hz : lq1.length + lin.length = 0
        · have hs : out_seq_len pid ≤ a + b + 1 := by omega
          have e1 : lq1 = [] := List.length_eq_zero.mp (by omega)
          have e3 : lin = [] := List.length_eq_zero.mp (by omega)
          subst e1
          subst e3
          simp [Mid.next_primitive, Mid.take_from, Mid.send_to_next_p, Mid.should_toggle_pipe,
            Mid.toggle_pipe, Mid.clear_taken, c1, hs]
        · have hs : ¬ (out_seq_len pid ≤ a + b + 1) := by omega
          simp [Mid.next_primitive, Mid.take_from, Mid.send_to_next_p, Mid.should_toggle_pipe,
            Mid.toggle_pipe, Mid.clear_taken, c1, hz, hs]
          omega
  | cons x ua1 =>
    simp only [List.length_cons] at ha hne
    have c1 : ¬ (in_seq_len pid ≤ a) := by omega
    cases lq with
    | nil =>
      have e1 : lin = [] := hlook rfl
      subst e1
      simp only [List.length_nil] at hb
      have c2 : in_seq_len pid ≤ b := by omega
      refine ⟨x, ua1, [], a + 1, b, ?_, ?_, ?_, ?_, ?_⟩
      · simp [mergeLE_nil_right]
      · omega
      · simpa using hb
      · simp
      · by_cases hz : ua1.length = 0
        · have hs : out_seq_len pid ≤ a + b + 1 := by omega
          have e2 : ua1 = [] := List.length_eq_zero.mp hz
          subst e2
          simp [Mid.next_primitive, Mid.take_from, Mid.send_to_next_p, Mid.should_toggle_pipe,
            Mid.toggle_pipe, Mid.clear_taken, c1, c2, hs]
        · have hs : ¬ (out_seq_len pid ≤ a + b + 1) := by omega
          have e2 : ua1 ≠ [] := fun h => hz (by rw [h]; rfl)
          simp [Mid.next_primitive, Mid.take_from, Mid.send_to_next_p, Mid.should_toggle_pipe,
            Mid.toggle_pipe, Mid.clear_taken, c1, c2, hs, e2]
          omega
    | cons y lq1 =>
      simp only [List.length_cons] at hb
      have c2 : ¬ (in_seq_len pid ≤ b) := by omega
      have hs : ¬ (out_seq_len pid ≤ a + b + 1) := by omega
      by_cases hxy : x ≤ y
      · have hyx : ¬ (y < x) := not_lt.mpr hxy
        refine ⟨x, ua1, y :: lq1, a + 1, b, ?_, ?_, ?_, ?_, ?_⟩
        · simp [mergeLE_cons_cons, hxy]
        · omega
        · simp; omega
        · simp; omega
        · simp [Mid.next_primitive, Mid.take_from, Mid.send_to_next_p, Mid.should_toggle_pipe,
            Mid.toggle_pipe, Mid.clear_taken, c1, c2, hs, hyx]
          omega
      · have hyx : y < x := not_le.mp hxy
        refine ⟨y, x :: ua1, lq1, a, b + 1, ?_, ?_, ?_, ?_, ?_⟩
        · simp [mergeLE_cons_cons, hxy]
        · simp; omega
        · omega
        · simp; omega
        · simp [Mid.next_primitive, Mid.take_from, Mid.send_to_next_p, Mid.should_toggle_pipe,
            Mid.toggle_pipe, Mid.clear_taken, c1, c2, hs, hyx]
          omega

theorem tagged_length (p : PipeSelect) (xs : List Primitive) :
    (tagged p xs).length = xs.length := by
  simp [tagged]

theorem tagged_append (p : PipeSelect) (xs ys : List Primitive) :
    tagged p (xs ++ ys) = tagged p xs ++ tagged p ys := by
  simp [tagged]

/-- One whole iteration of Mid::sort inside a merge: the receive (a Lower element of the
current run, else an Upper element of the next run, else nothing) followed by one send. -/
theorem mid_iter (pid count nums : Nat) (hpid : 0 < pid)
    (ua lq lin nq nin : List Primitive) (rest : List Message) (p : PipeSelect)
    (st : Bool) (a b : Nat) (out : List Message) (i : Nat)
    (hne : 1 ≤ ua.length + lq.length + lin.length)
    (ha : a + ua.length = in_seq_len pid) (hb : b + lq.length + lin.length = in_seq_len pid)
    (hst : st = true ∨ (a = 0 ∧ b = 0))
    (htime : ua.length + lq.length = nin.length ∨ (nin = [] ∧ rest = []))
    (hlen : lin.length + nin.length + rest.length = nums - i) :
    ∃ (v : Primitive) (ua1 lq1 lin1 nq1 nin1 : List Primitive) (a1 b1 : Nat),
      mergeLE ua (lq ++ lin) = v :: mergeLE ua1 (lq1 ++ lin1) ∧
      a1 + ua1.length = in_seq_len pid ∧ b1 + lq1.length + lin1.length = in_seq_len pid ∧
      ua1.length + lq1.length + lin1.length + 1 = ua.length + lq.length + lin.length ∧
      nq1 ++ nin1 = nq ++ nin ∧
      (ua1.length + lq1.length = nin1.length ∨ (nin1 = [] ∧ rest = [])) ∧
      lin1.length + nin1.length + rest.length = nums - (i + 1) ∧
      Mid.sort_body nums i
        { pid_ := pid, count_ := count, pipe_select_ := p, sent_to_selected_ := a + b,
          pipes_0 := { queue := ua ++ nq, taken := a }, pipes_1 := { queue := lq, taken := b },
          started_ := st, inbox := tagged .Lower lin ++ (tagged .Upper nin ++ rest),
          outbox := out } =
      .ok (if ua1.length + lq1.length + lin1.length = 0 then
          { pid_ := pid, count_ := count, pipe_select_ := p.toggle, sent_to_selected_ := 0,
            pipes_0 := { queue := nq1, taken := 0 }, pipes_1 := { queue := [], taken := 0 },
            started_ := true, inbox := tagged .Lower lin1 ++ (tagged .Upper nin1 ++ rest),
            outbox := out ++ [{ primitive := v, pipe := p }] }
        else
          { pid_ := pid, count_ := count, pipe_select_ := p, sent_to_selected_ := a1 + b1,
            pipes_0 := { queue := ua1 ++ nq1, taken := a1 },
            pipes_1 := { queue := lq1, taken := b1 },
            started_ := true, inbox := tagged .Lower lin1 ++ (tagged .Upper nin1 ++ rest),
            outbox := out ++ [{ primitive := v, pipe := p }] }) := by
  cases lin with
  | cons z lin1 =>
    simp only [List.length_cons] at hne hb hlen
    have hi : i < nums := by omega
    obtain ⟨v, ua1, lq1, a1, b1, hm, ha1, hb1, hcnt, hemit⟩ :=
      mid_emit_step pid count hpid p st a b ua (lq ++ [z]) lin1 nq
        (tagged .Lower lin1 ++ (tagged .Upper nin ++ rest)) out ha
        (by simp only [List.length_append, List.length_singleton]; omega) (by simp) hst
        (by simp only [List.length_append, List.length_singleton]; omega)
    simp only [List.length_append, List.length_singleton] at hcnt
    refine ⟨v, ua1, lq1, lin1, nq, nin, a1, b1, ?_, ha1, hb1, ?_, rfl, ?_, ?_, ?_⟩
    · simpa using hm
    · simp only [List.length_cons]; omega
    · rcases htime with h | h
      · left; omega
      · exact Or.inr h
    · omega
    · simp only [Mid.sort_body, Mid.sort_recv, hi, if_true, Mid.receive_from_prev_p, tagged,
        List.map_cons, List.cons_append, Mid.save_message]
      exact hemit
  | nil =>
    simp only [List.length_nil, Nat.add_zero, Nat.zero_add] at hne hb hlen
    cases nin with
    | cons z nin1 =>
      simp only [List.length_cons] at hlen
      have hi : i < nums := by omega
      have ht : ua.length + lq.length = nin1.length + 1 := by
        rcases htime with h | h
        · simpa using h
        · simp at h
      obtain ⟨v, ua1, lq1, a1, b1, hm, ha1, hb1, hcnt, hemit⟩ :=
        mid_emit_step pid count hpid p st a b ua lq [] (nq ++ [z])
          (tagged .Lower [] ++ (tagged .Upper nin1 ++ rest)) out ha
          (by simpa using hb) (by simp) hst (by simpa using hne)
      refine ⟨v, ua1, lq1, [], nq ++ [z], nin1, a1, b1, hm, ha1, hb1, ?_, ?_, ?_, ?_, ?_⟩
      · simp only [List.length_nil]; omega
      · simp
      · left; omega
      · simp only [List.length_nil]; omega
      · simp only [Mid.sort_body, Mid.sort_recv, hi, if_true, Mid.receive_from_prev_p, tagged,
          List.map_cons, List.map_nil, List.nil_append, List.cons_append, Mid.save_message]
        simp only [tagged, List.map_nil, List.nil_append] at hemit
        rw [List.append_assoc]
        exact hemit
    | nil =>
      have hr : rest = [] := by
        rcases htime with h | h
        · rw [List.length_nil] at h; omega
        · exact h.2
      subst hr
      simp only [List.length_nil, Nat.add_zero] at hlen
      have hi : ¬ (i < nums) := by omega
      obtain ⟨v, ua1, lq1, a1, b1, hm, ha1, hb1, hcnt, hemit⟩ :=
        mid_emit_step pid count hpid p st a b ua lq [] nq
          (tagged .Lower [] ++ (tagged .Upper [] ++ [])) out ha
          (by simpa using hb) (by simp) hst (by simpa using hne)
      refine ⟨v, ua1, lq1, [], nq, [], a1, b1, hm, ha1, hb1, ?_, rfl, ?_, ?_, ?_⟩
      · simp only [List.length_nil]; omega
      · exact Or.inr ⟨rfl, rfl⟩
      · simp only [List.length_nil]; omega
      · simp only [Mid.sort_body, Mid.sort_recv, hi, if_false]
        exact hemit

/-- One pair of runs: from any point inside the merge of an Upper run and a Lower run, the
remaining iterations of Mid::sort send the rest of their merge under the current tag, then
toggle, and leave the next Upper run in pipes_[0]. -/
theorem mid_block (pid count nums : Nat) (hpid : 0 < pid) :
    ∀ (n : Nat) (ua lq lin nq nin : List Primitive) (rest : List Message) (p : PipeSelect)
      (st : Bool) (a b : Nat) (out : List Message) (i k : Nat),
      ua.length + lq.length + lin.length = n + 1 →
      a + ua.length = in_seq_len pid → b + lq.length + lin.length = in_seq_len pid →
      (st = true ∨ (a = 0 ∧ b = 0)) →
      (ua.length + lq.length = nin.length ∨ (nin = [] ∧ rest = [])) →
      lin.length + nin.length + rest.length = nums - i →
      Mid.sort_loop nums (n + 1 + k) i
        { pid_ := pid, count_ := count, pipe_select_ := p, sent_to_selected_ := a + b,
          pipes_0 := { queue := ua ++ nq, taken := a }, pipes_1 := { queue := lq, taken := b },
          started_ := st, inbox := tagged .Lower lin ++ (tagged .Upper nin ++ rest),
          outbox := out } =
      Mid.sort_loop nums k (i + (n + 1))
        { pid_ := pid, count_ := count, pipe_select_ := p.toggle, sent_to_selected_ := 0,
          pipes_0 := { queue := nq ++ nin, taken := 0 }, pipes_1 := { queue := [], taken := 0 },
          started_ := true, inbox := rest,
          outbox := out ++ tagged p (mergeLE ua (lq ++ lin)) } := by
  intro n
  induction n with
  | zero =>
    intro ua lq lin nq nin rest p st a b out i k hn ha hb hst htime hlen
    obtain ⟨v, ua1, lq1, lin1, nq1, nin1, a1, b1, hm, _, _, hcnt, hnq, ht1, _, hbody⟩ :=
      mid_iter pid count nums hpid ua lq lin nq nin rest p st a b out i (by omega) ha hb hst
        htime hlen
    have hz : ua1.length + lq1.length + lin1.length = 0 := by omega
    have e1 : ua1 = [] := List.length_eq_zero.mp (by omega)
    have e2 : lq1 = [] := List.length_eq_zero.mp (by omega)
    have e3 : lin1 = [] := List.length_eq_zero.mp (by omega)
    have e4 : nin1 = [] := by
      rcases ht1 with h | h
      · exact List.length_eq_zero.mp (by omega)
      · exact h.1
    subst e1 e2 e3 e4
    have hk : 0 + 1 + k = k + 1 := by omega
    rw [hk, Mid.sort_loop, hbody]
    simp only [List.length_nil, if_true, List.append_nil] at hnq ⊢
    subst hnq
    rw [hm]
    simp [tagged, mergeLE_nil_left]
  | succ m ih =>
    intro ua lq lin nq nin rest p st a b out i k hn ha hb hst htime hlen
    obtain ⟨v, ua1, lq1, lin1, nq1, nin1, a1, b1, hm, ha1, hb1, hcnt, hnq, ht1, hlen1, hbody⟩ :=
      mid_iter pid count nums hpid ua lq lin nq nin rest p st a b out i (by omega) ha hb hst
        htime hlen
    have hz : ¬ (ua1.length + lq1.length + lin1.length = 0) := by omega
    have hk : m + 1 + 1 + k = (m + 1 + k) + 1 := by omega
    rw [hk, Mid.sort_loop, hbody]
    simp only [hz, if_false]
    rw [ih ua1 lq1 lin1 nq1 nin1 rest p true a1 b1 _ (i + 1) k (by omega) ha1 hb1 (Or.inl rfl)
      ht1 hlen1, hnq, hm]
    have hi : i + 1 + (m + 1) = i + (m + 1 + 1) := by omega
    rw [hi]
    simp [tagged]

/-- With pipes_[1] empty and started_ false the rest of the loop body does nothing -/
theorem mid_emit_idle (s : Mid) (h1 : s.pipes_1.queue = []) (h2 : s.started_ = false) :
    s.sort_emit = .ok s := by
  simp [Mid.sort_emit, Mid.sort_latch, Mid.can_sort_begin, h1, h2]

/-- Buffering: while pipes_[1] is empty the loop of Mid::sort only stores what it receives -/
theorem mid_buffer (pid count nums : Nat) :
    ∀ (us q : List Primitive) (rest : List Message) (p : PipeSelect) (out : List Message)
      (i k : Nat), i + us.length ≤ nums →
      Mid.sort_loop nums (us.length + k) i
        { pid_ := pid, count_ := count, pipe_select_ := p, sent_to_selected_ := 0,
          pipes_0 := { queue := q, taken := 0 }, pipes_1 := { queue := [], taken := 0 },
          started_ := false, inbox := tagged .Upper us ++ rest, outbox := out } =
      Mid.sort_loop nums k (i + us.length)
        { pid_ := pid, count_ := count, pipe_select_ := p, sent_to_selected_ := 0,
          pipes_0 := { queue := q ++ us, taken := 0 }, pipes_1 := { queue := [], taken := 0 },
          started_ := false, inbox := rest, outbox := out } := by
  intro us
  induction us with
  | nil => intro q rest p out i k _; simp [tagged]
  | cons x us ih =>
    intro q rest p out i k hi
    simp only [List.length_cons] at hi
    have hlt : i < nums := by omega
    have hk : (x :: us).length + k = (us.length + k) + 1 := by simp only [List.length_cons]; omega
    rw [hk, Mid.sort_loop]
    simp only [Mid.sort_body, Mid.sort_recv, hlt, if_true, Mid.receive_from_prev_p, tagged,
      List.map_cons, List.cons_append, Mid.save_message]
    rw [mid_emit_idle _ rfl rfl]
    have h := ih (q ++ [x]) rest p out (i + 1) k (by omega)
    simp only [tagged] at h
    simp only [h]
    have hi2 : i + 1 + us.length = i + (us.length + 1) := by omega
    simp [hi2]

theorem pairStream_length (len : Nat) :
    ∀ ps : List (List Primitive × List Primitive),
      (∀ q ∈ ps, q.1.length = len ∧ q.2.length = len) →
      (pairStream ps).length = 2 * len * ps.length := by
  intro ps
  induction ps with
  | nil => intro _; simp [pairStream]
  | cons q ps ih =>
    intro h
    have hq := h q (List.mem_cons_self _ _)
    have := ih (fun r hr => h r (List.mem_cons_of_mem _ hr))
    simp only [pairStream, List.length_append, tagged_length, List.length_cons, this, hq.1, hq.2]
    ring

/-- All pairs of runs: started with the first Upper run in pipes_[0] and the stream at the
first Lower run, the loop of Mid::sort sends the merge of every pair, one tag per pair. -/
theorem mid_pairs (pid count nums : Nat) (hpid : 0 < pid) :
    ∀ (ps : List (List Primitive × List Primitive)) (u l : List Primitive) (p : PipeSelect)
      (st : Bool) (out : List Message) (i k : Nat),
      u.length = in_seq_len pid → l.length = in_seq_len pid →
      (∀ q ∈ ps, q.1.length = in_seq_len pid ∧ q.2.length = in_seq_len pid) →
      l.length + (pairStream ps).length = nums - i →
      ∃ pf : PipeSelect,
        Mid.sort_loop nums (2 * in_seq_len pid * (ps.length + 1) + k) i
          { pid_ := pid, count_ := count, pipe_select_ := p, sent_to_selected_ := 0,
            pipes_0 := { queue := u, taken := 0 }, pipes_1 := { queue := [], taken := 0 },
            started_ := st, inbox := tagged .Lower l ++ pairStream ps, outbox := out } =
        Mid.sort_loop nums k (i + 2 * in_seq_len pid * (ps.length + 1))
          { pid_ := pid, count_ := count, pipe_select_ := pf, sent_to_selected_ := 0,
            pipes_0 := { queue := [], taken := 0 }, pipes_1 := { queue := [], taken := 0 },
            started_ := true, inbox := [],
            outbox := out ++ altTagged p (mergeLE u l :: ps.map (fun q => mergeLE q.1 q.2)) } := by
  have hL := in_seq_len_pos hpid
  intro ps
  induction ps with
  | nil =>
    intro u l p st out i k hu hl _ hlen
    refine ⟨p.toggle, ?_⟩
    have hb := mid_block pid count nums hpid (2 * in_seq_len pid - 1) u [] l [] [] [] p st 0 0
      out i k (by simp only [List.length_nil]; omega) (by omega)
      (by simp only [List.length_nil]; omega) (Or.inr ⟨rfl, rfl⟩) (Or.inr ⟨rfl, rfl⟩)
      (by simpa [pairStream] using hlen)
    have e1 : 2 * in_seq_len pid - 1 + 1 = 2 * in_seq_len pid * (([] : List (List Primitive × List Primitive)).length + 1) := by
      simp only [List.length_nil]; omega
    rw [e1] at hb
    simpa [pairStream, tagged, altTagged] using hb
  | cons q ps ih =>
    intro u l p st out i k hu hl hall hlen
    have hq := hall q (List.mem_cons_self _ _)
    have hps := fun r hr => hall r (List.mem_cons_of_mem q hr)
    have hpl := pairStream_length (in_seq_len pid) ps hps
    simp only [pairStream, List.length_append, tagged_length, hq.1, hq.2, hpl, hl] at hlen
    have hb := mid_block pid count nums hpid (2 * in_seq_len pid - 1) u [] l [] q.1
      (tagged .Lower q.2 ++ pairStream ps) p st 0 0 out i
      (2 * in_seq_len pid * (ps.length + 1) + k)
      (by simp only [List.length_nil]; omega) (by omega)
      (by simp only [List.length_nil]; omega) (Or.inr ⟨rfl, rfl⟩)
      (Or.inl (by simp only [List.length_nil]; omega))
      (by simp only [List.length_append, tagged_length, hq.1, hq.2, hpl, hl]; omega)
    obtain ⟨pf, hih⟩ := ih q.1 q.2 p.toggle true (out ++ tagged p (mergeLE u ([] ++ l)))
      (i + (2 * in_seq_len pid - 1 + 1)) k hq.1 hq.2 hps
      (by simp only [hq.2, hpl]
          have : 2 * in_seq_len pid * (ps.length + 1) = 2 * in_seq_len pid * ps.length + 2 * in_seq_len pid := by ring
          omega)
    refine ⟨pf, ?_⟩
    have e1 : 2 * in_seq_len pid * ((q :: ps).length + 1) + k =
        2 * in_seq_len pid - 1 + 1 + (2 * in_seq_len pid * (ps.length + 1) + k) := by
      simp only [List.length_cons]
      have : 2 * in_seq_len pid * (ps.length + 1 + 1) = 2 * in_seq_len pid * (ps.length + 1) + 2 * in_seq_len pid := by ring
      omega
    have e2 : i + 2 * in_seq_len pid * ((q :: ps).length + 1) =
        i + (2 * in_seq_len pid - 1 + 1) + 2 * in_seq_len pid * (ps.length + 1) := by
      simp only [List.length_cons]
      have : 2 * in_seq_len pid * (ps.length + 1 + 1) = 2 * in_seq_len pid * (ps.length + 1) + 2 * in_seq_len pid := by ring
      omega
    rw [e1, e2]
    simp only [pairStream, List.nil_append, List.append_nil] at hb hih ⊢
    rw [hb, hih]
    simp [altTagged, List.append_assoc]

/-- Mid::sort run on a stream of pairs of runs of length in_seq_len -/
theorem mid_sort_loop_pairs (pid count nums : Nat) (hpid : 0 < pid)
    (q : List Primitive × List Primitive) (ps : List (List Primitive × List Primitive))
    (hall : ∀ r ∈ q :: ps, r.1.length = in_seq_len pid ∧ r.2.length = in_seq_len pid)
    (hN : 2 * in_seq_len pid * (ps.length + 1) = nums) :
    ∃ pf : PipeSelect,
      Mid.sort_loop nums (nums + in_seq_len pid) 0 (Mid.init pid count (pairStream (q :: ps))) =
        .ok { pid_ := pid, count_ := count, pipe_select_ := pf, sent_to_selected_ := 0,
              pipes_0 := { queue := [], taken := 0 }, pipes_1 := { queue := [], taken := 0 },
              started_ := true, inbox := [],
              outbox := altTagged .Upper ((q :: ps).map (fun r => mergeLE r.1 r.2)) } := by
  have hq := hall q (List.mem_cons_self _ _)
  have hps := fun r hr => hall r (List.mem_cons_of_mem q hr)
  have hpl := pairStream_length (in_seq_len pid) ps hps
  have hexp : 2 * in_seq_len pid * (ps.length + 1) =
      2 * in_seq_len pid * ps.length + 2 * in_seq_len pid := by ring
  have hbuf := mid_buffer pid count nums q.1 [] (tagged .Lower q.2 ++ pairStream ps) .Upper []
    0 (2 * in_seq_len pid * (ps.length + 1) + 0) (by rw [hq.1]; omega)
  obtain ⟨pf, hp⟩ := mid_pairs pid count nums hpid ps q.1 q.2 .Upper false [] (0 + q.1.length) 0
    hq.1 hq.2 hps (by rw [hq.1, hq.2, hpl]; omega)
  refine ⟨pf, ?_⟩
  have e1 : nums + in_seq_len pid = q.1.length + (2 * in_seq_len pid * (ps.length + 1) + 0) := by
    rw [hq.1]; omega
  rw [e1]
  simp only [Mid.init, pairStream, List.nil_append] at hbuf hp ⊢
  rw [hbuf, hp]
  simp [Mid.sort_loop]

/-- The latch sets started_ as soon as the start condition holds, and keeps it set -/
theorem mid_latch_started (s : Mid)
    (h : s.started_ = true ∨
      (in_seq_len s.pid_ ≤ s.pipes_0.queue.length ∧ 1 ≤ s.pipes_1.queue.length)) :
    s.sort_latch = { s with started_ := true } := by
  rcases h with h | ⟨h0, h1⟩
  · cases s
    simp only at h
    subst h
    simp [Mid.sort_latch, Mid.start_sort]
  · have h2 : 0 < s.pipes_1.queue.length := h1
    simp only [Mid.sort_latch, Mid.start_sort, Mid.can_sort_begin, ge_iff_le, h0, h1,
      decide_True, Bool.and_self, if_true]

/-! ## The single merge of Last::sort -/

/-- The emitting half of one iteration of Last::sort: ua is what is left of the Upper run,
lq ++ lin what is left of the Lower run (lq received, lin not yet). -/
theorem last_emit_step (pid count : Nat) (p : PipeSelect) (st : Bool) (sent t0 t1 : Nat)
    (ua lq lin : List Primitive) (inb ob : List Message) (out : Sequence)
    (hlook : lq = [] → lin = [])
    (hst : st = true ∨ (in_seq_len pid ≤ ua.length ∧ 1 ≤ lq.length))
    (hne : 1 ≤ ua.length + lq.length + lin.length) :
    ∃ (v : Primitive) (ua1 lq1 : List Primitive),
      mergeLE ua (lq ++ lin) = v :: mergeLE ua1 (lq1 ++ lin) ∧
      ua1.length + lq1.length + 1 = ua.length + lq.length ∧
      Last.sort_emit
        { mid := { pid_ := pid, count_ := count, pipe_select_ := p, sent_to_selected_ := sent,
                   pipes_0 := { queue := ua, taken := t0 },
                   pipes_1 := { queue := lq, taken := t1 },
                   started_ := st, inbox := inb, outbox := ob },
          output_ := out } =
      .ok { mid := { pid_ := pid, count_ := count, pipe_select_ := p, sent_to_selected_ := sent,
                     pipes_0 := { queue := ua1, taken := t0 },
                     pipes_1 := { queue := lq1, taken := t1 },
                     started_ := true, inbox := inb, outbox := ob },
            output_ := out ++ [v] } := by
  have hl := mid_latch_started
    { pid_ := pid, count_ := count, pipe_select_ := p, sent_to_selected_ := sent,
      pipes_0 := { queue := ua, taken := t0 }, pipes_1 := { queue := lq, taken := t1 },
      started_ := st, inbox := inb, outbox := ob } hst
  unfold Last.sort_emit
  simp only [hl]
  cases ua with
  | nil =>
    cases lq with
    | nil => simp [hlook rfl] at hne
    | cons y lq1 =>
      refine ⟨y, [], lq1, ?_, ?_, ?_⟩
      · simp [mergeLE_nil_left]
      · simp
      · simp [Last.next_primitive, Last.take_from]
  | cons x ua1 =>
    cases lq with
    | nil =>
      have e1 : lin = [] := hlook rfl
      subst e1
      refine ⟨x, ua1, [], ?_, ?_, ?_⟩
      · simp [mergeLE_nil_right]
      · simp
      · simp [Last.next_primitive, Last.take_from]
    | cons y lq1 =>
      by_cases hxy : x ≤ y
      · have hyx : ¬ (y < x) := not_lt.mpr hxy
        refine ⟨x, ua1, y :: lq1, ?_, ?_, ?_⟩
        · simp [mergeLE_cons_cons, hxy]
        · simp only [List.length_cons]; omega
        · simp [Last.next_primitive, Last.take_from, hyx]
      · have hyx : y < x := not_le.mp hxy
        refine ⟨y, x :: ua1, lq1, ?_, ?_, ?_⟩
        · simp [mergeLE_cons_cons, hxy]
        · simp only [List.length_cons]; omega
        · simp [Last.next_primitive, Last.take_from, hyx]

/-- One whole iteration of Last::sort inside the merge: the receive of a Lower element (if
any is left) followed by one push_back. -/
theorem last_iter (pid count nums : Nat) (p : PipeSelect) (sent t0 t1 : Nat)
    (ob : List Message) (ua lq lin : List Primitive) (st : Bool) (out : Sequence) (i : Nat)
    (hne : 1 ≤ ua.length + lq.length + lin.length)
    (hst : st = true ∨ (in_seq_len pid ≤ ua.length ∧ 1 ≤ lq.length + lin.length))
    (hlen : lin.length = nums - i) :
    ∃ (v : Primitive) (ua1 lq1 lin1 : List Primitive),
      mergeLE ua (lq ++ lin) = v :: mergeLE ua1 (lq1 ++ lin1) ∧
      ua1.length + lq1.length + lin1.length + 1 = ua.length + lq.length + lin.length ∧
      lin1.length = nums - (i + 1) ∧
      Last.sort_body nums i
        { mid := { pid_ := pid, count_ := count, pipe_select_ := p, sent_to_selected_ := sent,
                   pipes_0 := { queue := ua, taken := t0 },
                   pipes_1 := { queue := lq, taken := t1 },
                   started_ := st, inbox := tagged .Lower lin, outbox := ob },
          output_ := out } =
      .ok { mid := { pid_ := pid, count_ := count, pipe_select_ := p, sent_to_selected_ := sent,
                     pipes_0 := { queue := ua1, taken := t0 },
                     pipes_1 := { queue := lq1, taken := t1 },
                     started_ := true, inbox := tagged .Lower lin1, outbox := ob },
            output_ := out ++ [v] } := by
  cases lin with
  | cons z lin1 =>
    simp only [List.length_cons] at hne hlen hst
    have hi : i < nums := by omega
    obtain ⟨v, ua1, lq1, hm, hcnt, hemit⟩ :=
      last_emit_step pid count p st sent t0 t1 ua (lq ++ [z]) lin1 (tagged .Lower lin1) ob out
        (by simp)
        (by rcases hst with h | h
            · exact Or.inl h
            · right; simp only [List.length_append, List.length_singleton]; omega)
        (by simp only [List.length_append, List.length_singleton]; omega)
    simp only [List.length_append, List.length_singleton] at hcnt
    refine ⟨v, ua1, lq1, lin1, ?_, ?_, ?_, ?_⟩
    · simpa using hm
    · simp only [List.length_cons]; omega
    · omega
    · simp only [Last.sort_body, Mid.sort_recv, hi, if_true, Mid.receive_from_prev_p, tagged,
        List.map_cons, Mid.save_message]
      exact hemit
  | nil =>
    simp only [List.length_nil, Nat.add_zero] at hne hlen hst
    have hi : ¬ (i < nums) := by omega
    obtain ⟨v, ua1, lq1, hm, hcnt, hemit⟩ :=
      last_emit_step pid count p st sent t0 t1 ua lq [] (tagged .Lower []) ob out
        (by simp) hst (by simpa using hne)
    refine ⟨v, ua1, lq1, [], hm, ?_, ?_, ?_⟩
    · simp only [List.length_nil]; omega
    · simp only [List.length_nil]; omega
    · simp only [Last.sort_body, Mid.sort_recv, hi, if_false]
      exact hemit

/-- The merge of Last::sort: from any point inside the merge of the Upper run and the Lower
run, the remaining iterations append the rest of their merge to output_. -/
theorem last_block (pid count nums : Nat) (p : PipeSelect) (sent t0 t1 : Nat)
    (ob : List Message) :
    ∀ (n : Nat) (ua lq lin : List Primitive) (st : Bool) (out : Sequence) (i k : Nat),
      ua.length + lq.length + lin.length = n + 1 →
      (st = true ∨ (in_seq_len pid ≤ ua.length ∧ 1 ≤ lq.length + lin.length)) →
      lin.length = nums - i →
      Last.sort_loop nums (n + 1 + k) i
        { mid := { pid_ := pid, count_ := count, pipe_select_ := p, sent_to_selected_ := sent,
                   pipes_0 := { queue := ua, taken := t0 },
                   pipes_1 := { queue := lq, taken := t1 },
                   started_ := st, inbox := tagged .Lower lin, outbox := ob },
          output_ := out } =
      Last.sort_loop nums k (i + (n + 1))
        { mid := { pid_ := pid, count_ := count, pipe_select_ := p, sent_to_selected_ := sent,
                   pipes_0 := { queue := [], taken := t0 },
                   pipes_1 := { queue := [], taken := t1 },
                   started_ := true, inbox := [], outbox := ob },
          output_ := out ++ mergeLE ua (lq ++ lin) } := by
  intro n
  induction n with
  | zero =>
    intro ua lq lin st out i k hn hst hlen
    obtain ⟨v, ua1, lq1, lin1, hm, hcnt, _, hbody⟩ :=
      last_iter pid count nums p sent t0 t1 ob ua lq lin st out i (by omega) hst hlen
    have e1 : ua1 = [] := List.length_eq_zero.mp (by omega)
    have e2 : lq1 = [] := List.length_eq_zero.mp (by omega)
    have e3 : lin1 = [] := List.length_eq_zero.mp (by omega)
    subst e1 e2 e3
    have hk : 0 + 1 + k = k + 1 := by omega
    rw [hk, Last.sort_loop, hbody, hm]
    simp [tagged, mergeLE_nil_left]
  | succ m ih =>
    intro ua lq lin st out i k hn hst hlen
    obtain ⟨v, ua1, lq1, lin1, hm, hcnt, hlen1, hbody⟩ :=
      last_iter pid count nums p sent t0 t1 ob ua lq lin st out i (by omega) hst hlen
    have hk : m + 1 + 1 + k = (m + 1 + k) + 1 := by omega
    rw [hk, Last.sort_loop, hbody]
    simp only []
    rw [ih ua1 lq1 lin1 true _ (i + 1) k (by omega) (Or.inl rfl) hlen1, hm]
    have hi : i + 1 + (m + 1) = i + (m + 1 + 1) := by omega
    rw [hi]
    simp

/-- With pipes_[1] empty and started_ false the rest of the body of Last::sort does
nothing -/
theorem last_emit_idle (s : Last) (h1 : s.mid.pipes_1.queue = [])
    (h2 : s.mid.started_ = false) : Last.sort_emit s = .ok s := by
  simp [Last.sort_emit, Mid.sort_latch, Mid.can_sort_begin, h1, h2]

/-- Buffering in Last::sort: while pipes_[1] is empty the loop only stores what it receives -/
theorem last_buffer (pid count nums : Nat) :
    ∀ (us q : List Primitive) (rest : List Message) (p : PipeSelect) (ob : List Message)
      (out : Sequence) (i k : Nat), i + us.length ≤ nums →
      Last.sort_loop nums (us.length + k) i
        { mid := { pid_ := pid, count_ := count, pipe_select_ := p, sent_to_selected_ := 0,
                   pipes_0 := { queue := q, taken := 0 },
                   pipes_1 := { queue := [], taken := 0 },
                   started_ := false, inbox := tagged .Upper us ++ rest, outbox := ob },
          output_ := out } =
      Last.sort_loop nums k (i + us.length)
        { mid := { pid_ := pid, count_ := count, pipe_select_ := p, sent_to_selected_ := 0,
                   pipes_0 := { queue := q ++ us, taken := 0 },
                   pipes_1 := { queue := [], taken := 0 },
                   started_ := false, inbox := rest, outbox := ob },
          output_ := out } := by
  intro us
  induction us with
  | nil => intro q rest p ob out i k _; simp [tagged]
  | cons x us ih =>
    intro q rest p ob out i k hi
    simp only [List.length_cons] at hi
    have hlt : i < nums := by omega
    have hk : (x :: us).length + k = (us.length + k) + 1 := by simp only [List.length_cons]; omega
    rw [hk, Last.sort_loop]
    simp only [Last.sort_body, Mid.sort_recv, hlt, if_true, Mid.receive_from_prev_p, tagged,
      List.map_cons, List.cons_append, Mid.save_message]
    rw [last_emit_idle _ rfl rfl]
    have h := ih (q ++ [x]) rest p ob out (i + 1) k (by omega)
    simp only [tagged] at h
    simp only [h]
    have hi2 : i + 1 + us.length = i + (us.length + 1) := by omega
    simp [hi2]

/-- The loop of Last::sort run on a stream made of one Upper run followed by one Lower run,
both of length in_seq_len -/
theorem last_sort_loop_pair (pid count nums : Nat) (hpid : 0 < pid) (u l : List Primitive)
    (hu : u.length = in_seq_len pid) (hl : l.length = in_seq_len pid)
    (hN : 2 * in_seq_len pid = nums) :
    Last.sort_loop nums (nums + in_seq_len pid) 0
        (Last.init pid count (tagged .Upper u ++ tagged .Lower l)) =
      .ok { mid := { pid_ := pid, count_ := count, pipe_select_ := .Upper,
                     sent_to_selected_ := 0,
                     pipes_0 := { queue := [], taken := 0 },
                     pipes_1 := { queue := [], taken := 0 },
                     started_ := true, inbox := [], outbox := [] },
            output_ := mergeLE u l } := by
  have hL := in_seq_len_pos hpid
  have hbuf := last_buffer pid count nums u [] (tagged .Lower l) .Upper [] [] 0
    (2 * in_seq_len pid - 1 + 1 + 0) (by omega)
  have hb := last_block pid count nums .Upper 0 0 0 [] (2 * in_seq_len pid - 1) u [] l false []
    (0 + u.length) 0 (by simp only [List.length_nil]; omega)
    (Or.inr ⟨by omega, by simp only [List.length_nil]; omega⟩) (by omega)
  have e1 : nums + in_seq_len pid = u.length + (2 * in_seq_len pid - 1 + 1 + 0) := by omega
  rw [e1]
  simp only [Last.init, Mid.init, List.nil_append] at hbuf hb ⊢
  rw [hbuf, hb]
  simp [Last.sort_loop]

/-! ## Whole stages and the whole pipeline -/

theorem mergeLE_length (xs ys : List Primitive) :
    (mergeLE xs ys).length = xs.length + ys.length := by
  simp [mergeLE]

theorem mergeLE_perm (xs ys : List Primitive) : (mergeLE xs ys).Perm (xs ++ ys) :=
  List.merge_perm_append _

theorem mergeLE_sorted (xs ys : List Primitive) (hx : xs.Sorted (· ≤ ·))
    (hy : ys.Sorted (· ≤ ·)) : (mergeLE xs ys).Sorted (· ≤ ·) := by
  have h : List.Pairwise (fun a b => decide (a ≤ b) = true)
      (List.merge xs ys (fun a b => decide (a ≤ b))) := by
    apply List.sorted_merge
    · intro a b c hab hbc
      simp only [decide_eq_true_eq] at hab hbc ⊢
      exact le_trans hab hbc
    · intro a b
      rcases le_total a b with h | h <;> simp [h]
    · exact hx.imp (fun h => by simpa using h)
    · exact hy.imp (fun h => by simpa using h)
  exact h.imp (fun h => by simpa using h)

/-- Mid::sort on a stream of pairs of runs of length in_seq_len that holds EXPECTED_NUMS
messages -/
theorem mid_sort_pairs (pid count : Nat) (hpid : 0 < pid)
    (q : List Primitive × List Primitive) (ps : List (List Primitive × List Primitive))
    (hall : ∀ r ∈ q :: ps, r.1.length = in_seq_len pid ∧ r.2.length = in_seq_len pid)
    (hN : 2 * in_seq_len pid * (ps.length + 1) = EXPECTED_NUMS) :
    ∃ pf : PipeSelect,
      (Mid.init pid count (pairStream (q :: ps))).sort =
        .ok { pid_ := pid, count_ := count, pipe_select_ := pf, sent_to_selected_ := 0,
              pipes_0 := { queue := [], taken := 0 }, pipes_1 := { queue := [], taken := 0 },
              started_ := true, inbox := [],
              outbox := altTagged .Upper ((q :: ps).map (fun r => mergeLE r.1 r.2)) } :=
  mid_sort_loop_pairs pid count EXPECTED_NUMS hpid q ps hall hN

/-- Last::sort on a stream of one Upper run and one Lower run of length in_seq_len that holds
EXPECTED_NUMS messages -/
theorem last_sort_pair (pid count : Nat) (hpid : 0 < pid) (u l : List Primitive)
    (hu : u.length = in_seq_len pid) (hl : l.length = in_seq_len pid)
    (hN : 2 * in_seq_len pid = EXPECTED_NUMS) :
    (Last.init pid count (tagged .Upper u ++ tagged .Lower l)).sort =
      .ok { mid := { pid_ := pid, count_ := count, pipe_select_ := .Upper,
                     sent_to_selected_ := 0,
                     pipes_0 := { queue := [], taken := 0 },
                     pipes_1 := { queue := [], taken := 0 },
                     started_ := true, inbox := [], outbox := [] },
            output_ := mergeLE u l } :=
  last_sort_loop_pair pid count EXPECTED_NUMS hpid u l hu hl hN

/-- A run of the pipeline on sixteen elements, stage by stage -/
theorem pipeline_run (x0 x1 x2 x3 x4 x5 x6 x7 x8 x9 x10 x11 x12 x13 x14 x15 : Primitive) :
    ∃ pf1 pf2 pf3 : PipeSelect,
      pipeline [x0, x1, x2, x3, x4, x5, x6, x7, x8, x9, x10, x11, x12, x13, x14, x15] =
        .ok {
          first := (First.init 0 EXPECTED_PROCESSES
            [x0, x1, x2, x3, x4, x5, x6, x7, x8, x9, x10, x11, x12, x13, x14, x15]).sort,
          mid1 := { pid_ := 1, count_ := EXPECTED_PROCESSES, pipe_select_ := pf1,
                    sent_to_selected_ := 0,
                    pipes_0 := { queue := [], taken := 0 },
                    pipes_1 := { queue := [], taken := 0 },
                    started_ := true, inbox := [],
                    outbox := altTagged .Upper (mergePairs
                      [[x0], [x1], [x2], [x3], [x4], [x5], [x6], [x7], [x8], [x9], [x10],
                       [x11], [x12], [x13], [x14], [x15]]) },
          mid2 := { pid_ := 2, count_ := EXPECTED_PROCESSES, pipe_select_ := pf2,
                    sent_to_selected_ := 0,
                    pipes_0 := { queue := [], taken := 0 },
                    pipes_1 := { queue := [], taken := 0 },
                    started_ := true, inbox := [],
                    outbox := altTagged .Upper (mergePairs (mergePairs
                      [[x0], [x1], [x2], [x3], [x4], [x5], [x6], [x7], [x8], [x9], [x10],
                       [x11], [x12], [x13], [x14], [x15]])) },
          mid3 := { pid_ := 3, count_ := EXPECTED_PROCESSES, pipe_select_ := pf3,
                    sent_to_selected_ := 0,
                    pipes_0 := { queue := [], taken := 0 },
                    pipes_1 := { queue := [], taken := 0 },
                    started_ := true, inbox := [],
                    outbox := altTagged .Upper (mergePairs (mergePairs (mergePairs
                      [[x0], [x1], [x2], [x3], [x4], [x5], [x6], [x7], [x8], [x9], [x10],
                       [x11], [x12], [x13], [x14], [x15]]))) },
          last := { mid := { pid_ := 4, count_ := EXPECTED_PROCESSES, pipe_select_ := .Upper,
                             sent_to_selected_ := 0,
                             pipes_0 := { queue := [], taken := 0 },
                             pipes_1 := { queue := [], taken := 0 },
                             started_ := true, inbox := [], outbox := [] },
                    output_ := (mergePairs (mergePairs (mergePairs (mergePairs
                      [[x0], [x1], [x2], [x3], [x4], [x5], [x6], [x7], [x8], [x9], [x10],
                       [x11], [x12], [x13], [x14], [x15]])))).flatten } } := by
  obtain ⟨pf1, h1⟩ := mid_sort_pairs 1 EXPECTED_PROCESSES (by decide) ([x0], [x1])
    [([x2], [x3]), ([x4], [x5]), ([x6], [x7]), ([x8], [x9]), ([x10], [x11]), ([x12], [x13]),
     ([x14], [x15])] (by simp [in_seq_len]) (by simp [in_seq_len, EXPECTED_NUMS])
  obtain ⟨pf2, h2⟩ := mid_sort_pairs 2 EXPECTED_PROCESSES (by decide)
    (mergeLE [x0] [x1], mergeLE [x2] [x3])
    [(mergeLE [x4] [x5], mergeLE [x6] [x7]), (mergeLE [x8] [x9], mergeLE [x10] [x11]),
     (mergeLE [x12] [x13], mergeLE [x14] [x15])]
    (by simp [in_seq_len, mergeLE_length]) (by simp [in_seq_len, EXPECTED_NUMS])
  obtain ⟨pf3, h3⟩ := mid_sort_pairs 3 EXPECTED_PROCESSES (by decide)
    (mergeLE (mergeLE [x0] [x1]) (mergeLE [x2] [x3]),
     mergeLE (mergeLE [x4] [x5]) (mergeLE [x6] [x7]))
    [(mergeLE (mergeLE [x8] [x9]) (mergeLE [x10] [x11]),
      mergeLE (mergeLE [x12] [x13]) (mergeLE [x14] [x15]))]
    (by simp [in_seq_len, mergeLE_length]) (by simp [in_seq_len, EXPECTED_NUMS])
  have h4 := last_sort_pair 4 EXPECTED_PROCESSES (by decide)
    (mergeLE (mergeLE (mergeLE [x0] [x1]) (mergeLE [x2] [x3]))
      (mergeLE (mergeLE [x4] [x5]) (mergeLE [x6] [x7])))
    (mergeLE (mergeLE (mergeLE [x8] [x9]) (mergeLE [x10] [x11]))
      (mergeLE (mergeLE [x12] [x13]) (mergeLE [x14] [x15])))
    (by simp [in_seq_len, mergeLE_length]) (by simp [in_seq_len, mergeLE_length])
    (by simp [in_seq_len, EXPECTED_NUMS])
  refine ⟨pf1, pf2, pf3, ?_⟩
  have h0 := first_sort_outbox EXPECTED_PROCESSES
    [x0, x1, x2, x3, x4, x5, x6, x7, x8, x9, x10, x11, x12, x13, x14, x15]
  simp only [FIRST_PID] at h0
  simp only [pairStream, List.map, altTagged, PipeSelect.toggle, List.append_nil] at h1 h2 h3 h4
  simp only [pipeline, h0, alternate, PipeSelect.toggle, tagged, List.map, List.cons_append,
    List.nil_append, List.append_nil, mergePairs, altTagged, List.append_assoc, List.flatten]
    at h1 h2 h3 h4 ⊢
  rw [h1]
  simp only []
  rw [h2]
  simp only []
  rw [h3]
  simp only []
  rw [h4]

theorem list_of_length_16 {α : Type} (xs : List α) (h : xs.length = 16) :
    ∃ x0 x1 x2 x3 x4 x5 x6 x7 x8 x9 x10 x11 x12 x13 x14 x15 : α,
      xs = [x0, x1, x2, x3, x4, x5, x6, x7, x8, x9, x10, x11, x12, x13, x14, x15] := by
  match xs, h with
  | [x0, x1, x2, x3, x4, x5, x6, x7, x8, x9, x10, x11, x12, x13, x14, x15], _ => exact ⟨x0, x1, x2, x3, x4, x5, x6, x7, x8, x9, x10, x11, x12, x13, x14, x15, rfl⟩

theorem mergePairs_length : ∀ rs : List (List Primitive),
    (mergePairs rs).length = rs.length / 2
  | [] => by simp [mergePairs]
  | [_] => by simp [mergePairs]
  | _ :: _ :: rs => by
    simp only [mergePairs, List.length_cons, mergePairs_length rs]
    omega

theorem mergePairs_perm : ∀ rs : List (List Primitive), rs.length % 2 = 0 →
    (mergePairs rs).flatten.Perm rs.flatten
  | [], _ => by simp [mergePairs]
  | [_], h => by simp at h
  | a :: b :: rs, h => by
    have ih := mergePairs_perm rs (by simp only [List.length_cons] at h; omega)
    simp only [mergePairs, List.flatten_cons]
    rw [← List.append_assoc]
    exact List.Perm.append (mergeLE_perm a b) ih

theorem mergePairs_sorted : ∀ rs : List (List Primitive),
    (∀ r ∈ rs, r.Sorted (· ≤ ·)) → ∀ r ∈ mergePairs rs, r.Sorted (· ≤ ·)
  | [], _ => by simp [mergePairs]
  | [_], _ => by simp [mergePairs]
  | a :: b :: rs, h => by
    intro r hr
    simp only [mergePairs, List.mem_cons] at hr
    rcases hr with rfl | hr
    · exact mergeLE_sorted a b (h a (by simp)) (h b (by simp))
    · exact mergePairs_sorted rs (fun q hq => h q (by simp [hq])) r hr

theorem mergePairs_run_length (n : Nat) : ∀ rs : List (List Primitive),
    (∀ r ∈ rs, r.length = n) → ∀ r ∈ mergePairs rs, r.length = 2 * n
  | [], _ => by simp [mergePairs]
  | [_], _ => by simp [mergePairs]
  | a :: b :: rs, h => by
    intro r hr
    simp only [mergePairs, List.mem_cons] at hr
    rcases hr with rfl | hr
    · rw [mergeLE_length, h a (by simp), h b (by simp)]; omega
    · exact mergePairs_run_length n rs (fun q hq => h q (by simp [hq])) r hr

/-! ## Runs of a stream -/

theorem toggle_ne (p : PipeSelect) : p ≠ p.toggle := by
  cases p <;> simp [PipeSelect.toggle]

theorem splitBy_loop_tagged_end (p : PipeSelect) (gs : List (List Message)) :
    ∀ (xs : List Primitive) (x : Primitive) (g : List Message),
      List.splitBy.loop (fun a b : Message => decide (a.pipe = b.pipe)) (tagged p xs)
        { primitive := x, pipe := p } g gs =
      ((g.reverse ++ { primitive := x, pipe := p } :: tagged p xs) :: gs).reverse := by
  intro xs
  induction xs with
  | nil => intro x g; simp [tagged, List.splitBy.loop]
  | cons y ys ih =>
    intro x g
    have h := ih y ({ primitive := x, pipe := p } :: g)
    simp only [tagged, List.map_cons] at h ⊢
    simp only [List.splitBy.loop, decide_True, h]
    simp

theorem splitBy_loop_tagged_next (p : PipeSelect) (gs : List (List Message)) (y : Primitive)
    (rest : List Message) :
    ∀ (xs : List Primitive) (x : Primitive) (g : List Message),
      List.splitBy.loop (fun a b : Message => decide (a.pipe = b.pipe))
        (tagged p xs ++ { primitive := y, pipe := p.toggle } :: rest)
        { primitive := x, pipe := p } g gs =
      List.splitBy.loop (fun a b : Message => decide (a.pipe = b.pipe)) rest
        { primitive := y, pipe := p.toggle } []
        ((g.reverse ++ { primitive := x, pipe := p } :: tagged p xs) :: gs) := by
  intro xs
  induction xs with
  | nil =>
    intro x g
    have hne : ¬ (p = p.toggle) := toggle_ne p
    simp [tagged, List.splitBy.loop, hne]
  | cons z zs ih =>
    intro x g
    have h := ih z ({ primitive := x, pipe := p } :: g)
    simp only [tagged, List.map_cons, List.cons_append] at h ⊢
    simp only [List.splitBy.loop, decide_True, h]
    simp

theorem splitBy_loop_altTagged :
    ∀ (rs : List (List Primitive)) (p : PipeSelect) (x : Primitive) (xs : List Primitive)
      (gs : List (List Message)), (∀ r ∈ rs, r ≠ []) →
      List.splitBy.loop (fun a b : Message => decide (a.pipe = b.pipe))
        (tagged p xs ++ altTagged p.toggle rs) { primitive := x, pipe := p } [] gs =
      gs.reverse ++ tagRuns p ((x :: xs) :: rs) := by
  intro rs
  induction rs with
  | nil =>
    intro p x xs gs _
    have h := splitBy_loop_tagged_end p gs xs x []
    simp only [altTagged, tagRuns, List.append_nil, h]
    simp [tagged]
  | cons r rs ih =>
    intro p x xs gs hne
    cases r with
    | nil => exact absurd rfl (hne [] (List.mem_cons_self _ _))
    | cons y ys =>
      have h1 := splitBy_loop_tagged_next p gs y (tagged p.toggle ys ++ altTagged p rs) xs x []
      have h2 := ih p.toggle y ys ((tagged p (x :: xs)) :: gs)
        (fun q hq => hne q (List.mem_cons_of_mem _ hq))
      simp only [toggle_toggle] at h2
      simp only [altTagged, tagged, List.map_cons, List.cons_append, List.reverse_nil,
        List.nil_append, toggle_toggle] at h1 h2 ⊢
      rw [h1, h2]
      simp [tagRuns, tagged]

/-- The runs of a stream of non-empty runs whose tags alternate are exactly those runs -/
theorem runsOf_altTagged (rs : List (List Primitive)) (p : PipeSelect)
    (hne : ∀ r ∈ rs, r ≠ []) : runsOf (altTagged p rs) = tagRuns p rs := by
  cases rs with
  | nil => simp [runsOf, altTagged, tagRuns]
  | cons r rs =>
    cases r with
    | nil => exact absurd rfl (hne [] (List.mem_cons_self _ _))
    | cons x xs =>
      have h := splitBy_loop_altTagged rs p x xs [] (fun q hq => hne q (List.mem_cons_of_mem _ hq))
      simp only [runsOf, altTagged, tagged, List.map_cons, List.cons_append, List.splitBy] at h ⊢
      rw [h]
      simp

theorem mem_tagRuns : ∀ (rs : List (List Primitive)) (p : PipeSelect) (run : List Message),
    run ∈ tagRuns p rs → ∃ b ∈ rs, ∃ q : PipeSelect, run = tagged q b := by
  intro rs
  induction rs with
  | nil => intro p run h; simp [tagRuns] at h
  | cons r rs ih =>
    intro p run h
    simp only [tagRuns, List.mem_cons] at h
    rcases h with rfl | h
    · exact ⟨r, List.mem_cons_self _ _, p, rfl⟩
    · obtain ⟨b, hb, q, hq⟩ := ih p.toggle run h
      exact ⟨b, List.mem_cons_of_mem _ hb, q, hq⟩

theorem tagRuns_length : ∀ (rs : List (List Primitive)) (p : PipeSelect),
    (tagRuns p rs).length = rs.length := by
  intro rs
  induction rs with
  | nil => intro p; rfl
  | cons r rs ih => intro p; simp [tagRuns, ih]

theorem tagged_primitives (p : PipeSelect) (xs : List Primitive) :
    (tagged p xs).map Message.primitive = xs := by
  simp [tagged, Function.comp_def]

theorem altTagged_primitives : ∀ (rs : List (List Primitive)) (p : PipeSelect),
    (altTagged p rs).map Message.primitive = rs.flatten := by
  intro rs
  induction rs with
  | nil => intro p; rfl
  | cons r rs ih => intro p; simp [altTagged, ih, tagged_primitives]

theorem alternate_primitives : ∀ (xs : List Primitive) (p : PipeSelect),
    (alternate p xs).map Message.primitive = xs := by
  intro xs
  induction xs with
  | nil => intro p; rfl
  | cons x xs ih => intro p; simp [alternate, ih]

/-- The stages of a completed pipeline run: each process was run on what its predecessor
sent -/
theorem pipeline_stages (input : Sequence) (r : PipelineRun) (h : pipeline input = .ok r) :
    r.first = (First.init 0 EXPECTED_PROCESSES input).sort ∧
    (Mid.init 1 EXPECTED_PROCESSES r.first.outbox).sort = .ok r.mid1 ∧
    (Mid.init 2 EXPECTED_PROCESSES r.mid1.outbox).sort = .ok r.mid2 ∧
    (Mid.init 3 EXPECTED_PROCESSES r.mid2.outbox).sort = .ok r.mid3 ∧
    (Last.init 4 EXPECTED_PROCESSES r.mid3.outbox).sort = .ok r.last := by
  unfold pipeline at h
  simp only [] at h
  split at h
  · cases h
  · rename_i p1 h1
    split at h
    · cases h
    · rename_i p2 h2
      split at h
      · cases h
      · rename_i p3 h3
        split at h
        · cases h
        · rename_i p4 h4
          cases h
          exact ⟨rfl, h1, h2, h3, h4⟩

theorem singletons_length (xs : List Primitive) : (singletons xs).length = xs.length := by
  simp [singletons]

theorem singletons_flatten (xs : List Primitive) : (singletons xs).flatten = xs := by
  induction xs with
  | nil => rfl
  | cons x xs ih =>
    simp only [singletons, List.map_cons, List.flatten_cons] at ih ⊢
    rw [ih]; rfl

theorem singletons_run (xs : List Primitive) :
    ∀ r ∈ singletons xs, r.length = 1 ∧ r.Sorted (· ≤ ·) := by
  intro r hr
  simp only [singletons, List.mem_map] at hr
  obtain ⟨x, _, rfl⟩ := hr
  exact ⟨rfl, List.sorted_singleton x⟩

/-- A run of the pipeline on any sixteen elements, stage by stage -/
theorem pipeline_run_of_length (input : Sequence) (h : input.length = EXPECTED_NUMS) :
    ∃ pf1 pf2 pf3 : PipeSelect,
      pipeline input =
        .ok {
          first := (First.init 0 EXPECTED_PROCESSES input).sort,
          mid1 := { pid_ := 1, count_ := EXPECTED_PROCESSES, pipe_select_ := pf1,
                    sent_to_selected_ := 0,
                    pipes_0 := { queue := [], taken := 0 },
                    pipes_1 := { queue := [], taken := 0 },
                    started_ := true, inbox := [],
                    outbox := altTagged .Upper (mergePairs (singletons input)) },
          mid2 := { pid_ := 2, count_ := EXPECTED_PROCESSES, pipe_select_ := pf2,
                    sent_to_selected_ := 0,
                    pipes_0 := { queue := [], taken := 0 },
                    pipes_1 := { queue := [], taken := 0 },
                    started_ := true, inbox := [],
                    outbox := altTagged .Upper (mergePairs (mergePairs (singletons input))) },
          mid3 := { pid_ := 3, count_ := EXPECTED_PROCESSES, pipe_select_ := pf3,
                    sent_to_selected_ := 0,
                    pipes_0 := { queue := [], taken := 0 },
                    pipes_1 := { queue := [], taken := 0 },
                    started_ := true, inbox := [],
                    outbox := altTagged .Upper
                      (mergePairs (mergePairs (mergePairs (singletons input)))) },
          last := { mid := { pid_ := 4, count_ := EXPECTED_PROCESSES, pipe_select_ := .Upper,
                             sent_to_selected_ := 0,
                             pipes_0 := { queue := [], taken := 0 },
                             pipes_1 := { queue := [], taken := 0 },
                             started_ := true, inbox := [], outbox := [] },
                    output_ := (mergePairs (mergePairs (mergePairs (mergePairs
                      (singletons input))))).flatten } } := by
  obtain ⟨x0, x1, x2, x3, x4, x5, x6, x7, x8, x9, x10, x11, x12, x13, x14, x15, rfl⟩ :=
    list_of_length_16 input h
  exact pipeline_run x0 x1 x2 x3 x4 x5 x6 x7 x8 x9 x10 x11 x12 x13 x14 x15

/-- The runs of a stream of sorted runs of one positive length whose tags alternate -/
theorem runsOf_altTagged_spec (rs : List (List Primitive)) (p : PipeSelect) (n : Nat)
    (hn : 0 < n) (hlen : ∀ r ∈ rs, r.length = n) (hs : ∀ r ∈ rs, r.Sorted (· ≤ ·)) :
    (∀ run ∈ runsOf (altTagged p rs),
      run.length = n ∧ (run.map Message.primitive).Sorted (· ≤ ·)) ∧
    (runsOf (altTagged p rs)).length = rs.length := by
  have hne : ∀ r ∈ rs, r ≠ [] := by
    intro r hr h0
    have := hlen r hr
    rw [h0] at this
    simp at this
    omega
  rw [runsOf_altTagged rs p hne]
  refine ⟨?_, tagRuns_length rs p⟩
  intro run hrun
  obtain ⟨b, hb, q, rfl⟩ := mem_tagRuns rs p run hrun
  rw [tagged_length, tagged_primitives]
  exact ⟨hlen b hb, hs b hb⟩

/-! ## Blocks of a stream of pairs of runs -/

theorem uppers_tagged_upper (xs : List Primitive) (rest : List Message) :
    uppers (tagged .Upper xs ++ rest) = xs ++ uppers rest := by
  induction xs with
  | nil => simp [tagged]
  | cons x xs ih =>
    simp only [uppers, tagged, List.map_cons, List.cons_append] at ih ⊢
    rw [List.filter_cons]
    simp only [decide_True, if_true, List.map_cons, ih, List.cons_append]

theorem uppers_tagged_lower (xs : List Primitive) (rest : List Message) :
    uppers (tagged .Lower xs ++ rest) = uppers rest := by
  induction xs with
  | nil => simp [tagged]
  | cons x xs ih =>
    simp only [uppers, tagged, List.map_cons, List.cons_append] at ih ⊢
    simp [List.filter_cons, ih]

theorem lowers_tagged_lower (xs : List Primitive) (rest : List Message) :
    lowers (tagged .Lower xs ++ rest) = xs ++ lowers rest := by
  induction xs with
  | nil => simp [tagged]
  | cons x xs ih =>
    simp only [lowers, tagged, List.map_cons, List.cons_append] at ih ⊢
    rw [List.filter_cons]
    simp only [decide_True, if_true, List.map_cons, ih, List.cons_append]

theorem lowers_tagged_upper (xs : List Primitive) (rest : List Message) :
    lowers (tagged .Upper xs ++ rest) = lowers rest := by
  induction xs with
  | nil => simp [tagged]
  | cons x xs ih =>
    simp only [lowers, tagged, List.map_cons, List.cons_append] at ih ⊢
    simp [List.filter_cons, ih]

theorem uppers_pairStream : ∀ ps : List (List Primitive × List Primitive),
    uppers (pairStream ps) = (ps.map Prod.fst).flatten := by
  intro ps
  induction ps with
  | nil => rfl
  | cons q ps ih =>
    simp only [pairStream, uppers_tagged_upper, uppers_tagged_lower, ih, List.map_cons,
      List.flatten_cons]

theorem lowers_pairStream : ∀ ps : List (List Primitive × List Primitive),
    lowers (pairStream ps) = (ps.map Prod.snd).flatten := by
  intro ps
  induction ps with
  | nil => rfl
  | cons q ps ih =>
    simp only [pairStream, lowers_tagged_upper, lowers_tagged_lower, ih, List.map_cons,
      List.flatten_cons]

theorem block_flatten (n : Nat) : ∀ (bs : List (List Primitive)) (j : Nat) (b : List Primitive),
    (∀ c ∈ bs, c.length = n) → bs[j]? = some b → block n j bs.flatten = b := by
  intro bs
  induction bs with
  | nil => intro j b _ h; simp at h
  | cons c bs ih =>
    intro j b hall h
    have hc : c.length = n := hall c (List.mem_cons_self _ _)
    cases j with
    | zero =>
      simp only [List.getElem?_cons_zero, Option.some.injEq] at h
      subst h
      simp only [block, Nat.zero_mul, List.drop_zero, List.flatten_cons]
      exact List.take_left' hc
    | succ j =>
      simp only [List.getElem?_cons_succ] at h
      have := ih j b (fun d hd => hall d (List.mem_cons_of_mem _ hd)) h
      simp only [block, List.flatten_cons] at this ⊢
      have e : (j + 1) * n = c.length + j * n := by rw [hc]; ring
      rw [e, List.drop_append]
      exact this

theorem flatten_length_const (n : Nat) : ∀ bs : List (List Primitive),
    (∀ c ∈ bs, c.length = n) → bs.flatten.length = n * bs.length := by
  intro bs
  induction bs with
  | nil => intro _; rfl
  | cons c bs ih =>
    intro h
    simp only [List.flatten_cons, List.length_append, List.length_cons,
      h c (List.mem_cons_self _ _), ih (fun d hd => h d (List.mem_cons_of_mem _ hd))]
    ring

/-- Mid::sort on a stream of pairs of runs, block by block: the j-th block of out_seq_len
sent primitives is the merge of the j-th Upper run and the j-th Lower run. -/
theorem mid_sort_pairs_blocks (pid count : Nat) (hpid : 0 < pid)
    (q : List Primitive × List Primitive) (ps : List (List Primitive × List Primitive))
    (hall : ∀ r ∈ q :: ps, r.1.length = in_seq_len pid ∧ r.2.length = in_seq_len pid)
    (hN : 2 * in_seq_len pid * (ps.length + 1) = EXPECTED_NUMS) :
    ∃ s : Mid, (Mid.init pid count (pairStream (q :: ps))).sort = .ok s ∧
      s.outbox.length = EXPECTED_NUMS ∧
      ∀ j, j < ps.length + 1 →
        block (2 * in_seq_len pid) j (s.outbox.map Message.primitive) =
          mergeLE (block (in_seq_len pid) j (uppers (pairStream (q :: ps))))
            (block (in_seq_len pid) j (lowers (pairStream (q :: ps)))) := by
  obtain ⟨pf, hs⟩ := mid_sort_pairs pid count hpid q ps hall hN
  have hm : ∀ c ∈ (q :: ps).map (fun r => mergeLE r.1 r.2), c.length = 2 * in_seq_len pid := by
    intro c hc
    simp only [List.mem_map] at hc
    obtain ⟨r, hr, rfl⟩ := hc
    rw [mergeLE_length, (hall r hr).1, (hall r hr).2]; omega
  have hu : ∀ c ∈ (q :: ps).map Prod.fst, c.length = in_seq_len pid := by
    intro c hc
    simp only [List.mem_map] at hc
    obtain ⟨r, hr, rfl⟩ := hc
    exact (hall r hr).1
  have hl : ∀ c ∈ (q :: ps).map Prod.snd, c.length = in_seq_len pid := by
    intro c hc
    simp only [List.mem_map] at hc
    obtain ⟨r, hr, rfl⟩ := hc
    exact (hall r hr).2
  refine ⟨_, hs, ?_, ?_⟩
  · have := congrArg List.length
      (altTagged_primitives ((q :: ps).map (fun r => mergeLE r.1 r.2)) .Upper)
    rw [List.length_map, flatten_length_const _ _ hm] at this
    simp only [this, List.length_map, List.length_cons]
    exact hN
  · intro j hj
    have hj2 : j < (q :: ps).length := by simpa using hj
    have e0 : (q :: ps)[j]? = some ((q :: ps)[j]) := List.getElem?_eq_getElem hj2
    have e1 : ((q :: ps).map (fun r => mergeLE r.1 r.2))[j]? =
        some (mergeLE ((q :: ps)[j]).1 ((q :: ps)[j]).2) := by
      rw [List.getElem?_map, e0]; rfl
    have e2 : ((q :: ps).map Prod.fst)[j]? = some ((q :: ps)[j]).1 := by
      rw [List.getElem?_map, e0]; rfl
    have e3 : ((q :: ps).map Prod.snd)[j]? = some ((q :: ps)[j]).2 := by
      rw [List.getElem?_map, e0]; rfl
    simp only [altTagged_primitives, uppers_pairStream, lowers_pairStream]
    rw [block_flatten _ _ j _ hm e1, block_flatten _ _ j _ hu e2, block_flatten _ _ j _ hl e3]

theorem tag_of_iff (t : PipeSelect) (k len : Nat) (h : t = .Upper ↔ (k / len) % 2 = 0) :
    t = tagAt len k := by
  unfold tagAt
  by_cases hk : (k / len) % 2 = 0
  · simp [hk, h.mpr hk]
  · simp only [hk, if_false]
    cases t with
    | Upper => exact absurd (h.mp rfl) hk
    | Lower => rfl

/-- A stream of 16 messages tagged Upper exactly where floor(k / 2^(r-1)) is even is a stream
of pairs of runs of length in_seq_len(r) -/
theorem stream_as_pairs (r : Nat) (hr : r = 1 ∨ r = 2 ∨ r = 3) (stream : List Message)
    (hlen : stream.length = 16)
    (htag : ∀ (k : Nat) (m : Message), stream[k]? = some m →
      (m.pipe = .Upper ↔ (k / 2 ^ (r - 1)) % 2 = 0)) :
    ∃ (q : List Primitive × List Primitive) (ps : List (List Primitive × List Primitive)),
      stream = pairStream (q :: ps) ∧
      (∀ c ∈ q :: ps, c.1.length = in_seq_len r ∧ c.2.length = in_seq_len r) ∧
      2 * in_seq_len r * (ps.length + 1) = EXPECTED_NUMS := by
  obtain ⟨m0, m1, m2, m3, m4, m5, m6, m7, m8, m9, m10, m11, m12, m13, m14, m15, rfl⟩ :=
    list_of_length_16 stream hlen
  obtain ⟨a0, t0⟩ := m0
  obtain ⟨a1, t1⟩ := m1
  obtain ⟨a2, t2⟩ := m2
  obtain ⟨a3, t3⟩ := m3
  obtain ⟨a4, t4⟩ := m4
  obtain ⟨a5, t5⟩ := m5
  obtain ⟨a6, t6⟩ := m6
  obtain ⟨a7, t7⟩ := m7
  obtain ⟨a8, t8⟩ := m8
  obtain ⟨a9, t9⟩ := m9
  obtain ⟨a10, t10⟩ := m10
  obtain ⟨a11, t11⟩ := m11
  obtain ⟨a12, t12⟩ := m12
  obtain ⟨a13, t13⟩ := m13
  obtain ⟨a14, t14⟩ := m14
  obtain ⟨a15, t15⟩ := m15
  have h0 := tag_of_iff t0 0 _ (htag 0 _ rfl)
  have h1 := tag_of_iff t1 1 _ (htag 1 _ rfl)
  have h2 := tag_of_iff t2 2 _ (htag 2 _ rfl)
  have h3 := tag_of_iff t3 3 _ (htag 3 _ rfl)
  have h4 := tag_of_iff t4 4 _ (htag 4 _ rfl)
  have h5 := tag_of_iff t5 5 _ (htag 5 _ rfl)
  have h6 := tag_of_iff t6 6 _ (htag 6 _ rfl)
  have h7 := tag_of_iff t7 7 _ (htag 7 _ rfl)
  have h8 := tag_of_iff t8 8 _ (htag 8 _ rfl)
  have h9 := tag_of_iff t9 9 _ (htag 9 _ rfl)
  have h10 := tag_of_iff t10 10 _ (htag 10 _ rfl)
  have h11 := tag_of_iff t11 11 _ (htag 11 _ rfl)
  have h12 := tag_of_iff t12 12 _ (htag 12 _ rfl)
  have h13 := tag_of_iff t13 13 _ (htag 13 _ rfl)
  have h14 := tag_of_iff t14 14 _ (htag 14 _ rfl)
  have h15 := tag_of_iff t15 15 _ (htag 15 _ rfl)
  rcases hr with rfl | rfl | rfl
  · subst h0 h1 h2 h3 h4 h5 h6 h7 h8 h9 h10 h11 h12 h13 h14 h15
    refine ⟨([a0], [a1]),
      [([a2], [a3]), ([a4], [a5]), ([a6], [a7]), ([a8], [a9]), ([a10], [a11]), ([a12], [a13]), ([a14], [a15])], rfl, ?_, ?_⟩
    · simp [in_seq_len]
    · simp [in_seq_len, EXPECTED_NUMS]
  · subst h0 h1 h2 h3 h4 h5 h6 h7 h8 h9 h10 h11 h12 h13 h14 h15
    refine ⟨([a0, a1], [a2, a3]),
      [([a4, a5], [a6, a7]), ([a8, a9], [a10, a11]), ([a12, a13], [a14, a15])], rfl, ?_, ?_⟩
    · simp [in_seq_len]
    · simp [in_seq_len, EXPECTED_NUMS]
  · subst h0 h1 h2 h3 h4 h5 h6 h7 h8 h9 h10 h11 h12 h13 h14 h15
    refine ⟨([a0, a1, a2, a3], [a4, a5, a6, a7]),
      [([a8, a9, a10, a11], [a12, a13, a14, a15])], rfl, ?_, ?_⟩
    · simp [in_seq_len]
    · simp [in_seq_len, EXPECTED_NUMS]

/-! ## Frame facts of the loop body, for arbitrary streams -/

theorem mid_take_from_frame (s : Mid) (p : PipeSelect) (v : Primitive) (s2 : Mid)
    (h : s.take_from p = .ok (v, s2)) :
    s2.pid_ = s.pid_ ∧ s2.count_ = s.count_ ∧ s2.pipe_select_ = s.pipe_select_ ∧
    s2.sent_to_selected_ = s.sent_to_selected_ ∧ s2.started_ = s.started_ ∧
    s2.inbox = s.inbox ∧ s2.outbox = s.outbox ∧ occupancy s2 + 1 = occupancy s := by
  cases p with
  | Upper =>
    simp only [Mid.take_from] at h
    split at h
    · cases h
    · rename_i val q hq
      simp only [Except.ok.injEq, Prod.mk.injEq] at h
      obtain ⟨_, rfl⟩ := h
      simp [occupancy, hq]
      omega
  | Lower =>
    simp only [Mid.take_from] at h
    split at h
    · cases h
    · rename_i val q hq
      simp only [Except.ok.injEq, Prod.mk.injEq] at h
      obtain ⟨_, rfl⟩ := h
      simp [occupancy, hq]
      omega

theorem mid_next_primitive_frame (s : Mid) (v : Primitive) (s2 : Mid)
    (h : s.next_primitive = .ok (v, s2)) :
    s2.pid_ = s.pid_ ∧ s2.count_ = s.count_ ∧ s2.pipe_select_ = s.pipe_select_ ∧
    s2.sent_to_selected_ = s.sent_to_selected_ ∧ s2.started_ = s.started_ ∧
    s2.inbox = s.inbox ∧ s2.outbox = s.outbox ∧ occupancy s2 + 1 = occupancy s := by
  unfold Mid.next_primitive at h
  split at h
  · exact mid_take_from_frame s _ v s2 h
  · split at h
    · exact mid_take_from_frame s _ v s2 h
    · split at h
      · split at h
        · exact mid_take_from_frame s _ v s2 h
        · exact mid_take_from_frame s _ v s2 h
      · cases h

theorem mid_sort_recv_frame (nums i : Nat) (s s1 : Mid) (h : s.sort_recv nums i = .ok s1) :
    s1.pid_ = s.pid_ ∧ s1.count_ = s.count_ ∧ s1.pipe_select_ = s.pipe_select_ ∧
    s1.sent_to_selected_ = s.sent_to_selected_ ∧ s1.started_ = s.started_ ∧
    s1.outbox = s.outbox ∧ occupancy s1 ≤ occupancy s + 1 := by
  unfold Mid.sort_recv at h
  split at h
  · unfold Mid.receive_from_prev_p at h
    split at h
    · rename_i e he
      split at he <;> cases he
      cases h
    · rename_i msg s0 he
      split at he
      · cases he
      · rename_i m rest hin
        simp only [Except.ok.injEq, Prod.mk.injEq] at he h
        obtain ⟨rfl, rfl⟩ := he
        subst h
        unfold Mid.save_message
        split <;> simp [occupancy] <;> omega
  · simp only [Except.ok.injEq] at h
    subst h
    simp

theorem mid_sort_latch_frame (s : Mid) :
    s.sort_latch.pid_ = s.pid_ ∧ s.sort_latch.count_ = s.count_ ∧
    s.sort_latch.pipe_select_ = s.pipe_select_ ∧
    s.sort_latch.sent_to_selected_ = s.sent_to_selected_ ∧
    s.sort_latch.inbox = s.inbox ∧ s.sort_latch.outbox = s.outbox ∧
    s.sort_latch.pipes_0 = s.pipes_0 ∧ s.sort_latch.pipes_1 = s.pipes_1 ∧
    (s.started_ = true → s.sort_latch.started_ = true) ∧
    (s.can_sort_begin = true → s.sort_latch.started_ = true) ∧
    (s.started_ = false → s.can_sort_begin = false → s.sort_latch = s) := by
  unfold Mid.sort_latch Mid.start_sort
  split <;> simp_all

/-- What one completed emitting half of the loop body of Mid::sort does: either started_ is
false after the latch and nothing else happens, or started_ is true and exactly one message
is sent under the current tag. -/
theorem mid_sort_emit_cases (s s1 : Mid) (h : s.sort_emit = .ok s1) :
    (s.sort_latch.started_ = false ∧ s1 = s.sort_latch) ∨
    (s.sort_latch.started_ = true ∧ s1.started_ = true ∧ s1.pid_ = s.pid_ ∧
      occupancy s1 + 1 = occupancy s ∧ s1.inbox = s.inbox ∧
      ∃ v : Primitive, s1.outbox = s.outbox ++ [{ primitive := v, pipe := s.pipe_select_ }] ∧
        ((s.sent_to_selected_ + 1 ≥ out_seq_len s.pid_ ∧
            s1.pipe_select_ = s.pipe_select_.toggle ∧ s1.sent_to_selected_ = 0) ∨
         (s.sent_to_selected_ + 1 < out_seq_len s.pid_ ∧
            s1.pipe_select_ = s.pipe_select_ ∧
            s1.sent_to_selected_ = s.sent_to_selected_ + 1))) := by
  obtain ⟨l1, l2, l3, l4, l5, l6, l7, l8, _, _, _⟩ := mid_sort_latch_frame s
  unfold Mid.sort_emit at h
  simp only [] at h
  split at h
  · rename_i hst
    simp only [Bool.not_eq_true', ] at hst
    simp only [Except.ok.injEq] at h
    exact Or.inl ⟨hst, h.symm⟩
  · rename_i hst
    simp only [Bool.not_eq_true', Bool.not_eq_false] at hst
    split at h
    · cases h
    · rename_i val s2 hnp
      obtain ⟨f1, f2, f3, f4, f5, f6, f7, f8⟩ := mid_next_primitive_frame _ _ _ hnp
      simp only [Except.ok.injEq] at h
      right
      have hocc : occupancy s.sort_latch = occupancy s := by simp [occupancy, l7, l8]
      by_cases hc : out_seq_len s.pid_ ≤ s.sent_to_selected_ + 1
      · have ht : (s2.send_to_next_p { primitive := val, pipe := s2.pipe_select_ }).should_toggle_pipe = true := by
          simp [Mid.should_toggle_pipe, Mid.send_to_next_p, f1, f4, l1, l4, hc]
        rw [ht] at h
        simp only [if_true] at h
        subst h
        refine ⟨hst, ?_, ?_, ?_, ?_, val, ?_, Or.inl ⟨hc, ?_, ?_⟩⟩
        all_goals simp [Mid.toggle_pipe, Mid.clear_taken, Mid.send_to_next_p, f1, f3, f5, f6,
          f7, l1, l3, l5, l6, hst, occupancy]
        simp only [occupancy] at f8 hocc
        omega
      · have ht : (s2.send_to_next_p { primitive := val, pipe := s2.pipe_select_ }).should_toggle_pipe = false := by
          simp [Mid.should_toggle_pipe, Mid.send_to_next_p, f1, f4, l1, l4, hc]
        rw [ht] at h
        simp only [Bool.false_eq_true, if_false] at h
        subst h
        refine ⟨hst, ?_, ?_, ?_, ?_, val, ?_, Or.inr ⟨by omega, ?_, ?_⟩⟩
        all_goals simp [Mid.send_to_next_p, f1, f3, f4, f5, f6, f7, l1, l3, l4, l5, l6, hst,
          occupancy]
        simp only [occupancy] at f8 hocc
        omega

/-- The loop of Mid::sort, iteration by iteration: k + 1 iterations are k iterations followed
by the body at index i + k -/
theorem mid_sort_loop_succ (nums : Nat) : ∀ (k i : Nat) (s : Mid),
    Mid.sort_loop nums (k + 1) i s =
      match Mid.sort_loop nums k i s with
      | .error e => .error e
      | .ok s1 => s1.sort_body nums (i + k) := by
  intro k
  induction k with
  | zero =>
    intro i s
    simp only [Mid.sort_loop, Nat.add_zero]
    split <;> simp_all
  | succ k ih =>
    intro i s
    rw [Mid.sort_loop]
    cases hb : s.sort_body nums i with
    | error e => simp [Mid.sort_loop, hb]
    | ok s1 =>
      simp only []
      rw [ih (i + 1) s1]
      have e : i + 1 + k = i + (k + 1) := by omega
      simp [Mid.sort_loop, hb, e]

/-- A state reached after j iterations of Mid::sort was reached through a state after i
iterations, for every i <= j -/
theorem mid_sort_loop_prefix (nums : Nat) (s0 : Mid) : ∀ (j i : Nat) (sj : Mid), i ≤ j →
    Mid.sort_loop nums j 0 s0 = .ok sj →
    ∃ si : Mid, Mid.sort_loop nums i 0 s0 = .ok si ∧
      (i < j → ∃ si1 : Mid, si.sort_body nums i = .ok si1 ∧
        Mid.sort_loop nums (i + 1) 0 s0 = .ok si1) := by
  intro j
  induction j with
  | zero =>
    intro i sj hi h
    have : i = 0 := by omega
    subst this
    exact ⟨sj, h, fun hlt => absurd hlt (by omega)⟩
  | succ j ih =>
    intro i sj hi h
    rw [mid_sort_loop_succ] at h
    cases hj : Mid.sort_loop nums j 0 s0 with
    | error e => rw [hj] at h; cases h
    | ok s1 =>
      rw [hj] at h
      simp only [Nat.zero_add] at h
      by_cases hij : i = j + 1
      · subst hij
        refine ⟨sj, ?_, fun hlt => absurd hlt (by omega)⟩
        rw [mid_sort_loop_succ, hj]
        simpa using h
      · obtain ⟨si, hsi, hnext⟩ := ih i s1 (by omega) hj
        refine ⟨si, hsi, fun _ => ?_⟩
        by_cases hij2 : i = j
        · subst hij2
          rw [hsi] at hj
          cases hj
          refine ⟨sj, h, ?_⟩
          rw [mid_sort_loop_succ, hsi]
          simpa using h
        · exact hnext (by omega)

theorem div_mod_step (len n : Nat) (hlen : 0 < len) :
    (n % len + 1 ≥ len → (n + 1) % len = 0 ∧ (n + 1) / len = n / len + 1) ∧
    (n % len + 1 < len → (n + 1) % len = n % len + 1 ∧ (n + 1) / len = n / len) := by
  have hdm := Nat.div_add_mod n len
  have hlt := Nat.mod_lt n hlen
  constructor
  · intro h
    have e : n + 1 = len * (n / len + 1) := by
      have : n % len + 1 = len := by omega
      calc n + 1 = len * (n / len) + (n % len + 1) := by omega
        _ = len * (n / len) + len := by rw [this]
        _ = len * (n / len + 1) := by ring
    rw [e]
    exact ⟨Nat.mul_mod_right _ _, Nat.mul_div_cancel_left _ hlen⟩
  · intro h
    have e : n + 1 = len * (n / len) + (n % len + 1) := by omega
    constructor
    · conv_lhs => rw [e]
      rw [Nat.mul_add_mod, Nat.mod_eq_of_lt h]
    · conv_lhs => rw [e]
      rw [Nat.mul_add_div hlen, Nat.div_eq_of_lt h]
      omega

theorem tagAt_succ (len n : Nat) (hlen : 0 < len) :
    (n % len + 1 ≥ len → tagAt len (n + 1) = (tagAt len n).toggle) ∧
    (n % len + 1 < len → tagAt len (n + 1) = tagAt len n) := by
  obtain ⟨h1, h2⟩ := div_mod_step len n hlen
  constructor
  · intro h
    unfold tagAt
    rw [(h1 h).2]
    rcases Nat.mod_two_eq_zero_or_one (n / len) with h0 | h0
    · have : (n / len + 1) % 2 = 1 := by omega
      simp [h0, this, PipeSelect.toggle]
    · have : (n / len + 1) % 2 = 0 := by omega
      simp [h0, this, PipeSelect.toggle]
  · intro h
    unfold tagAt
    rw [(h2 h).2]

/-- One iteration of Mid::sort keeps the tagging invariant -/
theorem mid_TagInv_body (len nums i : Nat) (hlen : 0 < len) (s s1 : Mid)
    (hinv : TagInv len s) (h : s.sort_body nums i = .ok s1) : TagInv len s1 := by
  unfold Mid.sort_body at h
  split at h
  · cases h
  · rename_i s0 hrecv
    obtain ⟨r1, _, r3, r4, _, r6, _⟩ := mid_sort_recv_frame nums i s s0 hrecv
    obtain ⟨l1, _, l3, l4, _, l6, _, _, _, _, _⟩ := mid_sort_latch_frame s0
    obtain ⟨i1, i2, i3, i4, i5⟩ := hinv
    rcases mid_sort_emit_cases s0 s1 h with ⟨_, rfl⟩ | ⟨_, _, hp, _, _, v, hout, hcase⟩
    · refine ⟨?_, ?_, ?_, ?_, ?_⟩
      · rw [l1, r1]; exact i1
      · rw [l4, r4]; exact i2
      · rw [l4, r4, l6, r6]; exact i3
      · rw [l3, r3, l6, r6]; exact i4
      · rw [l6, r6]; exact i5
    · rw [r3, r6] at hout
      rw [r1, r4, r3] at hcase
      rw [i1] at hcase
      obtain ⟨d1, d2⟩ := div_mod_step len s.outbox.length hlen
      obtain ⟨t1, t2⟩ := tagAt_succ len s.outbox.length hlen
      have hlen1 : s1.outbox.length = s.outbox.length + 1 := by rw [hout]; simp
      have hmsgs : ∀ (k : Nat) (m : Message), s1.outbox[k]? = some m → m.pipe = tagAt len k := by
        intro k m hk
        rw [hout] at hk
        by_cases hkl : k < s.outbox.length
        · rw [List.getElem?_append_left hkl] at hk
          exact i5 k m hk
        · have hk1 : k < (s.outbox ++ [Message.mk v s.pipe_select_]).length := by
            by_contra hc
            rw [List.getElem?_eq_none (by omega)] at hk
            cases hk
          simp only [List.length_append, List.length_singleton] at hk1
          have hke : k = s.outbox.length := by omega
          subst hke
          simp only [List.getElem?_concat_length, Option.some.injEq] at hk
          subst hk
          exact i4
      rcases hcase with ⟨c1, c2, c3⟩ | ⟨c1, c2, c3⟩
      · have hge : s.outbox.length % len + 1 ≥ len := by omega
        refine ⟨by rw [hp, r1]; exact i1, by omega, ?_, ?_, hmsgs⟩
        · rw [c3, hlen1, (d1 hge).1]
        · rw [c2, hlen1, t1 hge, i4]
      · have hlt : s.outbox.length % len + 1 < len := by omega
        refine ⟨by rw [hp, r1]; exact i1, by omega, ?_, ?_, hmsgs⟩
        · rw [c3, hlen1, (d2 hlt).1, i3]
        · rw [c2, hlen1, t2 hlt, i4]

/-- Every state reached by the loop of Mid::sort satisfies the tagging invariant -/
theorem mid_TagInv_loop (len nums : Nat) (hlen : 0 < len) (s0 : Mid) (h0 : TagInv len s0) :
    ∀ (n : Nat) (s : Mid), Mid.sort_loop nums n 0 s0 = .ok s → TagInv len s := by
  intro n
  induction n with
  | zero =>
    intro s h
    simp only [Mid.sort_loop, Except.ok.injEq] at h
    subst h
    exact h0
  | succ n ih =>
    intro s h
    rw [mid_sort_loop_succ] at h
    cases hn : Mid.sort_loop nums n 0 s0 with
    | error e => rw [hn] at h; cases h
    | ok s1 =>
      rw [hn] at h
      exact mid_TagInv_body len nums (0 + n) hlen s1 s (ih s1 hn) h

/-! ## The start latch, for arbitrary streams -/

theorem mid_take_from_error (s : Mid) (p : PipeSelect) (e : Fault)
    (h : s.take_from p = .error e) : e = .emptyQueue := by
  cases p <;> simp only [Mid.take_from] at h <;> split at h <;> cases h <;> rfl

theorem mid_next_primitive_error (s : Mid) (e : Fault) (h : s.next_primitive = .error e) :
    e = .emptyQueue := by
  unfold Mid.next_primitive at h
  split at h
  · exact mid_take_from_error s _ e h
  · split at h
    · exact mid_take_from_error s _ e h
    · split at h
      · split at h
        · exact mid_take_from_error s _ e h
        · exact mid_take_from_error s _ e h
      · cases h; rfl

/-- An iteration of Mid::sort whose receive returned and in which started_ is true after
the latch either sends exactly one message or reads an empty queue -/
theorem mid_body_started (nums i : Nat) (s s0 : Mid) (hrecv : s.sort_recv nums i = .ok s0)
    (hst : s0.sort_latch.started_ = true) :
    s.sort_body nums i = .error .emptyQueue ∨
    ∃ s1 : Mid, s.sort_body nums i = .ok s1 ∧ s1.started_ = true ∧
      s1.outbox.length = s.outbox.length + 1 := by
  obtain ⟨_, _, _, _, _, r6, _⟩ := mid_sort_recv_frame nums i s s0 hrecv
  have hb : s.sort_body nums i = s0.sort_emit := by
    simp only [Mid.sort_body, hrecv]
  rw [hb]
  cases he : s0.sort_emit with
  | error e =>
    left
    unfold Mid.sort_emit at he
    simp only [hst, Bool.not_true, Bool.false_eq_true, if_false] at he
    split at he
    · rename_i e1 hnp
      cases he
      rw [mid_next_primitive_error _ _ hnp]
    · cases he
  | ok s1 =>
    right
    rcases mid_sort_emit_cases s0 s1 he with ⟨hf, _⟩ | ⟨_, h1, _, _, _, v, hout, _⟩
    · rw [hst] at hf; cases hf
    · exact ⟨s1, rfl, h1, by rw [hout, r6]; simp⟩

/-- An iteration of Mid::sort entered with started_ false whose start condition does not
hold after the receive only stores what it received -/
theorem mid_body_idle (nums i : Nat) (s s0 : Mid) (hrecv : s.sort_recv nums i = .ok s0)
    (hst : s.started_ = false) (hc : s0.can_sort_begin = false) :
    s.sort_body nums i = .ok s0 ∧ s0.started_ = false ∧ s0.outbox = s.outbox := by
  obtain ⟨_, _, _, _, r5, r6, _⟩ := mid_sort_recv_frame nums i s s0 hrecv
  have hs0 : s0.started_ = false := by rw [r5]; exact hst
  have hl : s0.sort_latch = s0 := (mid_sort_latch_frame s0).2.2.2.2.2.2.2.2.2.2 hs0 hc
  refine ⟨?_, hs0, r6⟩
  simp only [Mid.sort_body, hrecv, Mid.sort_emit, hl, hs0, Bool.not_false, if_true]

theorem mid_body_recv (nums i : Nat) (s s1 : Mid) (h : s.sort_body nums i = .ok s1) :
    ∃ s0 : Mid, s.sort_recv nums i = .ok s0 ∧ s0.sort_emit = .ok s1 := by
  unfold Mid.sort_body at h
  split at h
  · cases h
  · rename_i s0 hrecv
    exact ⟨s0, hrecv, h⟩

/-- Once the start condition held in iteration i, started_ is true in every state reached
after it -/
theorem mid_latched (nums i : Nat) (s0 si si0 : Mid)
    (hi : Mid.sort_loop nums i 0 s0 = .ok si) (hrecv : si.sort_recv nums i = .ok si0)
    (hc : si0.can_sort_begin = true) :
    ∀ (j : Nat) (sj : Mid), i < j → Mid.sort_loop nums j 0 s0 = .ok sj →
      sj.started_ = true := by
  intro j
  induction j with
  | zero => intro sj hlt _; exact absurd hlt (by omega)
  | succ j ih =>
    intro sj hlt h
    rw [mid_sort_loop_succ] at h
    cases hj : Mid.sort_loop nums j 0 s0 with
    | error e => rw [hj] at h; cases h
    | ok s1 =>
      rw [hj] at h
      simp only [Nat.zero_add] at h
      obtain ⟨t0, ht0, hemit⟩ := mid_body_recv nums j s1 sj h
      have hlatch : t0.sort_latch.started_ = true := by
        by_cases hij : i = j
        · subst hij
          rw [hi] at hj
          cases hj
          rw [hrecv] at ht0
          cases ht0
          exact (mid_sort_latch_frame si0).2.2.2.2.2.2.2.2.2.1 hc
        · have h1 := ih s1 (by omega) hj
          obtain ⟨_, _, _, _, r5, _, _⟩ := mid_sort_recv_frame nums j s1 t0 ht0
          exact (mid_sort_latch_frame t0).2.2.2.2.2.2.2.2.1 (by rw [r5]; exact h1)
      rcases mid_sort_emit_cases t0 sj hemit with ⟨hf, _⟩ | ⟨_, h1, _⟩
      · rw [hlatch] at hf; cases hf
      · exact h1

/-- While the start condition has held in no iteration so far, started_ is false and nothing
has been sent -/
theorem mid_not_started (nums : Nat) (s0 : Mid) (h0 : s0.started_ = false)
    (hout : s0.outbox = []) :
    ∀ (j : Nat) (sj : Mid), Mid.sort_loop nums j 0 s0 = .ok sj →
      (∀ (i : Nat) (si si0 : Mid), i < j → Mid.sort_loop nums i 0 s0 = .ok si →
        si.sort_recv nums i = .ok si0 → si0.can_sort_begin = false) →
      sj.started_ = false ∧ sj.outbox = [] := by
  intro j
  induction j with
  | zero =>
    intro sj h _
    simp only [Mid.sort_loop, Except.ok.injEq] at h
    subst h
    exact ⟨h0, hout⟩
  | succ j ih =>
    intro sj h hall
    rw [mid_sort_loop_succ] at h
    cases hj : Mid.sort_loop nums j 0 s0 with
    | error e => rw [hj] at h; cases h
    | ok s1 =>
      rw [hj] at h
      simp only [Nat.zero_add] at h
      obtain ⟨t0, ht0, _⟩ := mid_body_recv nums j s1 sj h
      obtain ⟨hs1, ho1⟩ := ih s1 hj (fun i si si0 hlt => hall i si si0 (by omega))
      have hc := hall j s1 t0 (by omega) hj ht0
      obtain ⟨hb, hst, hob⟩ := mid_body_idle nums j s1 t0 ht0 hs1 hc
      rw [hb] at h
      cases h
      exact ⟨hst, by rw [hob]; exact ho1⟩

theorem last_take_from_frame (s : Mid) (p : PipeSelect) (v : Primitive) (s2 : Mid)
    (h : Last.take_from s p = .ok (v, s2)) :
    s2.pid_ = s.pid_ ∧ s2.started_ = s.started_ ∧ s2.inbox = s.inbox ∧
    s2.outbox = s.outbox ∧ occupancy s2 + 1 = occupancy s := by
  cases p with
  | Upper =>
    simp only [Last.take_from] at h
    split at h
    · cases h
    · rename_i val q hq
      simp only [Except.ok.injEq, Prod.mk.injEq] at h
      obtain ⟨_, rfl⟩ := h
      simp [occupancy, hq]
      omega
  | Lower =>
    simp only [Last.take_from] at h
    split at h
    · cases h
    · rename_i val q hq
      simp only [Except.ok.injEq, Prod.mk.injEq] at h
      obtain ⟨_, rfl⟩ := h
      simp [occupancy, hq]
      omega

theorem last_next_primitive_frame (s : Mid) (v : Primitive) (s2 : Mid)
    (h : Last.next_primitive s = .ok (v, s2)) :
    s2.pid_ = s.pid_ ∧ s2.started_ = s.started_ ∧ s2.inbox = s.inbox ∧
    s2.outbox = s.outbox ∧ occupancy s2 + 1 = occupancy s := by
  unfold Last.next_primitive at h
  split at h
  · exact last_take_from_frame s _ v s2 h
  · split at h
    · exact last_take_from_frame s _ v s2 h
    · split at h
      · split at h
        · exact last_take_from_frame s _ v s2 h
        · exact last_take_from_frame s _ v s2 h
      · cases h

theorem last_take_from_error (s : Mid) (p : PipeSelect) (e : Fault)
    (h : Last.take_from s p = .error e) : e = .emptyQueue := by
  cases p <;> simp only [Last.take_from] at h <;> split at h <;> cases h <;> rfl

theorem last_next_primitive_error (s : Mid) (e : Fault)
    (h : Last.next_primitive s = .error e) : e = .emptyQueue := by
  unfold Last.next_primitive at h
  split at h
  · exact last_take_from_error s _ e h
  · split at h
    · exact last_take_from_error s _ e h
    · split at h
      · split at h
        · exact last_take_from_error s _ e h
        · exact last_take_from_error s _ e h
      · cases h; rfl

/-- What one completed emitting half of the loop body of Last::sort does: either started_ is
false after the latch and nothing else happens, or started_ is true and exactly one element
is appended to output_. -/
theorem last_sort_emit_cases (s s1 : Last) (h : Last.sort_emit s = .ok s1) :
    (s.mid.sort_latch.started_ = false ∧ s1 = { s with mid := s.mid.sort_latch }) ∨
    (s.mid.sort_latch.started_ = true ∧ s1.mid.started_ = true ∧
      s1.mid.pid_ = s.mid.pid_ ∧ occupancy s1.mid + 1 = occupancy s.mid ∧
      s1.mid.inbox = s.mid.inbox ∧ ∃ v : Primitive, s1.output_ = s.output_ ++ [v]) := by
  obtain ⟨l1, _, _, _, l5, _, l7, l8, _, _, _⟩ := mid_sort_latch_frame s.mid
  unfold Last.sort_emit at h
  simp only [] at h
  split at h
  · rename_i hst
    simp only [Bool.not_eq_true'] at hst
    simp only [Except.ok.injEq] at h
    exact Or.inl ⟨hst, h.symm⟩
  · rename_i hst
    simp only [Bool.not_eq_true', Bool.not_eq_false] at hst
    split at h
    · cases h
    · rename_i val m2 hnp
      obtain ⟨f1, f2, f3, _, f5⟩ := last_next_primitive_frame _ _ _ hnp
      simp only [Except.ok.injEq] at h
      subst h
      have hocc : occupancy s.mid.sort_latch = occupancy s.mid := by simp [occupancy, l7, l8]
      exact Or.inr ⟨hst, by simp [f2, hst], by simp [f1, l1], by simp only []; omega,
        by simp [f3, l5], val, rfl⟩

theorem last_sort_loop_succ (nums : Nat) : ∀ (k i : Nat) (s : Last),
    Last.sort_loop nums (k + 1) i s =
      match Last.sort_loop nums k i s with
      | .error e => .error e
      | .ok s1 => Last.sort_body nums (i + k) s1 := by
  intro k
  induction k with
  | zero =>
    intro i s
    simp only [Last.sort_loop, Nat.add_zero]
    split <;> simp_all
  | succ k ih =>
    intro i s
    rw [Last.sort_loop]
    cases hb : Last.sort_body nums i s with
    | error e => simp [Last.sort_loop, hb]
    | ok s1 =>
      simp only []
      rw [ih (i + 1) s1]
      have e : i + 1 + k = i + (k + 1) := by omega
      simp [Last.sort_loop, hb, e]

theorem last_body_recv (nums i : Nat) (s s1 : Last) (h : Last.sort_body nums i s = .ok s1) :
    ∃ m0 : Mid, s.mid.sort_recv nums i = .ok m0 ∧
      Last.sort_emit { s with mid := m0 } = .ok s1 := by
  unfold Last.sort_body at h
  split at h
  · cases h
  · rename_i m0 hrecv
    exact ⟨m0, hrecv, h⟩

/-- An iteration of Last::sort whose receive returned and in which started_ is true after
the latch either appends exactly one element to output_ or reads an empty queue -/
theorem last_body_started (nums i : Nat) (s : Last) (m0 : Mid)
    (hrecv : s.mid.sort_recv nums i = .ok m0) (hst : m0.sort_latch.started_ = true) :
    Last.sort_body nums i s = .error .emptyQueue ∨
    ∃ s1 : Last, Last.sort_body nums i s = .ok s1 ∧ s1.mid.started_ = true ∧
      s1.output_.length = s.output_.length + 1 := by
  have hb : Last.sort_body nums i s = Last.sort_emit { s with mid := m0 } := by
    simp only [Last.sort_body, hrecv]
  rw [hb]
  cases he : Last.sort_emit { s with mid := m0 } with
  | error e =>
    left
    unfold Last.sort_emit at he
    simp only [hst, Bool.not_true, Bool.false_eq_true, if_false] at he
    split at he
    · rename_i e1 hnp
      cases he
      rw [last_next_primitive_error _ _ hnp]
    · cases he
  | ok s1 =>
    right
    rcases last_sort_emit_cases _ s1 he with ⟨hf, _⟩ | ⟨_, h1, _, _, _, v, hout⟩
    · simp only [] at hf; rw [hst] at hf; cases hf
    · exact ⟨s1, rfl, h1, by rw [hout]; simp⟩

/-- An iteration of Last::sort entered with started_ false whose start condition does not
hold after the receive only stores what it received -/
theorem last_body_idle (nums i : Nat) (s : Last) (m0 : Mid)
    (hrecv : s.mid.sort_recv nums i = .ok m0)
    (hst : s.mid.started_ = false) (hc : m0.can_sort_begin = false) :
    Last.sort_body nums i s = .ok { s with mid := m0 } ∧ m0.started_ = false := by
  obtain ⟨_, _, _, _, r5, _, _⟩ := mid_sort_recv_frame nums i s.mid m0 hrecv
  have hs0 : m0.started_ = false := by rw [r5]; exact hst
  have hl : m0.sort_latch = m0 := (mid_sort_latch_frame m0).2.2.2.2.2.2.2.2.2.2 hs0 hc
  refine ⟨?_, hs0⟩
  simp only [Last.sort_body, hrecv, Last.sort_emit, hl, hs0, Bool.not_false, if_true]

/-- Once the start condition held in iteration i of Last::sort, started_ is true in every
state reached after it -/
theorem last_latched (nums i : Nat) (s0 si : Last) (mi : Mid)
    (hi : Last.sort_loop nums i 0 s0 = .ok si) (hrecv : si.mid.sort_recv nums i = .ok mi)
    (hc : mi.can_sort_begin = true) :
    ∀ (j : Nat) (sj : Last), i < j → Last.sort_loop nums j 0 s0 = .ok sj →
      sj.mid.started_ = true := by
  intro j
  induction j with
  | zero => intro sj hlt _; exact absurd hlt (by omega)
  | succ j ih =>
    intro sj hlt h
    rw [last_sort_loop_succ] at h
    cases hj : Last.sort_loop nums j 0 s0 with
    | error e => rw [hj] at h; cases h
    | ok s1 =>
      rw [hj] at h
      simp only [Nat.zero_add] at h
      obtain ⟨t0, ht0, hemit⟩ := last_body_recv nums j s1 sj h
      have hlatch : t0.sort_latch.started_ = true := by
        by_cases hij : i = j
        · subst hij
          rw [hi] at hj
          cases hj
          rw [hrecv] at ht0
          cases ht0
          exact (mid_sort_latch_frame mi).2.2.2.2.2.2.2.2.2.1 hc
        · have h1 := ih s1 (by omega) hj
          obtain ⟨_, _, _, _, r5, _, _⟩ := mid_sort_recv_frame nums j s1.mid t0 ht0
          exact (mid_sort_latch_frame t0).2.2.2.2.2.2.2.2.1 (by rw [r5]; exact h1)
      rcases last_sort_emit_cases _ sj hemit with ⟨hf, _⟩ | ⟨_, h1, _⟩
      · simp only [] at hf; rw [hlatch] at hf; cases hf
      · exact h1

/-- While the start condition has held in no iteration of Last::sort so far, started_ is
false and output_ is empty -/
theorem last_not_started (nums : Nat) (s0 : Last) (h0 : s0.mid.started_ = false)
    (hout : s0.output_ = []) :
    ∀ (j : Nat) (sj : Last), Last.sort_loop nums j 0 s0 = .ok sj →
      (∀ (i : Nat) (si : Last) (mi : Mid), i < j → Last.sort_loop nums i 0 s0 = .ok si →
        si.mid.sort_recv nums i = .ok mi → mi.can_sort_begin = false) →
      sj.mid.started_ = false ∧ sj.output_ = [] := by
  intro j
  induction j with
  | zero =>
    intro sj h _
    simp only [Last.sort_loop, Except.ok.injEq] at h
    subst h
    exact ⟨h0, hout⟩
  | succ j ih =>
    intro sj h hall
    rw [last_sort_loop_succ] at h
    cases hj : Last.sort_loop nums j 0 s0 with
    | error e => rw [hj] at h; cases h
    | ok s1 =>
      rw [hj] at h
      simp only [Nat.zero_add] at h
      obtain ⟨t0, ht0, _⟩ := last_body_recv nums j s1 sj h
      obtain ⟨hs1, ho1⟩ := ih s1 hj (fun i si mi hlt => hall i si mi (by omega))
      have hc := hall j s1 t0 (by omega) hj ht0
      obtain ⟨hb, hst⟩ := last_body_idle nums j s1 t0 ht0 hs1 hc
      rw [hb] at h
      cases h
      exact ⟨hst, ho1⟩

/-- A state reached after j iterations of Last::sort was reached through a state after i
iterations, for every i <= j -/
theorem last_sort_loop_prefix (nums : Nat) (s0 : Last) : ∀ (j i : Nat) (sj : Last), i ≤ j →
    Last.sort_loop nums j 0 s0 = .ok sj →
    ∃ si : Last, Last.sort_loop nums i 0 s0 = .ok si ∧
      (i < j → ∃ si1 : Last, Last.sort_body nums i si = .ok si1 ∧
        Last.sort_loop nums (i + 1) 0 s0 = .ok si1) := by
  intro j
  induction j with
  | zero =>
    intro i sj hi h
    have : i = 0 := by omega
    subst this
    exact ⟨sj, h, fun hlt => absurd hlt (by omega)⟩
  | succ j ih =>
    intro i sj hi h
    rw [last_sort_loop_succ] at h
    cases hj : Last.sort_loop nums j 0 s0 with
    | error e => rw [hj] at h; cases h
    | ok s1 =>
      rw [hj] at h
      simp only [Nat.zero_add] at h
      by_cases hij : i = j + 1
      · subst hij
        refine ⟨sj, ?_, fun hlt => absurd hlt (by omega)⟩
        rw [last_sort_loop_succ, hj]
        simpa using h
      · obtain ⟨si, hsi, hnext⟩ := ih i s1 (by omega) hj
        refine ⟨si, hsi, fun _ => ?_⟩
        by_cases hij2 : i = j
        · subst hij2
          rw [hsi] at hj
          cases hj
          refine ⟨sj, h, ?_⟩
          rw [last_sort_loop_succ, hsi]
          simpa using h
        · exact hnext (by omega)

/-- On a stream of pairs of runs every iteration of Mid::sort is reached and completes -/
theorem mid_sort_pairs_total (pid count : Nat) (hpid : 0 < pid)
    (q : List Primitive × List Primitive) (ps : List (List Primitive × List Primitive))
    (hall : ∀ r ∈ q :: ps, r.1.length = in_seq_len pid ∧ r.2.length = in_seq_len pid)
    (hN : 2 * in_seq_len pid * (ps.length + 1) = EXPECTED_NUMS) :
    ∀ j, j < EXPECTED_NUMS + in_seq_len pid →
      ∃ sj s1 : Mid,
        Mid.sort_loop EXPECTED_NUMS j 0 (Mid.init pid count (pairStream (q :: ps))) = .ok sj ∧
        sj.sort_body EXPECTED_NUMS j = .ok s1 ∧
        Mid.sort_loop EXPECTED_NUMS (j + 1) 0 (Mid.init pid count (pairStream (q :: ps))) =
          .ok s1 := by
  intro j hj
  obtain ⟨pf, hs⟩ := mid_sort_loop_pairs pid count EXPECTED_NUMS hpid q ps hall hN
  obtain ⟨sj, hsj, hnext⟩ := mid_sort_loop_prefix EXPECTED_NUMS _
    (EXPECTED_NUMS + in_seq_len pid) j _ (by omega) hs
  obtain ⟨s1, hb, hl⟩ := hnext hj
  exact ⟨sj, s1, hsj, hb, hl⟩

/-- On a stream of one Upper run and one Lower run every iteration of Last::sort is reached
and completes -/
theorem last_sort_pair_total (pid count : Nat) (hpid : 0 < pid) (u l : List Primitive)
    (hu : u.length = in_seq_len pid) (hl : l.length = in_seq_len pid)
    (hN : 2 * in_seq_len pid = EXPECTED_NUMS) :
    ∀ j, j < EXPECTED_NUMS + in_seq_len pid →
      ∃ sj s1 : Last,
        Last.sort_loop EXPECTED_NUMS j 0
          (Last.init pid count (tagged .Upper u ++ tagged .Lower l)) = .ok sj ∧
        Last.sort_body EXPECTED_NUMS j sj = .ok s1 ∧
        Last.sort_loop EXPECTED_NUMS (j + 1) 0
          (Last.init pid count (tagged .Upper u ++ tagged .Lower l)) = .ok s1 := by
  intro j hj
  have hs := last_sort_loop_pair pid count EXPECTED_NUMS hpid u l hu hl hN
  obtain ⟨sj, hsj, hnext⟩ := last_sort_loop_prefix EXPECTED_NUMS _
    (EXPECTED_NUMS + in_seq_len pid) j _ (by omega) hs
  obtain ⟨s1, hb, hl⟩ := hnext hj
  exact ⟨sj, s1, hsj, hb, hl⟩

/-! ## Queue occupancy -/

theorem BufInv_occupancy (len : Nat) (s : Mid) (h : BufInv len s) : occupancy s ≤ len := by
  obtain ⟨_, h | ⟨_, h1, us, y, rest, _, h2⟩⟩ := h
  · exact h.2
  · simp only [occupancy, h1, List.length_nil]; omega

/-- The state after the receive of an iteration entered with started_ false: either the
start condition holds and the queues hold len + 1 elements, or the invariant still holds
with started_ false and the start condition does not hold. -/
theorem BufInv_recv_idle (len nums i : Nat) (s s0 : Mid) (hlen : in_seq_len s.pid_ = len)
    (hst : s.started_ = false) (hq : s.pipes_1.queue = [])
    (us : List Primitive) (y : Primitive) (rest : List Message)
    (hin : s.inbox = tagged .Upper us ++ { primitive := y, pipe := .Lower } :: rest)
    (hcnt : s.pipes_0.queue.length + us.length = len)
    (hrecv : s.sort_recv nums i = .ok s0) :
    (s0.can_sort_begin = true ∧ occupancy s0 = len + 1) ∨
    (s0.can_sort_begin = false ∧ BufInv len s0) := by
  unfold Mid.sort_recv at hrecv
  split at hrecv
  · cases us with
    | nil =>
      left
      simp only [tagged, List.map_nil, List.nil_append] at hin
      simp only [Mid.receive_from_prev_p, hin, Except.ok.injEq] at hrecv
      subst hrecv
      simp only [List.length_nil, Nat.add_zero] at hcnt
      simp [Mid.save_message, Mid.can_sort_begin, occupancy, hq, hlen, hcnt]
    | cons u us1 =>
      right
      simp only [tagged, List.map_cons, List.cons_append] at hin
      simp only [Mid.receive_from_prev_p, hin, Except.ok.injEq] at hrecv
      subst hrecv
      simp only [List.length_cons] at hcnt
      refine ⟨by simp [Mid.save_message, Mid.can_sort_begin, hq], by simpa [Mid.save_message] using hlen,
        Or.inr ⟨by simpa [Mid.save_message] using hst, by simpa [Mid.save_message] using hq,
          us1, y, rest, by simp [Mid.save_message, tagged], ?_⟩⟩
      simp [Mid.save_message]
      omega
  · right
    simp only [Except.ok.injEq] at hrecv
    subst hrecv
    exact ⟨by simp [Mid.can_sort_begin, hq], hlen, Or.inr ⟨hst, hq, us, y, rest, hin, hcnt⟩⟩

/-- One iteration of Mid::sort keeps the buffering invariant -/
theorem mid_BufInv_body (len nums i : Nat) (s s1 : Mid) (hinv : BufInv len s)
    (h : s.sort_body nums i = .ok s1) : BufInv len s1 := by
  obtain ⟨s0, hrecv, hemit⟩ := mid_body_recv nums i s s1 h
  obtain ⟨r1, _, _, _, r5, _, r7⟩ := mid_sort_recv_frame nums i s s0 hrecv
  obtain ⟨hlen, hcase⟩ := hinv
  rcases hcase with ⟨hst, hocc⟩ | ⟨hst, hq, us, y, rest, hin, hcnt⟩
  · have hl : s0.sort_latch.started_ = true :=
      (mid_sort_latch_frame s0).2.2.2.2.2.2.2.2.1 (by rw [r5]; exact hst)
    rcases mid_sort_emit_cases s0 s1 hemit with ⟨hf, _⟩ | ⟨_, h1, hp, ho, _⟩
    · rw [hl] at hf; cases hf
    · exact ⟨by rw [hp, r1]; exact hlen, Or.inl ⟨h1, by omega⟩⟩
  · rcases BufInv_recv_idle len nums i s s0 hlen hst hq us y rest hin hcnt hrecv with
      ⟨hc, hocc⟩ | ⟨hc, hinv0⟩
    · have hl : s0.sort_latch.started_ = true :=
        (mid_sort_latch_frame s0).2.2.2.2.2.2.2.2.2.1 hc
      rcases mid_sort_emit_cases s0 s1 hemit with ⟨hf, _⟩ | ⟨_, h1, hp, ho, _⟩
      · rw [hl] at hf; cases hf
      · exact ⟨by rw [hp, r1]; exact hlen, Or.inl ⟨h1, by omega⟩⟩
    · have hs0 : s0.started_ = false := by rw [r5]; exact hst
      have hb := (mid_body_idle nums i s s0 hrecv hst hc).1
      rw [hb] at h
      cases h
      exact hinv0

/-- One iteration of Last::sort keeps the buffering invariant -/
theorem last_BufInv_body (len nums i : Nat) (s s1 : Last) (hinv : BufInv len s.mid)
    (h : Last.sort_body nums i s = .ok s1) : BufInv len s1.mid := by
  obtain ⟨m0, hrecv, hemit⟩ := last_body_recv nums i s s1 h
  obtain ⟨r1, _, _, _, r5, _, r7⟩ := mid_sort_recv_frame nums i s.mid m0 hrecv
  obtain ⟨hlen, hcase⟩ := hinv
  rcases hcase with ⟨hst, hocc⟩ | ⟨hst, hq, us, y, rest, hin, hcnt⟩
  · have hl : m0.sort_latch.started_ = true :=
      (mid_sort_latch_frame m0).2.2.2.2.2.2.2.2.1 (by rw [r5]; exact hst)
    rcases last_sort_emit_cases _ s1 hemit with ⟨hf, _⟩ | ⟨_, h1, hp, ho, _⟩
    · simp only [] at hf; rw [hl] at hf; cases hf
    · simp only [] at hp ho
      exact ⟨by rw [hp, r1]; exact hlen, Or.inl ⟨h1, by omega⟩⟩
  · rcases BufInv_recv_idle len nums i s.mid m0 hlen hst hq us y rest hin hcnt hrecv with
      ⟨hc, hocc⟩ | ⟨hc, hinv0⟩
    · have hl : m0.sort_latch.started_ = true :=
        (mid_sort_latch_frame m0).2.2.2.2.2.2.2.2.2.1 hc
      rcases last_sort_emit_cases _ s1 hemit with ⟨hf, _⟩ | ⟨_, h1, hp, ho, _⟩
      · simp only [] at hf; rw [hl] at hf; cases hf
      · simp only [] at hp ho
        exact ⟨by rw [hp, r1]; exact hlen, Or.inl ⟨h1, by omega⟩⟩
    · have hb := (last_body_idle nums i s m0 hrecv hst hc).1
      rw [hb] at h
      cases h
      exact hinv0

theorem mid_BufInv_loop (len nums : Nat) (s0 : Mid) (h0 : BufInv len s0) :
    ∀ (n : Nat) (s : Mid), Mid.sort_loop nums n 0 s0 = .ok s → BufInv len s := by
  intro n
  induction n with
  | zero =>
    intro s h
    simp only [Mid.sort_loop, Except.ok.injEq] at h
    subst h
    exact h0
  | succ n ih =>
    intro s h
    rw [mid_sort_loop_succ] at h
    cases hn : Mid.sort_loop nums n 0 s0 with
    | error e => rw [hn] at h; cases h
    | ok s1 =>
      rw [hn] at h
      exact mid_BufInv_body len nums (0 + n) s1 s (ih s1 hn) h

theorem last_BufInv_loop (len nums : Nat) (s0 : Last) (h0 : BufInv len s0.mid) :
    ∀ (n : Nat) (s : Last), Last.sort_loop nums n 0 s0 = .ok s → BufInv len s.mid := by
  intro n
  induction n with
  | zero =>
    intro s h
    simp only [Last.sort_loop, Except.ok.injEq] at h
    subst h
    exact h0
  | succ n ih =>
    intro s h
    rw [last_sort_loop_succ] at h
    cases hn : Last.sort_loop nums n 0 s0 with
    | error e => rw [hn] at h; cases h
    | ok s1 =>
      rw [hn] at h
      exact last_BufInv_body len nums (0 + n) s1 s (ih s1 hn) h

/-- A stage created on a stream of pairs of runs of length in_seq_len satisfies the
buffering invariant -/
theorem BufInv_init (pid count : Nat) (hpid : 0 < pid)
    (q : List Primitive × List Primitive) (ps : List (List Primitive × List Primitive))
    (hq : q.1.length = in_seq_len pid ∧ q.2.length = in_seq_len pid) :
    BufInv (in_seq_len pid) (Mid.init pid count (pairStream (q :: ps))) := by
  have hL := in_seq_len_pos hpid
  obtain ⟨u, l⟩ := q
  simp only at hq
  cases l with
  | nil => simp at hq; omega
  | cons y l1 =>
    refine ⟨rfl, Or.inr ⟨rfl, rfl, u, y, tagged .Lower l1 ++ pairStream ps, ?_, ?_⟩⟩
    · simp [Mid.init, pairStream, tagged]
    · simp [Mid.init, hq.1]

/-- What every stage of a pipeline run on sixteen elements receives: a stream of pairs of
runs of the length in_seq_len of its rank, 16 messages in all -/
theorem pipeline_inboxes (input : Sequence) (h : input.length = EXPECTED_NUMS) :
    ∃ r : PipelineRun, pipeline input = .ok r ∧
      (∃ (q : List Primitive × List Primitive) (ps : List (List Primitive × List Primitive)),
        r.first.outbox = pairStream (q :: ps) ∧
        (∀ c ∈ q :: ps, c.1.length = in_seq_len 1 ∧ c.2.length = in_seq_len 1) ∧
        2 * in_seq_len 1 * (ps.length + 1) = EXPECTED_NUMS) ∧
      (∃ (q : List Primitive × List Primitive) (ps : List (List Primitive × List Primitive)),
        r.mid1.outbox = pairStream (q :: ps) ∧
        (∀ c ∈ q :: ps, c.1.length = in_seq_len 2 ∧ c.2.length = in_seq_len 2) ∧
        2 * in_seq_len 2 * (ps.length + 1) = EXPECTED_NUMS) ∧
      (∃ (q : List Primitive × List Primitive) (ps : List (List Primitive × List Primitive)),
        r.mid2.outbox = pairStream (q :: ps) ∧
        (∀ c ∈ q :: ps, c.1.length = in_seq_len 3 ∧ c.2.length = in_seq_len 3) ∧
        2 * in_seq_len 3 * (ps.length + 1) = EXPECTED_NUMS) ∧
      (∃ (q : List Primitive × List Primitive) (ps : List (List Primitive × List Primitive)),
        r.mid3.outbox = pairStream (q :: ps) ∧
        (∀ c ∈ q :: ps, c.1.length = in_seq_len 4 ∧ c.2.length = in_seq_len 4) ∧
        2 * in_seq_len 4 * (ps.length + 1) = EXPECTED_NUMS) := by
  obtain ⟨x0, x1, x2, x3, x4, x5, x6, x7, x8, x9, x10, x11, x12, x13, x14, x15, rfl⟩ :=
    list_of_length_16 input h
  obtain ⟨pf1, pf2, pf3, hrun⟩ :=
    pipeline_run x0 x1 x2 x3 x4 x5 x6 x7 x8 x9 x10 x11 x12 x13 x14 x15
  have e0 := first_sort_outbox EXPECTED_PROCESSES
    [x0, x1, x2, x3, x4, x5, x6, x7, x8, x9, x10, x11, x12, x13, x14, x15]
  simp only [FIRST_PID] at e0
  refine ⟨_, hrun, ?_, ?_, ?_, ?_⟩
  · refine ⟨([x0], [x1]),
      [([x2], [x3]),
       ([x4], [x5]),
       ([x6], [x7]),
       ([x8], [x9]),
       ([x10], [x11]),
       ([x12], [x13]),
       ([x14], [x15])], ?_, ?_, ?_⟩
    · rw [e0]; rfl
    · simp [in_seq_len]
    · simp [in_seq_len, EXPECTED_NUMS]
  · refine ⟨((mergeLE [x0] [x1]), (mergeLE [x2] [x3])),
      [((mergeLE [x4] [x5]), (mergeLE [x6] [x7])),
       ((mergeLE [x8] [x9]), (mergeLE [x10] [x11])),
       ((mergeLE [x12] [x13]), (mergeLE [x14] [x15]))], ?_, ?_, ?_⟩
    · simp [mergePairs, altTagged, pairStream, PipeSelect.toggle]
    · simp [in_seq_len, mergeLE_length]
    · simp [in_seq_len, EXPECTED_NUMS]
  · refine ⟨((mergeLE (mergeLE [x0] [x1]) (mergeLE [x2] [x3])), (mergeLE (mergeLE [x4] [x5]) (mergeLE [x6] [x7]))),
      [((mergeLE (mergeLE [x8] [x9]) (mergeLE [x10] [x11])), (mergeLE (mergeLE [x12] [x13]) (mergeLE [x14] [x15])))], ?_, ?_, ?_⟩
    · simp [mergePairs, altTagged, pairStream, PipeSelect.toggle]
    · simp [in_seq_len, mergeLE_length]
    · simp [in_seq_len, EXPECTED_NUMS]
  · refine ⟨((mergeLE (mergeLE (mergeLE [x0] [x1]) (mergeLE [x2] [x3])) (mergeLE (mergeLE [x4] [x5]) (mergeLE [x6] [x7]))), (mergeLE (mergeLE (mergeLE [x8] [x9]) (mergeLE [x10] [x11])) (mergeLE (mergeLE [x12] [x13]) (mergeLE [x14] [x15])))),
      [], ?_, ?_, ?_⟩
    · simp [mergePairs, altTagged, pairStream, PipeSelect.toggle]
    · simp [in_seq_len, mergeLE_length]
    · simp [in_seq_len, EXPECTED_NUMS]

/-! ## The taken counters -/

theorem mid_take_from_taken (s : Mid) (p : PipeSelect) (v : Primitive) (s2 : Mid)
    (h : s.take_from p = .ok (v, s2)) :
    (s2.pipes_0.taken = s.pipes_0.taken + 1 ∧ s2.pipes_1.taken = s.pipes_1.taken) ∨
    (s2.pipes_0.taken = s.pipes_0.taken ∧ s2.pipes_1.taken = s.pipes_1.taken + 1) := by
  cases p with
  | Upper =>
    simp only [Mid.take_from] at h
    split at h
    · cases h
    · simp only [Except.ok.injEq, Prod.mk.injEq] at h
      obtain ⟨_, rfl⟩ := h
      exact Or.inl ⟨rfl, rfl⟩
  | Lower =>
    simp only [Mid.take_from] at h
    split at h
    · cases h
    · simp only [Except.ok.injEq, Prod.mk.injEq] at h
      obtain ⟨_, rfl⟩ := h
      exact Or.inr ⟨rfl, rfl⟩

theorem mid_next_primitive_taken (s : Mid) (v : Primitive) (s2 : Mid)
    (h : s.next_primitive = .ok (v, s2)) :
    (s2.pipes_0.taken = s.pipes_0.taken + 1 ∧ s2.pipes_1.taken = s.pipes_1.taken) ∨
    (s2.pipes_0.taken = s.pipes_0.taken ∧ s2.pipes_1.taken = s.pipes_1.taken + 1) := by
  unfold Mid.next_primitive at h
  split at h
  · exact mid_take_from_taken s _ v s2 h
  · split at h
    · exact mid_take_from_taken s _ v s2 h
    · split at h
      · split at h
        · exact mid_take_from_taken s _ v s2 h
        · exact mid_take_from_taken s _ v s2 h
      · cases h

theorem mid_save_message_taken (s : Mid) (msg : Message) :
    (s.save_message msg).pipes_0.taken = s.pipes_0.taken ∧
    (s.save_message msg).pipes_1.taken = s.pipes_1.taken := by
  unfold Mid.save_message
  split <;> exact ⟨rfl, rfl⟩

theorem mid_receive_taken (s : Mid) (m : Message) (s1 : Mid)
    (h : s.receive_from_prev_p = .ok (m, s1)) :
    s1.pipes_0.taken = s.pipes_0.taken ∧ s1.pipes_1.taken = s.pipes_1.taken := by
  unfold Mid.receive_from_prev_p at h
  split at h
  · cases h
  · simp only [Except.ok.injEq, Prod.mk.injEq] at h
    obtain ⟨_, rfl⟩ := h
    exact ⟨rfl, rfl⟩

theorem mid_sort_recv_taken (nums i : Nat) (s s1 : Mid) (h : s.sort_recv nums i = .ok s1) :
    s1.pipes_0.taken = s.pipes_0.taken ∧ s1.pipes_1.taken = s.pipes_1.taken := by
  unfold Mid.sort_recv at h
  split at h
  · split at h
    · cases h
    · rename_i msg s0 he
      simp only [Except.ok.injEq] at h
      subst h
      obtain ⟨h0, h1⟩ := mid_receive_taken s msg s0 he
      obtain ⟨g0, g1⟩ := mid_save_message_taken s0 msg
      exact ⟨by rw [g0, h0], by rw [g1, h1]⟩
  · simp only [Except.ok.injEq] at h
    subst h
    exact ⟨rfl, rfl⟩

/-- Across one completed iteration of Mid::sort either the toggle ran (tag flipped, all three
counters 0) or the tag is kept and no taken counter went down -/
theorem mid_sort_body_taken (nums i : Nat) (s s1 : Mid) (h : s.sort_body nums i = .ok s1) :
    (s1.pipe_select_ = s.pipe_select_.toggle ∧ s1.sent_to_selected_ = 0 ∧
      s1.pipes_0.taken = 0 ∧ s1.pipes_1.taken = 0) ∨
    (s1.pipe_select_ = s.pipe_select_ ∧ s.pipes_0.taken ≤ s1.pipes_0.taken ∧
      s.pipes_1.taken ≤ s1.pipes_1.taken) := by
  obtain ⟨s0, hrecv, hemit⟩ := mid_body_recv nums i s s1 h
  obtain ⟨_, _, r3, _, _, _, _⟩ := mid_sort_recv_frame nums i s s0 hrecv
  obtain ⟨t0, t1⟩ := mid_sort_recv_taken nums i s s0 hrecv
  obtain ⟨_, _, l3, _, _, _, l7, l8, _, _, _⟩ := mid_sort_latch_frame s0
  unfold Mid.sort_emit at hemit
  simp only [] at hemit
  split at hemit
  · simp only [Except.ok.injEq] at hemit
    subst hemit
    exact Or.inr ⟨by rw [l3, r3], by rw [l7, t0], by rw [l8, t1]⟩
  · split at hemit
    · cases hemit
    · rename_i val s2 hnp
      obtain ⟨_, _, f3, _, _, _, _, _⟩ := mid_next_primitive_frame _ _ _ hnp
      have htk := mid_next_primitive_taken _ _ _ hnp
      rw [l7, l8, t0, t1] at htk
      simp only [Except.ok.injEq] at hemit
      split at hemit
      · subst hemit
        left
        simp [Mid.toggle_pipe, Mid.clear_taken, Mid.send_to_next_p, f3, l3, r3]
      · subst hemit
        right
        refine ⟨by simp [Mid.send_to_next_p, f3, l3, r3], ?_, ?_⟩
        · simp only [Mid.send_to_next_p]; omega
        · simp only [Mid.send_to_next_p]; omega

/-! ## The stream of the last rank -/

theorem tag_of_lt (t : PipeSelect) (k n : Nat) (h : t = .Upper ↔ k < n) :
    t = if k < n then .Upper else .Lower := by
  by_cases hk : k < n
  · simp [hk, h.mpr hk]
  · simp only [hk, if_false]
    cases t with
    | Upper => exact absurd (h.mp rfl) hk
    | Lower => rfl

/-- A stream of 16 messages whose first 8 are tagged Upper and whose last 8 are tagged Lower
is one Upper run followed by one Lower run, both of length 8 -/
theorem stream_as_pair_4 (stream : List Message) (hlen : stream.length = 16)
    (htag : ∀ (k : Nat) (m : Message), stream[k]? = some m → (m.pipe = .Upper ↔ k < 8)) :
    ∃ u l : List Primitive, stream = tagged .Upper u ++ tagged .Lower l ∧
      u.length = 8 ∧ l.length = 8 := by
  obtain ⟨m0, m1, m2, m3, m4, m5, m6, m7, m8, m9, m10, m11, m12, m13, m14, m15, rfl⟩ :=
    list_of_length_16 stream hlen
  obtain ⟨a0, t0⟩ := m0
  obtain ⟨a1, t1⟩ := m1
  obtain ⟨a2, t2⟩ := m2
  obtain ⟨a3, t3⟩ := m3
  obtain ⟨a4, t4⟩ := m4
  obtain ⟨a5, t5⟩ := m5
  obtain ⟨a6, t6⟩ := m6
  obtain ⟨a7, t7⟩ := m7
  obtain ⟨a8, t8⟩ := m8
  obtain ⟨a9, t9⟩ := m9
  obtain ⟨a10, t10⟩ := m10
  obtain ⟨a11, t11⟩ := m11
  obtain ⟨a12, t12⟩ := m12
  obtain ⟨a13, t13⟩ := m13
  obtain ⟨a14, t14⟩ := m14
  obtain ⟨a15, t15⟩ := m15
  have h0 := tag_of_lt t0 0 8 (htag 0 _ rfl)
  have h1 := tag_of_lt t1 1 8 (htag 1 _ rfl)
  have h2 := tag_of_lt t2 2 8 (htag 2 _ rfl)
  have h3 := tag_of_lt t3 3 8 (htag 3 _ rfl)
  have h4 := tag_of_lt t4 4 8 (htag 4 _ rfl)
  have h5 := tag_of_lt t5 5 8 (htag 5 _ rfl)
  have h6 := tag_of_lt t6 6 8 (htag 6 _ rfl)
  have h7 := tag_of_lt t7 7 8 (htag 7 _ rfl)
  have h8 := tag_of_lt t8 8 8 (htag 8 _ rfl)
  have h9 := tag_of_lt t9 9 8 (htag 9 _ rfl)
  have h10 := tag_of_lt t10 10 8 (htag 10 _ rfl)
  have h11 := tag_of_lt t11 11 8 (htag 11 _ rfl)
  have h12 := tag_of_lt t12 12 8 (htag 12 _ rfl)
  have h13 := tag_of_lt t13 13 8 (htag 13 _ rfl)
  have h14 := tag_of_lt t14 14 8 (htag 14 _ rfl)
  have h15 := tag_of_lt t15 15 8 (htag 15 _ rfl)
  subst h0 h1 h2 h3 h4 h5 h6 h7 h8 h9 h10 h11 h12 h13 h14 h15
  exact ⟨[a0, a1, a2, a3, a4, a5, a6, a7], [a8, a9, a10, a11, a12, a13, a14, a15], rfl, rfl, rfl⟩

theorem last_take_from_taken (s : Mid) (p : PipeSelect) (v : Primitive) (s2 : Mid)
    (h : Last.take_from s p = .ok (v, s2)) :
    s2.pipes_0.taken = s.pipes_0.taken ∧ s2.pipes_1.taken = s.pipes_1.taken := by
  cases p with
  | Upper =>
    simp only [Last.take_from] at h
    split at h
    · cases h
    · simp only [Except.ok.injEq, Prod.mk.injEq] at h
      obtain ⟨_, rfl⟩ := h
      exact ⟨rfl, rfl⟩
  | Lower =>
    simp only [Last.take_from] at h
    split at h
    · cases h
    · simp only [Except.ok.injEq, Prod.mk.injEq] at h
      obtain ⟨_, rfl⟩ := h
      exact ⟨rfl, rfl⟩

/-- Last::next_primitive leaves both taken counters as they are -/
theorem last_next_primitive_taken (s : Mid) (v : Primitive) (s2 : Mid)
    (h : Last.next_primitive s = .ok (v, s2)) :
    s2.pipes_0.taken = s.pipes_0.taken ∧ s2.pipes_1.taken = s.pipes_1.taken := by
  unfold Last.next_primitive at h
  split at h
  · exact last_take_from_taken s _ v s2 h
  · split at h
    · exact last_take_from_taken s _ v s2 h
    · split at h
      · split at h
        · exact last_take_from_taken s _ v s2 h
        · exact last_take_from_taken s _ v s2 h
      · cases h

/-! ## Where the start condition first holds -/

/-- The state of Mid::sort after j iterations inside the first Upper run: j elements are
buffered, nothing else has happened -/
theorem mid_buffer_prefix (pid count nums : Nat) (u : List Primitive) (rest : List Message)
    (j : Nat) (hj : j ≤ u.length) (hn : j ≤ nums) :
    Mid.sort_loop nums j 0 (Mid.init pid count (tagged .Upper u ++ rest)) =
      .ok { pid_ := pid, count_ := count, pipe_select_ := .Upper, sent_to_selected_ := 0,
            pipes_0 := { queue := u.take j, taken := 0 },
            pipes_1 := { queue := [], taken := 0 },
            started_ := false, inbox := tagged .Upper (u.drop j) ++ rest, outbox := [] } := by
  have hb := mid_buffer pid count nums (u.take j) [] (tagged .Upper (u.drop j) ++ rest)
    .Upper [] 0 0 (by rw [List.length_take]; omega)
  have hl : (u.take j).length = j := by rw [List.length_take]; omega
  rw [← List.append_assoc, ← tagged_append, List.take_append_drop, hl] at hb
  simp only [Nat.add_zero, List.nil_append, Nat.zero_add] at hb
  rw [Mid.init, hb]
  rfl

/-- Iteration by iteration, Mid::sort on a stream of pairs of runs: every iteration is
reached, its receive returns and it completes; before iteration in_seq_len the start
condition does not hold and nothing is sent; at iteration in_seq_len it holds; from there
on started_ is true after the latch and exactly one message is sent per iteration. -/
theorem mid_iteration_profile (pid count : Nat) (hpid : 0 < pid)
    (q : List Primitive × List Primitive) (ps : List (List Primitive × List Primitive))
    (hall : ∀ r ∈ q :: ps, r.1.length = in_seq_len pid ∧ r.2.length = in_seq_len pid)
    (hN : 2 * in_seq_len pid * (ps.length + 1) = EXPECTED_NUMS) :
    ∀ j, j < EXPECTED_NUMS + in_seq_len pid →
      ∃ sj s0 s1 : Mid,
        Mid.sort_loop EXPECTED_NUMS j 0 (Mid.init pid count (pairStream (q :: ps))) = .ok sj ∧
        sj.sort_recv EXPECTED_NUMS j = .ok s0 ∧
        sj.sort_body EXPECTED_NUMS j = .ok s1 ∧
        (j < in_seq_len pid →
          s0.can_sort_begin = false ∧ s0.sort_latch.started_ = false ∧
          sj.outbox = [] ∧ s1.outbox = []) ∧
        (j = in_seq_len pid → s0.can_sort_begin = true) ∧
        (in_seq_len pid ≤ j →
          s0.sort_latch.started_ = true ∧ s1.outbox.length = sj.outbox.length + 1) := by
  have hL := in_seq_len_pos hpid
  have hq := hall q (List.mem_cons_self _ _)
  obtain ⟨u, l⟩ := q
  simp only at hq
  have hNL : in_seq_len pid ≤ EXPECTED_NUMS := by
    have : 2 * in_seq_len pid * (ps.length + 1) =
      2 * in_seq_len pid * ps.length + 2 * in_seq_len pid := by ring
    omega
  -- the states inside the first Upper run
  have hpre : ∀ j, j ≤ in_seq_len pid →
      Mid.sort_loop EXPECTED_NUMS j 0 (Mid.init pid count (pairStream ((u, l) :: ps))) =
        .ok { pid_ := pid, count_ := count, pipe_select_ := .Upper, sent_to_selected_ := 0,
              pipes_0 := { queue := u.take j, taken := 0 },
              pipes_1 := { queue := [], taken := 0 },
              started_ := false,
              inbox := tagged .Upper (u.drop j) ++ (tagged .Lower l ++ pairStream ps),
              outbox := [] } := by
    intro j hj
    exact mid_buffer_prefix pid count EXPECTED_NUMS u _ j (by omega) (by omega)
  -- the start condition at iteration in_seq_len
  have hstart : ∃ sL s0 : Mid,
      Mid.sort_loop EXPECTED_NUMS (in_seq_len pid) 0
        (Mid.init pid count (pairStream ((u, l) :: ps))) = .ok sL ∧
      sL.sort_recv EXPECTED_NUMS (in_seq_len pid) = .ok s0 ∧ s0.can_sort_begin = true := by
    cases l with
    | nil => simp at hq; omega
    | cons y l1 =>
      have hlt : in_seq_len pid < EXPECTED_NUMS := by
        have : 2 * in_seq_len pid * (ps.length + 1) =
          2 * in_seq_len pid * ps.length + 2 * in_seq_len pid := by ring
        omega
      have hd : u.drop (in_seq_len pid) = [] := by
        rw [List.drop_eq_nil_iff]; omega
      have ht : (u.take (in_seq_len pid)).length = in_seq_len pid := by
        rw [List.length_take]; omega
      refine ⟨_,
        { pid_ := pid, count_ := count, pipe_select_ := .Upper, sent_to_selected_ := 0,
          pipes_0 := { queue := u.take (in_seq_len pid), taken := 0 },
          pipes_1 := { queue := [y], taken := 0 },
          started_ := false, inbox := tagged .Lower l1 ++ pairStream ps, outbox := [] },
        hpre _ (Nat.le_refl _), ?_, ?_⟩
      · simp only [Mid.sort_recv, hlt, if_true, Mid.receive_from_prev_p, hd, tagged,
          List.map_nil, List.nil_append, List.map_cons, List.cons_append, Mid.save_message]
      · simp [Mid.can_sort_begin, ht]
  obtain ⟨sL, sL0, hsL, hrL, hcL⟩ := hstart
  intro j hj
  obtain ⟨sj, s1, hsj, hb, _⟩ :=
    mid_sort_pairs_total pid count hpid (u, l) ps hall hN j hj
  obtain ⟨s0, hr, _⟩ := mid_body_recv _ _ sj s1 hb
  refine ⟨sj, s0, s1, hsj, hr, hb, ?_, ?_, ?_⟩
  · intro hlt
    have hs := hpre j (by omega)
    rw [hsj] at hs
    simp only [Except.ok.injEq] at hs
    have hne : ∃ z zs, u.drop j = z :: zs := by
      cases hd : u.drop j with
      | nil =>
        rw [List.drop_eq_nil_iff] at hd
        omega
      | cons z zs => exact ⟨z, zs, rfl⟩
    obtain ⟨z, zs, hz⟩ := hne
    have hjn : j < EXPECTED_NUMS := by omega
    have hc : s0.can_sort_begin = false := by
      rw [hs] at hr
      simp only [Mid.sort_recv, hjn, if_true, Mid.receive_from_prev_p, hz, tagged,
        List.map_cons, List.cons_append, Mid.save_message, Except.ok.injEq] at hr
      subst hr
      simp [Mid.can_sort_begin]
    have hst : sj.started_ = false := by rw [hs]
    have hout : sj.outbox = [] := by rw [hs]
    obtain ⟨hbi, hs0, ho⟩ := mid_body_idle _ _ sj s0 hr hst hc
    have e1 : s0 = s1 := by rw [hbi] at hb; exact Except.ok.inj hb
    refine ⟨hc, ?_, hout, by rw [← e1, ho, hout]⟩
    rw [(mid_sort_latch_frame s0).2.2.2.2.2.2.2.2.2.2 hs0 hc]
    exact hs0
  · intro he
    subst he
    rw [hsL] at hsj
    cases hsj
    rw [hrL] at hr
    cases hr
    exact hcL
  · intro hge
    have hst : s0.sort_latch.started_ = true := by
      by_cases he : j = in_seq_len pid
      · subst he
        rw [hsL] at hsj
        cases hsj
        rw [hrL] at hr
        cases hr
        exact (mid_sort_latch_frame _).2.2.2.2.2.2.2.2.2.1 hcL
      · have h1 := mid_latched EXPECTED_NUMS (in_seq_len pid) _ sL sL0 hsL hrL hcL j sj
          (by omega) hsj
        obtain ⟨_, _, _, _, r5, _, _⟩ := mid_sort_recv_frame _ _ sj s0 hr
        exact (mid_sort_latch_frame s0).2.2.2.2.2.2.2.2.1 (by rw [r5]; exact h1)
    refine ⟨hst, ?_⟩
    rcases mid_body_started _ _ sj s0 hr hst with herr | ⟨s1', hb', _, hlen⟩
    · rw [hb] at herr; cases herr
    · rw [hb] at hb'
      cases hb'
      exact hlen

/-- The state of Last::sort after j iterations inside the Upper run: j elements are
buffered, nothing else has happened -/
theorem last_buffer_prefix (pid count nums : Nat) (u : List Primitive) (rest : List Message)
    (j : Nat) (hj : j ≤ u.length) (hn : j ≤ nums) :
    Last.sort_loop nums j 0 (Last.init pid count (tagged .Upper u ++ rest)) =
      .ok { mid := { pid_ := pid, count_ := count, pipe_select_ := .Upper,
                     sent_to_selected_ := 0,
                     pipes_0 := { queue := u.take j, taken := 0 },
                     pipes_1 := { queue := [], taken := 0 },
                     started_ := false, inbox := tagged .Upper (u.drop j) ++ rest,
                     outbox := [] },
            output_ := [] } := by
  have hb := last_buffer pid count nums (u.take j) [] (tagged .Upper (u.drop j) ++ rest)
    .Upper [] [] 0 0 (by rw [List.length_take]; omega)
  have hl : (u.take j).length = j := by rw [List.length_take]; omega
  rw [← List.append_assoc, ← tagged_append, List.take_append_drop, hl] at hb
  simp only [Nat.add_zero, List.nil_append, Nat.zero_add] at hb
  rw [Last.init, Mid.init, hb]
  rfl

/-- Iteration by iteration, Last::sort on a stream of one Upper run and one Lower run: every
iteration is reached, its receive returns and it completes; before iteration in_seq_len the
start condition does not hold and output_ stays empty; at iteration in_seq_len it holds;
from there on started_ is true after the latch and exactly one element is appended per
iteration. -/
theorem last_iteration_profile (pid count : Nat) (hpid : 0 < pid) (u l : List Primitive)
    (hu : u.length = in_seq_len pid) (hl : l.length = in_seq_len pid)
    (hN : 2 * in_seq_len pid = EXPECTED_NUMS) :
    ∀ j, j < EXPECTED_NUMS + in_seq_len pid →
      ∃ (sj : Last) (m0 : Mid) (s1 : Last),
        Last.sort_loop EXPECTED_NUMS j 0
          (Last.init pid count (tagged .Upper u ++ tagged .Lower l)) = .ok sj ∧
        sj.mid.sort_recv EXPECTED_NUMS j = .ok m0 ∧
        Last.sort_body EXPECTED_NUMS j sj = .ok s1 ∧
        (j < in_seq_len pid →
          m0.can_sort_begin = false ∧ m0.sort_latch.started_ = false ∧
          sj.output_ = [] ∧ s1.output_ = []) ∧
        (j = in_seq_len pid → m0.can_sort_begin = true) ∧
        (in_seq_len pid ≤ j →
          m0.sort_latch.started_ = true ∧ s1.output_.length = sj.output_.length + 1) := by
  have hL := in_seq_len_pos hpid
  have hpre : ∀ j, j ≤ in_seq_len pid →
      Last.sort_loop EXPECTED_NUMS j 0
          (Last.init pid count (tagged .Upper u ++ tagged .Lower l)) =
        .ok { mid := { pid_ := pid, count_ := count, pipe_select_ := .Upper,
                       sent_to_selected_ := 0,
                       pipes_0 := { queue := u.take j, taken := 0 },
                       pipes_1 := { queue := [], taken := 0 },
                       started_ := false,
                       inbox := tagged .Upper (u.drop j) ++ tagged .Lower l,
                       outbox := [] },
              output_ := [] } := by
    intro j hj
    exact last_buffer_prefix pid count EXPECTED_NUMS u _ j (by omega) (by omega)
  have hstart : ∃ (sL : Last) (m0 : Mid),
      Last.sort_loop EXPECTED_NUMS (in_seq_len pid) 0
        (Last.init pid count (tagged .Upper u ++ tagged .Lower l)) = .ok sL ∧
      sL.mid.sort_recv EXPECTED_NUMS (in_seq_len pid) = .ok m0 ∧
      m0.can_sort_begin = true := by
    cases l with
    | nil => simp at hl; omega
    | cons y l1 =>
      have hlt : in_seq_len pid < EXPECTED_NUMS := by omega
      have hd : u.drop (in_seq_len pid) = [] := by
        rw [List.drop_eq_nil_iff]; omega
      have ht : (u.take (in_seq_len pid)).length = in_seq_len pid := by
        rw [List.length_take]; omega
      refine ⟨_,
        { pid_ := pid, count_ := count, pipe_select_ := .Upper, sent_to_selected_ := 0,
          pipes_0 := { queue := u.take (in_seq_len pid), taken := 0 },
          pipes_1 := { queue := [y], taken := 0 },
          started_ := false, inbox := tagged .Lower l1, outbox := [] },
        hpre _ (Nat.le_refl _), ?_, ?_⟩
      · simp only [Mid.sort_recv, hlt, if_true, Mid.receive_from_prev_p, hd, tagged,
          List.map_nil, List.nil_append, List.map_cons, Mid.save_message]
      · simp [Mid.can_sort_begin, ht]
  obtain ⟨sL, mL0, hsL, hrL, hcL⟩ := hstart
  intro j hj
  obtain ⟨sj, s1, hsj, hb, _⟩ := last_sort_pair_total pid count hpid u l hu hl hN j hj
  obtain ⟨m0, hr, _⟩ := last_body_recv _ _ sj s1 hb
  refine ⟨sj, m0, s1, hsj, hr, hb, ?_, ?_, ?_⟩
  · intro hlt
    have hs := hpre j (by omega)
    rw [hsj] at hs
    simp only [Except.ok.injEq] at hs
    have hne : ∃ z zs, u.drop j = z :: zs := by
      cases hd : u.drop j with
      | nil =>
        rw [List.drop_eq_nil_iff] at hd
        omega
      | cons z zs => exact ⟨z, zs, rfl⟩
    obtain ⟨z, zs, hz⟩ := hne
    have hjn : j < EXPECTED_NUMS := by omega
    have hc : m0.can_sort_begin = false := by
      rw [hs] at hr
      simp only [Mid.sort_recv, hjn, if_true, Mid.receive_from_prev_p, hz, tagged,
        List.map_cons, List.cons_append, Mid.save_message, Except.ok.injEq] at hr
      subst hr
      simp [Mid.can_sort_begin]
    have hst : sj.mid.started_ = false := by rw [hs]
    have hout : sj.output_ = [] := by rw [hs]
    obtain ⟨hbi, hs0⟩ := last_body_idle _ _ sj m0 hr hst hc
    have e1 : { sj with mid := m0 } = s1 := by rw [hbi] at hb; exact Except.ok.inj hb
    refine ⟨hc, ?_, hout, by rw [← e1]; exact hout⟩
    rw [(mid_sort_latch_frame m0).2.2.2.2.2.2.2.2.2.2 hs0 hc]
    exact hs0
  · intro he
    subst he
    rw [hsL] at hsj
    cases hsj
    rw [hrL] at hr
    cases hr
    exact hcL
  · intro hge
    have hst : m0.sort_latch.started_ = true := by
      by_cases he : j = in_seq_len pid
      · subst he
        rw [hsL] at hsj
        cases hsj
        rw [hrL] at hr
        cases hr
        exact (mid_sort_latch_frame _).2.2.2.2.2.2.2.2.2.1 hcL
      · have h1 := last_latched EXPECTED_NUMS (in_seq_len pid) _ sL mL0 hsL hrL hcL j sj
          (by omega) hsj
        obtain ⟨_, _, _, _, r5, _, _⟩ := mid_sort_recv_frame _ _ sj.mid m0 hr
        exact (mid_sort_latch_frame m0).2.2.2.2.2.2.2.2.1 (by rw [r5]; exact h1)
    refine ⟨hst, ?_⟩
    rcases last_body_started _ _ sj m0 hr hst with herr | ⟨s1', hb', _, hlen⟩
    · rw [hb] at herr; cases herr
    · rw [hb] at hb'
      cases hb'
      exact hlen

/-! ## next_primitive on the streams of a pipeline run -/

theorem mid_next_primitive_ok_lower (t : Mid) (v : Primitive) (s2 : Mid)
    (h : t.next_primitive = .ok (v, s2))
    (hc : in_seq_len t.pid_ ≤ t.pipes_0.taken ∨ t.pipes_0.queue = []) :
    t.pipes_1.queue ≠ [] := by
  intro hq
  rcases hc with hc | hc
  · simp [Mid.next_primitive, Mid.take_from, hc, hq] at h
  · simp [Mid.next_primitive, Mid.take_from, hc, hq] at h

theorem last_next_primitive_ok_lower (t : Mid) (v : Primitive) (s2 : Mid)
    (h : Last.next_primitive t = .ok (v, s2)) (hc : t.pipes_0.queue = []) :
    t.pipes_1.queue ≠ [] := by
  intro hq
  simp [Last.next_primitive, Last.take_from, hc, hq] at h

/-- On a stream of pairs of runs every call of Mid::next_primitive returns: in every
iteration from in_seq_len on started_ is true after the latch, next_primitive is called and
the queue it reads is not empty. -/
theorem mid_no_empty_read (pid count : Nat) (hpid : 0 < pid)
    (q : List Primitive × List Primitive) (ps : List (List Primitive × List Primitive))
    (hall : ∀ r ∈ q :: ps, r.1.length = in_seq_len pid ∧ r.2.length = in_seq_len pid)
    (hN : 2 * in_seq_len pid * (ps.length + 1) = EXPECTED_NUMS) :
    ∀ j, j < EXPECTED_NUMS + in_seq_len pid →
      ∃ sj s0 : Mid,
        Mid.sort_loop EXPECTED_NUMS j 0 (Mid.init pid count (pairStream (q :: ps))) = .ok sj ∧
        sj.sort_recv EXPECTED_NUMS j = .ok s0 ∧
        (in_seq_len pid ≤ j → s0.sort_latch.started_ = true) ∧
        (s0.sort_latch.started_ = true →
          (∃ (v : Primitive) (s2 : Mid), s0.sort_latch.next_primitive = .ok (v, s2)) ∧
          ((in_seq_len pid ≤ s0.pipes_0.taken ∨ s0.pipes_0.queue = []) →
            s0.pipes_1.queue ≠ []) ∧
          (¬ (in_seq_len pid ≤ s0.pipes_0.taken ∨ s0.pipes_0.queue = []) →
            (in_seq_len pid ≤ s0.pipes_1.taken ∨ s0.pipes_1.queue = []) →
            s0.pipes_0.queue ≠ [])) := by
  intro j hj
  obtain ⟨sj, s0, s1, hsj, hr, hb, _, _, hge⟩ :=
    mid_iteration_profile pid count hpid q ps hall hN j hj
  refine ⟨sj, s0, hsj, hr, fun h => (hge h).1, ?_⟩
  intro hst
  have hinv := mid_BufInv_loop (in_seq_len pid) EXPECTED_NUMS _
    (BufInv_init pid count hpid q ps (hall q (List.mem_cons_self _ _))) j sj hsj
  have l1 := (mid_sort_latch_frame s0).1
  have l7 := (mid_sort_latch_frame s0).2.2.2.2.2.2.1
  have l8 := (mid_sort_latch_frame s0).2.2.2.2.2.2.2.1
  have hp : in_seq_len s0.sort_latch.pid_ = in_seq_len pid := by
    rw [l1, (mid_sort_recv_frame _ _ sj s0 hr).1]
    exact hinv.1
  have hb2 : s0.sort_emit = .ok s1 := by
    unfold Mid.sort_body at hb
    rw [hr] at hb
    exact hb
  have hnp : ∃ (v : Primitive) (s2 : Mid), s0.sort_latch.next_primitive = .ok (v, s2) := by
    unfold Mid.sort_emit at hb2
    simp only [hst, Bool.not_true, Bool.false_eq_true, if_false] at hb2
    cases hn : s0.sort_latch.next_primitive with
    | error e => rw [hn] at hb2; cases hb2
    | ok r => exact ⟨r.1, r.2, rfl⟩
  obtain ⟨v, s2, hn⟩ := hnp
  refine ⟨⟨v, s2, hn⟩, ?_, ?_⟩
  · intro hc
    have h1 := mid_next_primitive_ok_lower _ v s2 hn (by rw [hp, l7]; exact hc)
    rwa [l8] at h1
  · intro hnc _ hq
    exact hnc (Or.inr hq)

/-- On a stream of one Upper run and one Lower run every call of Last::next_primitive
returns: in every iteration from in_seq_len on started_ is true after the latch,
next_primitive is called and the queue it reads is not empty. -/
theorem last_no_empty_read (pid count : Nat) (hpid : 0 < pid) (u l : List Primitive)
    (hu : u.length = in_seq_len pid) (hl : l.length = in_seq_len pid)
    (hN : 2 * in_seq_len pid = EXPECTED_NUMS) :
    ∀ j, j < EXPECTED_NUMS + in_seq_len pid →
      ∃ (sj : Last) (m0 : Mid),
        Last.sort_loop EXPECTED_NUMS j 0
          (Last.init pid count (tagged .Upper u ++ tagged .Lower l)) = .ok sj ∧
        sj.mid.sort_recv EXPECTED_NUMS j = .ok m0 ∧
        (in_seq_len pid ≤ j → m0.sort_latch.started_ = true) ∧
        (m0.sort_latch.started_ = true →
          (∃ (v : Primitive) (m2 : Mid), Last.next_primitive m0.sort_latch = .ok (v, m2)) ∧
          (m0.pipes_0.queue = [] → m0.pipes_1.queue ≠ []) ∧
          (m0.pipes_0.queue ≠ [] → m0.pipes_1.queue = [] → m0.pipes_0.queue ≠ [])) := by
  intro j hj
  obtain ⟨sj, m0, s1, hsj, hr, hb, _, _, hge⟩ :=
    last_iteration_profile pid count hpid u l hu hl hN j hj
  refine ⟨sj, m0, hsj, hr, fun h => (hge h).1, ?_⟩
  intro hst
  have l7 := (mid_sort_latch_frame m0).2.2.2.2.2.2.1
  have l8 := (mid_sort_latch_frame m0).2.2.2.2.2.2.2.1
  have hb2 : Last.sort_emit { sj with mid := m0 } = .ok s1 := by
    unfold Last.sort_body at hb
    rw [hr] at hb
    exact hb
  have hnp : ∃ (v : Primitive) (m2 : Mid), Last.next_primitive m0.sort_latch = .ok (v, m2) := by
    unfold Last.sort_emit at hb2
    simp only [hst, Bool.not_true, Bool.false_eq_true, if_false] at hb2
    cases hn : Last.next_primitive m0.sort_latch with
    | error e => rw [hn] at hb2; cases hb2
    | ok r => exact ⟨r.1, r.2, rfl⟩
  obtain ⟨v, m2, hn⟩ := hnp
  refine ⟨⟨v, m2, hn⟩, ?_, ?_⟩
  · intro hc
    have h1 := last_next_primitive_ok_lower _ v m2 hn (by rw [l7]; exact hc)
    rwa [l8] at h1
  · intro hnc _
    exact hnc

/-! ## The merging invariant -/

theorem MergeInv_counters (nums i : Nat) (s : Mid) (h : MergeInv nums i s) :
    s.pipes_0.taken + s.pipes_1.taken = s.sent_to_selected_ ∧
    s.sent_to_selected_ < out_seq_len s.pid_ ∧
    s.pipes_0.taken ≤ in_seq_len s.pid_ ∧ s.pipes_1.taken ≤ in_seq_len s.pid_ := by
  obtain ⟨hpid, ua, lq, lin, nq, nin, rest, a, b, hs, h0, h1, _, hne, ha, hb, _⟩ := h
  have ho := out_seq_len_eq hpid
  have e0 : s.pipes_0.taken = a := by rw [h0]
  have e1 : s.pipes_1.taken = b := by rw [h1]
  rw [e0, e1, hs, ho]
  omega

theorem mid_MergeInv_body (nums i : Nat) (s : Mid) (h : MergeInv nums i s) :
    ∃ s1 : Mid, s.sort_body nums i = .ok s1 ∧ s1.pid_ = s.pid_ ∧
      (i + 1 < nums + in_seq_len s.pid_ → MergeInv nums (i + 1) s1) := by
  obtain ⟨pid, count, p, sent, p0, p1, st, inbox, out⟩ := s
  obtain ⟨hpid, ua, lq, lin, nq, nin, rest, a, b, hs, h0, h1, hin, hne, ha, hb, hst, htime,
    hlen, hS⟩ := h
  simp only at hpid hs h0 h1 hin ha hb hst hS
  subst hs h0 h1 hin
  have hpid2 : 0 < (pid : Nat) := hpid
  have hL := in_seq_len_pos hpid2
  obtain ⟨v, ua1, lq1, lin1, nq1, nin1, a1, b1, hm, ha1, hb1, hcnt, hnq, htime1, hlen1, hbody⟩ :=
    mid_iter pid count nums hpid2 ua lq lin nq nin rest p st a b out i hne ha hb hst htime hlen
  refine ⟨_, hbody, ?_, ?_⟩
  · split <;> rfl
  · intro hi
    simp only at hi
    by_cases hz : ua1.length + lq1.length + lin1.length = 0
    · rw [if_pos hz]
      have hua1 : ua1 = [] := List.length_eq_zero.mp (by omega)
      have hlq1 : lq1 = [] := List.length_eq_zero.mp (by omega)
      have hlin1 : lin1 = [] := List.length_eq_zero.mp (by omega)
      subst hua1 hlq1 hlin1
      have hnin1 : nin1 = [] := by
        rcases htime1 with h | h
        · exact List.length_eq_zero.mp (by simpa using h.symm)
        · exact h.1
      subst hnin1
      simp only [List.append_nil] at hnq
      simp only [List.length_nil, Nat.add_zero, Nat.zero_add] at hcnt hlen1
      rcases hS with ⟨_, _, _, hend⟩ | ⟨l1, ps1, hrest, hnl, hl1, hps1⟩
      · omega
      · subst hrest
        have hq1 : nq1.length = in_seq_len pid := by rw [hnq]; exact hnl
        simp only [List.length_append, tagged_length] at hlen1
        cases ps1 with
        | nil =>
          simp only [pairStream, List.length_nil, Nat.add_zero] at hlen1
          refine ⟨hpid, nq1, [], l1, [], [], [], 0, 0, rfl, by simp, rfl,
            by simp [tagged, pairStream], ?_, ?_, ?_, Or.inl rfl, Or.inr ⟨rfl, rfl⟩, ?_,
            Or.inl ⟨rfl, rfl, rfl, ?_⟩⟩
          all_goals simp only [List.length_nil, Nat.add_zero, Nat.zero_add]
          all_goals omega
        | cons c ps2 =>
          have hc := hps1 c (List.mem_cons_self _ _)
          simp only [pairStream, List.length_append, tagged_length] at hlen1
          refine ⟨hpid, nq1, [], l1, [], c.1, tagged .Lower c.2 ++ pairStream ps2, 0, 0, rfl,
            by simp, rfl, by simp [tagged, pairStream], ?_, ?_, ?_, Or.inl rfl, Or.inl ?_, ?_,
            Or.inr ⟨c.2, ps2, rfl, by simpa using hc.1, hc.2,
              fun d hd => hps1 d (List.mem_cons_of_mem _ hd)⟩⟩
          all_goals simp only [List.length_nil, Nat.add_zero, Nat.zero_add, List.length_append,
            tagged_length]
          all_goals omega
    · rw [if_neg hz]
      refine ⟨hpid, ua1, lq1, lin1, nq1, nin1, rest, a1, b1, rfl, rfl, rfl, rfl, by omega, ha1,
        hb1, Or.inl rfl, htime1, hlen1, ?_⟩
      rcases hS with ⟨hnq0, hnin0, hrest0, hend⟩ | ⟨l1, ps1, hrest, hnl, hl1, hps1⟩
      · subst hnq0 hnin0
        have h1 : nq1 = [] := by
          have := congrArg List.length hnq
          simp only [List.length_append, List.length_nil] at this
          exact List.length_eq_zero.mp (by omega)
        have h2 : nin1 = [] := by
          have := congrArg List.length hnq
          simp only [List.length_append, List.length_nil] at this
          exact List.length_eq_zero.mp (by omega)
        refine Or.inl ⟨h1, h2, hrest0, ?_⟩
        simp only
        omega
      · exact Or.inr ⟨l1, ps1, hrest, by rw [hnq]; exact hnl, hl1, hps1⟩

theorem mid_MergeInv_loop (nums : Nat) (s0 : Mid) (i0 : Nat) (si : Mid)
    (hsi : Mid.sort_loop nums i0 0 s0 = .ok si) (hinv : MergeInv nums i0 si) :
    ∀ n : Nat, i0 + n < nums + in_seq_len si.pid_ →
      ∃ sj : Mid, Mid.sort_loop nums (i0 + n) 0 s0 = .ok sj ∧ sj.pid_ = si.pid_ ∧
        MergeInv nums (i0 + n) sj := by
  intro n
  induction n with
  | zero => intro _; exact ⟨si, hsi, rfl, hinv⟩
  | succ n ih =>
    intro hn
    obtain ⟨sj, hsj, hp, hj⟩ := ih (by omega)
    obtain ⟨s1, hb, hp1, hnext⟩ := mid_MergeInv_body nums (i0 + n) sj hj
    refine ⟨s1, ?_, by rw [hp1, hp], hnext (by rw [hp]; omega)⟩
    show Mid.sort_loop nums (i0 + n + 1) 0 s0 = .ok s1
    rw [mid_sort_loop_succ, hsj]
    simp only [Nat.zero_add]
    exact hb

/-- The state of Mid::sort on a stream of pairs of runs when the first Upper run has been
buffered satisfies the merging invariant -/
theorem MergeInv_start (pid count nums : Nat) (hpid : 0 < pid)
    (q : List Primitive × List Primitive) (ps : List (List Primitive × List Primitive))
    (hall : ∀ r ∈ q :: ps, r.1.length = in_seq_len pid ∧ r.2.length = in_seq_len pid)
    (hN : 2 * in_seq_len pid * (ps.length + 1) = nums) :
    ∃ sL : Mid,
      Mid.sort_loop nums (in_seq_len pid) 0 (Mid.init pid count (pairStream (q :: ps))) =
        .ok sL ∧ sL.pid_ = pid ∧ MergeInv nums (in_seq_len pid) sL := by
  have hL := in_seq_len_pos hpid
  have hq := hall q (List.mem_cons_self _ _)
  obtain ⟨u, l⟩ := q
  simp only at hq
  have hNL : 2 * in_seq_len pid * (ps.length + 1) =
      2 * in_seq_len pid * ps.length + 2 * in_seq_len pid := by ring
  have hpre := mid_buffer_prefix pid count nums u (tagged .Lower l ++ pairStream ps)
    (in_seq_len pid) (by omega) (by omega)
  have hd : u.drop (in_seq_len pid) = [] := by
    rw [List.drop_eq_nil_iff]; omega
  have ht : u.take (in_seq_len pid) = u := by
    rw [List.take_of_length_le]; omega
  rw [hd, ht] at hpre
  refine ⟨_, hpre, rfl, hpid, ?_⟩
  have hrest := pairStream_length (in_seq_len pid) ps
    (fun c hc => hall c (List.mem_cons_of_mem _ hc))
  cases ps with
  | nil =>
    simp only [List.length_nil, Nat.mul_zero, Nat.zero_add, Nat.mul_one] at hN
    refine ⟨u, [], l, [], [], [], 0, 0, rfl, by simp, rfl, by simp [tagged, pairStream],
      ?_, ?_, ?_, Or.inr ⟨rfl, rfl⟩, Or.inr ⟨rfl, rfl⟩, ?_, Or.inl ⟨rfl, rfl, rfl, ?_⟩⟩
    all_goals simp only [List.length_nil, Nat.add_zero, Nat.zero_add]
    all_goals omega
  | cons c ps2 =>
    have hc := hall c (List.mem_cons_of_mem _ (List.mem_cons_self _ _))
    simp only [pairStream, List.length_append, tagged_length, List.length_cons] at hrest
    simp only [List.length_cons] at hN hNL
    refine ⟨u, [], l, [], c.1, tagged .Lower c.2 ++ pairStream ps2, 0, 0, rfl, by simp, rfl,
      by simp [tagged, pairStream], ?_, ?_, ?_, Or.inr ⟨rfl, rfl⟩, Or.inl ?_, ?_,
      Or.inr ⟨c.2, ps2, rfl, by simpa using hc.1, hc.2,
        fun d hd => hall d (List.mem_cons_of_mem _ (List.mem_cons_of_mem _ hd))⟩⟩
    all_goals simp only [List.length_nil, Nat.add_zero, Nat.zero_add, List.length_append,
      tagged_length]
    all_goals omega

/-- On a stream of pairs of runs, at the start of every iteration of Mid::sort the two taken
counters add up to sent_to_selected_, which is below out_seq_len, and neither exceeds
in_seq_len; every iteration completes, and either the toggle ran in it and left the three
counters at 0, or the tag is kept and no taken counter went down. -/
theorem mid_taken_counters (pid count : Nat) (hpid : 0 < pid)
    (q : List Primitive × List Primitive) (ps : List (List Primitive × List Primitive))
    (hall : ∀ r ∈ q :: ps, r.1.length = in_seq_len pid ∧ r.2.length = in_seq_len pid)
    (hN : 2 * in_seq_len pid * (ps.length + 1) = EXPECTED_NUMS) :
    ∀ j, j < EXPECTED_NUMS + in_seq_len pid →
      ∃ sj s1 : Mid,
        Mid.sort_loop EXPECTED_NUMS j 0 (Mid.init pid count (pairStream (q :: ps))) = .ok sj ∧
        sj.pipes_0.taken + sj.pipes_1.taken = sj.sent_to_selected_ ∧
        sj.sent_to_selected_ < out_seq_len pid ∧
        sj.pipes_0.taken ≤ in_seq_len pid ∧ sj.pipes_1.taken ≤ in_seq_len pid ∧
        sj.sort_body EXPECTED_NUMS j = .ok s1 ∧
        ((s1.pipe_select_ = sj.pipe_select_.toggle ∧ s1.sent_to_selected_ = 0 ∧
            s1.pipes_0.taken = 0 ∧ s1.pipes_1.taken = 0) ∨
         (s1.pipe_select_ = sj.pipe_select_ ∧ sj.pipes_0.taken ≤ s1.pipes_0.taken ∧
            sj.pipes_1.taken ≤ s1.pipes_1.taken)) := by
  intro j hj
  have hL := in_seq_len_pos hpid
  obtain ⟨sj, s1, hsj, hb, _⟩ := mid_sort_pairs_total pid count hpid q ps hall hN j hj
  have hstep := mid_sort_body_taken _ _ sj s1 hb
  by_cases hlt : j < in_seq_len pid
  · have hq := hall q (List.mem_cons_self _ _)
    have hNL : 2 * in_seq_len pid * (ps.length + 1) =
        2 * in_seq_len pid * ps.length + 2 * in_seq_len pid := by ring
    have hpre := mid_buffer_prefix pid count EXPECTED_NUMS q.1 (tagged .Lower q.2 ++ pairStream ps)
      j (by omega) (by omega)
    have e : pairStream (q :: ps) = tagged .Upper q.1 ++ (tagged .Lower q.2 ++ pairStream ps) :=
      rfl
    rw [e, hpre] at hsj
    cases hsj
    have ho := out_seq_len_eq hpid
    refine ⟨_, s1, by rw [e]; exact hpre, rfl, ?_, Nat.zero_le _, Nat.zero_le _, hb, hstep⟩
    simp only
    omega
  · obtain ⟨sL, hsL, hpL, hinvL⟩ := MergeInv_start pid count EXPECTED_NUMS hpid q ps hall hN
    obtain ⟨sj2, hsj2, hp2, hinv2⟩ := mid_MergeInv_loop EXPECTED_NUMS _ _ sL hsL hinvL
      (j - in_seq_len pid) (by rw [hpL]; omega)
    have ej : in_seq_len pid + (j - in_seq_len pid) = j := by omega
    rw [ej] at hsj2 hinv2
    rw [hsj] at hsj2
    cases hsj2
    have hc := MergeInv_counters _ _ _ hinv2
    rw [hp2, hpL] at hc
    exact ⟨sj, s1, hsj, hc.1, hc.2.1, hc.2.2.1, hc.2.2.2, hb, hstep⟩

/-! ## Last::sort on an arbitrary stream of EXPECTED_NUMS messages -/

/-- What the receive of an iteration does to the channel and to the queues -/
theorem mid_sort_recv_count (nums i : Nat) (s s1 : Mid) (h : s.sort_recv nums i = .ok s1) :
    (i < nums → s1.inbox.length + 1 = s.inbox.length ∧ occupancy s1 = occupancy s + 1) ∧
    (¬ i < nums → s1 = s) := by
  unfold Mid.sort_recv at h
  split at h
  · rename_i hi
    refine ⟨fun _ => ?_, fun hn => absurd hi hn⟩
    unfold Mid.receive_from_prev_p at h
    split at h
    · cases h
    · rename_i msg s0 he
      split at he
      · cases he
      · rename_i m rest hin
        simp only [Except.ok.injEq, Prod.mk.injEq] at he h
        obtain ⟨rfl, rfl⟩ := he
        subst h
        unfold Mid.save_message
        split <;> simp [occupancy, hin] <;> omega
  · rename_i hi
    simp only [Except.ok.injEq] at h
    exact ⟨fun hlt => absurd hlt hi, fun _ => h.symm⟩

/-- The receive of an iteration returns when the channel still holds a message -/
theorem mid_sort_recv_ok (nums i : Nat) (s : Mid) (h : i < nums → s.inbox ≠ []) :
    ∃ s1 : Mid, s.sort_recv nums i = .ok s1 := by
  unfold Mid.sort_recv
  split
  · rename_i hi
    have hne := h hi
    unfold Mid.receive_from_prev_p
    cases hin : s.inbox with
    | nil => exact absurd hin hne
    | cons m rest => exact ⟨_, rfl⟩
  · exact ⟨s, rfl⟩

/-- Last::next_primitive returns a value as soon as one of the two queues holds an element -/
theorem last_next_primitive_ok (s : Mid) (h : 1 ≤ occupancy s) :
    ∃ (v : Primitive) (s2 : Mid), Last.next_primitive s = .ok (v, s2) := by
  unfold occupancy at h
  unfold Last.next_primitive
  cases h0 : s.pipes_0.queue with
  | nil =>
    cases h1 : s.pipes_1.queue with
    | nil => rw [h0, h1] at h; simp at h
    | cons y ys =>
      simp only [List.isEmpty_nil, if_true, Last.take_from, h1]
      exact ⟨_, _, rfl⟩
  | cons x xs =>
    cases h1 : s.pipes_1.queue with
    | nil =>
      simp only [List.isEmpty_cons, Bool.false_eq_true, if_false, List.isEmpty_nil, if_true,
        Last.take_from, h0]
      exact ⟨_, _, rfl⟩
    | cons y ys =>
      simp only [List.isEmpty_cons, Bool.false_eq_true, if_false]
      by_cases hc : x > y
      · simp only [hc, if_true, Last.take_from, h1]
        exact ⟨_, _, rfl⟩
      · simp only [hc, if_false, Last.take_from, h0]
        exact ⟨_, _, rfl⟩

/-- Last::sort on any stream of EXPECTED_NUMS messages: every state of the loop is reached;
the channel holds what is still to be received; before the start nothing has left the
queues, and from the start on the queues and the channel hold at least one element for
every iteration still to run. -/
theorem last_stream_inv (pid count : Nat) (stream : List Message)
    (hlen : stream.length = EXPECTED_NUMS) :
    ∀ j, j ≤ EXPECTED_NUMS + in_seq_len pid →
      ∃ sj : Last,
        Last.sort_loop EXPECTED_NUMS j 0 (Last.init pid count stream) = .ok sj ∧
        sj.mid.pid_ = pid ∧ sj.mid.inbox.length = EXPECTED_NUMS - j ∧
        ((sj.mid.started_ = false ∧
            occupancy sj.mid + sj.mid.inbox.length = EXPECTED_NUMS) ∨
         (sj.mid.started_ = true ∧
            EXPECTED_NUMS + in_seq_len pid ≤ occupancy sj.mid + sj.mid.inbox.length + j)) := by
  intro j
  induction j with
  | zero =>
    intro _
    refine ⟨Last.init pid count stream, rfl, rfl, ?_, Or.inl ⟨rfl, ?_⟩⟩
    · simp [Last.init, Mid.init, hlen]
    · simp [Last.init, Mid.init, occupancy, hlen]
  | succ j ih =>
    intro hj
    obtain ⟨sj, hsj, hp, hin, hinv⟩ := ih (by omega)
    have hne : j < EXPECTED_NUMS → sj.mid.inbox ≠ [] := by
      intro hlt hnil
      rw [hnil] at hin
      simp at hin
      omega
    obtain ⟨m0, hr⟩ := mid_sort_recv_ok EXPECTED_NUMS j sj.mid hne
    obtain ⟨c1, c2⟩ := mid_sort_recv_count _ _ _ _ hr
    obtain ⟨r1, _, _, _, r5, _, _⟩ := mid_sort_recv_frame _ _ _ _ hr
    have hsum : occupancy m0 + m0.inbox.length = occupancy sj.mid + sj.mid.inbox.length := by
      by_cases hlt : j < EXPECTED_NUMS
      · have := c1 hlt
        omega
      · rw [c2 hlt]
    have hin0 : m0.inbox.length = EXPECTED_NUMS - (j + 1) := by
      by_cases hlt : j < EXPECTED_NUMS
      · have := c1 hlt
        omega
      · rw [c2 hlt]
        omega
    have hloop : ∀ s1 : Last, Last.sort_body EXPECTED_NUMS j sj = .ok s1 →
        Last.sort_loop EXPECTED_NUMS (j + 1) 0 (Last.init pid count stream) = .ok s1 := by
      intro s1 hb
      rw [last_sort_loop_succ, hsj]
      simp only [Nat.zero_add]
      exact hb
    by_cases hst : m0.sort_latch.started_ = true
    · -- a merging iteration
      have hocc : 1 ≤ occupancy m0 := by
        rcases hinv with ⟨hs, hs2⟩ | ⟨hs, hs2⟩
        · -- the start condition holds now
          have hc : m0.can_sort_begin = true := by
            by_contra hc
            have hc2 : m0.can_sort_begin = false := by simpa using hc
            have := (mid_sort_latch_frame m0).2.2.2.2.2.2.2.2.2.2 (by rw [r5]; exact hs) hc2
            rw [this, r5, hs] at hst
            cases hst
          simp only [Mid.can_sort_begin, Bool.and_eq_true, decide_eq_true_eq] at hc
          unfold occupancy
          omega
        · by_cases hlt : j < EXPECTED_NUMS
          · have := c1 hlt
            omega
          · rw [c2 hlt]
            omega
      have hl7 := (mid_sort_latch_frame m0).2.2.2.2.2.2.1
      have hl8 := (mid_sort_latch_frame m0).2.2.2.2.2.2.2.1
      have hocc2 : 1 ≤ occupancy m0.sort_latch := by
        unfold occupancy
        rw [hl7, hl8]
        exact hocc
      obtain ⟨v, m2, hnp⟩ := last_next_primitive_ok _ hocc2
      have hb : Last.sort_body EXPECTED_NUMS j sj =
          .ok { mid := m2, output_ := sj.output_ ++ [v] } := by
        simp only [Last.sort_body, hr, Last.sort_emit, hst, Bool.not_true, Bool.false_eq_true,
          if_false, hnp]
      obtain ⟨f1, f2, f3, _, f5⟩ := last_next_primitive_frame _ _ _ hnp
      have hocc3 : occupancy m0.sort_latch = occupancy m0 := by
        unfold occupancy
        rw [hl7, hl8]
      refine ⟨_, hloop _ hb, ?_, ?_, Or.inr ⟨?_, ?_⟩⟩
      · simp only [f1, (mid_sort_latch_frame m0).1, r1, hp]
      · simp only [f3, (mid_sort_latch_frame m0).2.2.2.2.1, hin0]
      · simp only [f2, hst]
      · simp only [f3, (mid_sort_latch_frame m0).2.2.2.2.1]
        rcases hinv with ⟨hs, hs2⟩ | ⟨hs, hs2⟩
        · have hc : m0.can_sort_begin = true := by
            by_contra hc
            have hc2 : m0.can_sort_begin = false := by simpa using hc
            have := (mid_sort_latch_frame m0).2.2.2.2.2.2.2.2.2.2 (by rw [r5]; exact hs) hc2
            rw [this, r5, hs] at hst
            cases hst
          simp only [Mid.can_sort_begin, Bool.and_eq_true, decide_eq_true_eq] at hc
          rw [r1, hp] at hc
          have ho : occupancy m0 = m0.pipes_0.queue.length + m0.pipes_1.queue.length := rfl
          omega
        · omega
    · -- the stage only buffers
      have hst2 : m0.sort_latch.started_ = false := by simpa using hst
      have hs : sj.mid.started_ = false := by
        by_contra hc
        have hc2 : sj.mid.started_ = true := by simpa using hc
        have := (mid_sort_latch_frame m0).2.2.2.2.2.2.2.2.1 (by rw [r5]; exact hc2)
        rw [this] at hst2
        cases hst2
      have hcb : m0.can_sort_begin = false := by
        by_contra hc
        have hc2 : m0.can_sort_begin = true := by simpa using hc
        have := (mid_sort_latch_frame m0).2.2.2.2.2.2.2.2.2.1 hc2
        rw [this] at hst2
        cases hst2
      obtain ⟨hb, hs0⟩ := last_body_idle _ _ sj m0 hr hs hcb
      rcases hinv with ⟨_, hs2⟩ | ⟨hs3, _⟩
      · have hfin : occupancy m0 + m0.inbox.length = EXPECTED_NUMS := by omega
        exact ⟨_, hloop _ hb, by simp only [r1, hp], hin0, Or.inl ⟨hs0, hfin⟩⟩
      · rw [hs] at hs3
        cases hs3

/-- Last::sort on any stream of EXPECTED_NUMS messages: once the start condition has held
after the receive of iteration i, every iteration from i on is reached, completes and
appends exactly one element to output_ -/
theorem last_stream_emits (pid count : Nat) (stream : List Message)
    (hlen : stream.length = EXPECTED_NUMS) (i : Nat) (si : Last) (mi : Mid)
    (hi : Last.sort_loop EXPECTED_NUMS i 0 (Last.init pid count stream) = .ok si)
    (hrecv : si.mid.sort_recv EXPECTED_NUMS i = .ok mi) (hc : mi.can_sort_begin = true) :
    ∀ j, i ≤ j → j < EXPECTED_NUMS + in_seq_len pid →
      ∃ sj s1 : Last,
        Last.sort_loop EXPECTED_NUMS j 0 (Last.init pid count stream) = .ok sj ∧
        Last.sort_body EXPECTED_NUMS j sj = .ok s1 ∧ s1.mid.started_ = true ∧
        s1.output_.length = sj.output_.length + 1 := by
  intro j hij hj
  obtain ⟨sn, hsn, _⟩ := last_stream_inv pid count stream hlen (j + 1) (by omega)
  obtain ⟨sj, hsj, hnext⟩ := last_sort_loop_prefix EXPECTED_NUMS _ (j + 1) j sn (by omega) hsn
  obtain ⟨s1, hb, _⟩ := hnext (by omega)
  obtain ⟨mj, hrj, _⟩ := last_body_recv _ _ sj s1 hb
  have hlater := last_latched EXPECTED_NUMS i _ si mi hi hrecv hc
  have hst : mj.sort_latch.started_ = true := by
    by_cases hlt : i < j
    · obtain ⟨_, _, _, _, r5, _, _⟩ := mid_sort_recv_frame _ _ sj.mid mj hrj
      exact (mid_sort_latch_frame mj).2.2.2.2.2.2.2.2.1 (by rw [r5]; exact hlater j sj hlt hsj)
    · have he : i = j := by omega
      subst he
      rw [hi] at hsj
      cases hsj
      rw [hrecv] at hrj
      cases hrj
      exact (mid_sort_latch_frame mi).2.2.2.2.2.2.2.2.2.1 hc
  rcases last_body_started _ _ sj mj hrj hst with herr | ⟨s2, hb2, h1, h2⟩
  · rw [hb] at herr
    cases herr
  · rw [hb] at hb2
    cases hb2
    exact ⟨sj, s1, hsj, hb, h1, h2⟩

/-! ## Claims -/

/-- C5: for every input sequence, First::sort sends exactly as many messages as the input
has elements, in input order; the k-th message carries input[k] and the tag Upper when k is
even and Lower when k is odd. -/
theorem C5_first_sort_stream (count : Nat) (input : Sequence) :
    ((First.init FIRST_PID count input).sort).outbox.length = input.length ∧
    ∀ k : Nat, ((First.init FIRST_PID count input).sort).outbox[k]? =
      input[k]?.map (fun x =>
        { primitive := x, pipe := if k % 2 = 0 then PipeSelect.Upper else PipeSelect.Lower }) := by
  rw [first_sort_outbox]
  refine ⟨alternate_length _ _, fun k => ?_⟩
  rw [alternate_getElem?]
  rfl

/-- C6: when both queues are non-empty and both taken counters are below in_seq_len,
Mid::next_primitive returns the front of Upper if Upper.front <= Lower.front and the front of
Lower otherwise, pops that element, adds 1 to the taken of the chosen buffer and changes
nothing else. -/
theorem C6_next_primitive_compare (s : Mid) (u l : Primitive) (uq lq : PipeQ)
    (hu : s.pipes_0.queue = u :: uq) (hl : s.pipes_1.queue = l :: lq)
    (htu : s.pipes_0.taken < in_seq_len s.pid_) (htl : s.pipes_1.taken < in_seq_len s.pid_) :
    s.next_primitive =
      if u ≤ l then .ok (u, { s with pipes_0 := { queue := uq, taken := s.pipes_0.taken + 1 } })
      else .ok (l, { s with pipes_1 := { queue := lq, taken := s.pipes_1.taken + 1 } }) := by
  have h1 : ¬ (in_seq_len s.pid_ ≤ s.pipes_0.taken) := by omega
  have h2 : ¬ (in_seq_len s.pid_ ≤ s.pipes_1.taken) := by omega
  by_cases h : u ≤ l
  · have h3 : ¬ (l < u) := not_lt.mpr h
    simp [Mid.next_primitive, Mid.take_from, hu, hl, h1, h2, h, h3]
  · have h3 : l < u := not_le.mp h
    simp [Mid.next_primitive, Mid.take_from, hu, hl, h1, h2, h, h3]

theorem C6_next_primitive_compare_witness :
    Mid.next_primitive
      ({ pid_ := 2, count_ := 5, pipe_select_ := .Upper, sent_to_selected_ := 1,
         pipes_0 := { queue := [7, 9], taken := 0 }, pipes_1 := { queue := [7, 8], taken := 1 },
         started_ := true, inbox := [], outbox := [] } : Mid) =
      .ok (7, { pid_ := 2, count_ := 5, pipe_select_ := .Upper, sent_to_selected_ := 1,
                pipes_0 := { queue := [9], taken := 1 },
                pipes_1 := { queue := [7, 8], taken := 1 },
                started_ := true, inbox := [], outbox := [] }) := by
  have h := C6_next_primitive_compare
    ({ pid_ := 2, count_ := 5, pipe_select_ := .Upper, sent_to_selected_ := 1,
         pipes_0 := { queue := [7, 9], taken := 0 }, pipes_1 := { queue := [7, 8], taken := 1 },
         started_ := true, inbox := [], outbox := [] } : Mid) 7 7 [9] [8] rfl rfl (by decide) (by decide)
  simpa using h

/-- C7: in Mid::next_primitive, Upper is examined first: if Upper.taken has reached
in_seq_len or the Upper queue is empty, and the Lower queue is non-empty, the front of Lower
is returned and popped and Lower.taken grows by 1, whatever the fronts are; otherwise, if
Lower.taken has reached in_seq_len or the Lower queue is empty, the front of Upper is
returned and popped and Upper.taken grows by 1.  The exhausted buffer is left unchanged. -/
theorem C7_next_primitive_forced (s : Mid) :
    (∀ (l : Primitive) (lq : PipeQ),
      (s.pipes_0.taken ≥ in_seq_len s.pid_ ∨ s.pipes_0.queue = []) →
      s.pipes_1.queue = l :: lq →
      s.next_primitive =
        .ok (l, { s with pipes_1 := { queue := lq, taken := s.pipes_1.taken + 1 } })) ∧
    (∀ (u : Primitive) (uq : PipeQ),
      (s.pipes_1.taken ≥ in_seq_len s.pid_ ∨ s.pipes_1.queue = []) →
      s.pipes_0.taken < in_seq_len s.pid_ →
      s.pipes_0.queue = u :: uq →
      s.next_primitive =
        .ok (u, { s with pipes_0 := { queue := uq, taken := s.pipes_0.taken + 1 } })) := by
  constructor
  · intro l lq h hl
    rcases h with h | h
    · simp [Mid.next_primitive, Mid.take_from, hl, h]
    · simp [Mid.next_primitive, Mid.take_from, hl, h]
  · intro u uq h htu hu
    have h1 : ¬ (in_seq_len s.pid_ ≤ s.pipes_0.taken) := by omega
    rcases h with h | h
    · simp [Mid.next_primitive, Mid.take_from, hu, h, h1]
    · simp [Mid.next_primitive, Mid.take_from, hu, h, h1]

theorem C7_next_primitive_forced_witness :
    Mid.next_primitive
      ({ pid_ := 2, count_ := 5, pipe_select_ := .Upper, sent_to_selected_ := 2,
         pipes_0 := { queue := [1, 9], taken := 2 }, pipes_1 := { queue := [7, 8], taken := 0 },
         started_ := true, inbox := [], outbox := [] } : Mid) =
      .ok (7, { pid_ := 2, count_ := 5, pipe_select_ := .Upper, sent_to_selected_ := 2,
                pipes_0 := { queue := [1, 9], taken := 2 },
                pipes_1 := { queue := [8], taken := 1 },
                started_ := true, inbox := [], outbox := [] }) ∧
    Mid.next_primitive
      ({ pid_ := 2, count_ := 5, pipe_select_ := .Upper, sent_to_selected_ := 2,
         pipes_0 := { queue := [9, 1], taken := 0 }, pipes_1 := { queue := [7, 8], taken := 2 },
         started_ := true, inbox := [], outbox := [] } : Mid) =
      .ok (9, { pid_ := 2, count_ := 5, pipe_select_ := .Upper, sent_to_selected_ := 2,
                pipes_0 := { queue := [1], taken := 1 },
                pipes_1 := { queue := [7, 8], taken := 2 },
                started_ := true, inbox := [], outbox := [] }) :=
  ⟨(C7_next_primitive_forced
      ({ pid_ := 2, count_ := 5, pipe_select_ := .Upper, sent_to_selected_ := 2,
         pipes_0 := { queue := [1, 9], taken := 2 }, pipes_1 := { queue := [7, 8], taken := 0 },
         started_ := true, inbox := [], outbox := [] } : Mid)).1 7 [8] (Or.inl (by decide)) rfl,
   (C7_next_primitive_forced
      ({ pid_ := 2, count_ := 5, pipe_select_ := .Upper, sent_to_selected_ := 2,
         pipes_0 := { queue := [9, 1], taken := 0 }, pipes_1 := { queue := [7, 8], taken := 2 },
         started_ := true, inbox := [], outbox := [] } : Mid)).2 9 [1] (Or.inl (by decide)) (by decide) rfl⟩

/-- C1: for every input of exactly EXPECTED_NUMS = 16 byte values the five-stage pipeline
runs to completion and output_ of Last is the ascending sort of the input: it is
non-decreasing and a permutation of the input (every value kept at its multiplicity). -/
theorem C1_pipeline_sorts (input : Sequence) (h : input.length = EXPECTED_NUMS) :
    ∃ r : PipelineRun, pipeline input = .ok r ∧
      r.last.output_.Sorted (· ≤ ·) ∧ r.last.output_.Perm input := by
  obtain ⟨x0, x1, x2, x3, x4, x5, x6, x7, x8, x9, x10, x11, x12, x13, x14, x15, rfl⟩ :=
    list_of_length_16 input h
  obtain ⟨pf1, pf2, pf3, hrun⟩ :=
    pipeline_run x0 x1 x2 x3 x4 x5 x6 x7 x8 x9 x10 x11 x12 x13 x14 x15
  refine ⟨_, hrun, ?_, ?_⟩
  · have h1 := mergePairs_sorted _ (mergePairs_sorted _ (mergePairs_sorted _
      (mergePairs_sorted
        [[x0], [x1], [x2], [x3], [x4], [x5], [x6], [x7], [x8], [x9], [x10], [x11], [x12],
         [x13], [x14], [x15]] (by
          intro r hr
          simp only [List.mem_cons, List.mem_singleton, List.not_mem_nil, or_false] at hr
          rcases hr with h | h | h | h | h | h | h | h | h | h | h | h | h | h | h | h <;>
            (subst h; exact List.sorted_singleton _)))))
    simp only [mergePairs, List.mem_singleton, forall_eq] at h1
    simpa [mergePairs, List.flatten] using h1
  · have p1 := mergePairs_perm
      [[x0], [x1], [x2], [x3], [x4], [x5], [x6], [x7], [x8], [x9], [x10], [x11], [x12],
       [x13], [x14], [x15]] (by simp)
    have p2 := mergePairs_perm _ (by
      rw [mergePairs_length]; simp :
      (mergePairs [[x0], [x1], [x2], [x3], [x4], [x5], [x6], [x7], [x8], [x9], [x10], [x11],
        [x12], [x13], [x14], [x15]]).length % 2 = 0)
    have p3 := mergePairs_perm _ (by
      rw [mergePairs_length, mergePairs_length]; simp :
      (mergePairs (mergePairs [[x0], [x1], [x2], [x3], [x4], [x5], [x6], [x7], [x8], [x9],
        [x10], [x11], [x12], [x13], [x14], [x15]])).length % 2 = 0)
    have p4 := mergePairs_perm _ (by
      rw [mergePairs_length, mergePairs_length, mergePairs_length]; simp :
      (mergePairs (mergePairs (mergePairs [[x0], [x1], [x2], [x3], [x4], [x5], [x6], [x7],
        [x8], [x9], [x10], [x11], [x12], [x13], [x14], [x15]]))).length % 2 = 0)
    have p := ((p4.trans p3).trans p2).trans p1
    simpa using p

theorem C1_pipeline_sorts_witness :
    ([12, 3, 200, 7, 7, 0, 255, 9, 1, 1, 30, 2, 100, 5, 4, 8] : Sequence).length = EXPECTED_NUMS ∧
    ∃ r : PipelineRun, pipeline [12, 3, 200, 7, 7, 0, 255, 9, 1, 1, 30, 2, 100, 5, 4, 8] = .ok r ∧
      r.last.output_.Sorted (· ≤ ·) ∧
      r.last.output_.Perm [12, 3, 200, 7, 7, 0, 255, 9, 1, 1, 30, 2, 100, 5, 4, 8] :=
  ⟨by decide, C1_pipeline_sorts [12, 3, 200, 7, 7, 0, 255, 9, 1, 1, 30, 2, 100, 5, 4, 8] (by decide)⟩

/-- C2: for a Mid stage at rank r = 1, 2, 3 and every input stream of exactly 16 messages
whose k-th message is tagged Upper iff floor(k / 2^(r-1)) is even, Mid::sort completes and
sends 16 messages, and for every j the j-th block of 2^r sent primitives is the standard
two-way merge of the j-th block of 2^(r-1) Upper-tagged inputs and the j-th block of 2^(r-1)
Lower-tagged inputs, whatever the blocks hold; that block is non-decreasing whenever both
input blocks are. -/
theorem C2_mid_merges_blocks (r : Nat) (hr : r = 1 ∨ r = 2 ∨ r = 3) (count : Nat)
    (stream : List Message) (hlen : stream.length = 16)
    (htag : ∀ (k : Nat) (m : Message), stream[k]? = some m →
      (m.pipe = .Upper ↔ (k / 2 ^ (r - 1)) % 2 = 0)) :
    ∃ s : Mid, (Mid.init r count stream).sort = .ok s ∧ s.outbox.length = 16 ∧
      ∀ j, j < 16 / 2 ^ r →
        block (2 ^ r) j (s.outbox.map Message.primitive) =
          mergeLE (block (2 ^ (r - 1)) j (uppers stream))
            (block (2 ^ (r - 1)) j (lowers stream)) ∧
        ((block (2 ^ (r - 1)) j (uppers stream)).Sorted (· ≤ ·) →
          (block (2 ^ (r - 1)) j (lowers stream)).Sorted (· ≤ ·) →
          (block (2 ^ r) j (s.outbox.map Message.primitive)).Sorted (· ≤ ·)) := by
  obtain ⟨q, ps, hs, hall, hN⟩ := stream_as_pairs r hr stream hlen htag
  have hpid : 0 < r := by omega
  obtain ⟨s, hsort, hout, hblk⟩ := mid_sort_pairs_blocks r count hpid q ps hall hN
  have hin : in_seq_len r = 2 ^ (r - 1) := by
    have : r ≠ 0 := by omega
    simp [in_seq_len, this]
  have hO : 2 * in_seq_len r = 2 ^ r := by
    rw [← out_seq_len_eq hpid]; rfl
  have hcnt : 16 / 2 ^ r = ps.length + 1 := by
    rw [← hO]
    have h16 : 2 * in_seq_len r * (ps.length + 1) = 16 := hN
    rw [← h16]
    exact Nat.mul_div_cancel_left _ (by have := in_seq_len_pos hpid; omega)
  rw [hs]
  refine ⟨s, hsort, hout, ?_⟩
  intro j hj
  have hb := hblk j (by omega)
  rw [hO, hin] at hb
  refine ⟨hb, ?_⟩
  intro h1 h2
  rw [hb]
  exact mergeLE_sorted _ _ h1 h2

theorem C2_mid_merges_blocks_witness :
    ∃ s : Mid, (Mid.init 2 EXPECTED_PROCESSES
        (pairStream [([3, 9], [1, 200]), ([7, 7], [0, 255]), ([5, 6], [5, 5]), ([2, 4], [1, 8])])).sort = .ok s ∧
      s.outbox.length = 16 ∧
      ∀ j, j < 16 / 2 ^ 2 →
        block (2 ^ 2) j (s.outbox.map Message.primitive) =
          mergeLE (block (2 ^ (2 - 1)) j (uppers
              (pairStream [([3, 9], [1, 200]), ([7, 7], [0, 255]), ([5, 6], [5, 5]), ([2, 4], [1, 8])])))
            (block (2 ^ (2 - 1)) j (lowers
              (pairStream [([3, 9], [1, 200]), ([7, 7], [0, 255]), ([5, 6], [5, 5]), ([2, 4], [1, 8])]))) ∧
        ((block (2 ^ (2 - 1)) j (uppers
              (pairStream [([3, 9], [1, 200]), ([7, 7], [0, 255]), ([5, 6], [5, 5]), ([2, 4], [1, 8])]))).Sorted (· ≤ ·) →
          (block (2 ^ (2 - 1)) j (lowers
              (pairStream [([3, 9], [1, 200]), ([7, 7], [0, 255]), ([5, 6], [5, 5]), ([2, 4], [1, 8])]))).Sorted (· ≤ ·) →
          (block (2 ^ 2) j (s.outbox.map Message.primitive)).Sorted (· ≤ ·)) :=
  C2_mid_merges_blocks 2 (Or.inr (Or.inl rfl)) EXPECTED_PROCESSES
    (pairStream [([3, 9], [1, 200]), ([7, 7], [0, 255]), ([5, 6], [5, 5]), ([2, 4], [1, 8])])
    (by decide)
    (by
      intro k m h
      have hk : k < 16 := by
        by_contra hc
        rw [List.getElem?_eq_none (by simp [pairStream, tagged]; omega)] at h
        cases h
      interval_cases k <;> simp [pairStream, tagged] at h <;> subst h <;> decide)

/-- C3: in a pipeline run on any 16-element input, every run emitted by the Mid stage at
rank r = 1, 2, 3 (a maximal block of consecutive messages sent under one tag) has length
exactly out_seq_len(r) = 2^r and is non-decreasing in emission order, and the stage emits
16 / 2^r such runs (none is truncated). -/
theorem C3_run_doubling (input : Sequence) (h : input.length = EXPECTED_NUMS) :
    ∃ r : PipelineRun, pipeline input = .ok r ∧
      ((∀ run ∈ runsOf r.mid1.outbox,
          run.length = out_seq_len 1 ∧ (run.map Message.primitive).Sorted (· ≤ ·)) ∧
        (runsOf r.mid1.outbox).length = EXPECTED_NUMS / out_seq_len 1) ∧
      ((∀ run ∈ runsOf r.mid2.outbox,
          run.length = out_seq_len 2 ∧ (run.map Message.primitive).Sorted (· ≤ ·)) ∧
        (runsOf r.mid2.outbox).length = EXPECTED_NUMS / out_seq_len 2) ∧
      ((∀ run ∈ runsOf r.mid3.outbox,
          run.length = out_seq_len 3 ∧ (run.map Message.primitive).Sorted (· ≤ ·)) ∧
        (runsOf r.mid3.outbox).length = EXPECTED_NUMS / out_seq_len 3) := by
  obtain ⟨pf1, pf2, pf3, hrun⟩ := pipeline_run_of_length input h
  refine ⟨_, hrun, ?_, ?_, ?_⟩
  · have hl := mergePairs_run_length 1 _ (fun r hr => (singletons_run input r hr).1)
    have hs := mergePairs_sorted _ (fun r hr => (singletons_run input r hr).2)
    have := runsOf_altTagged_spec _ .Upper (2 * 1) (by decide) hl hs
    simp only [mergePairs_length, singletons_length, h] at this
    exact this
  · have hl := mergePairs_run_length 2 _
      (mergePairs_run_length 1 _ (fun r hr => (singletons_run input r hr).1))
    have hs := mergePairs_sorted _
      (mergePairs_sorted _ (fun r hr => (singletons_run input r hr).2))
    have := runsOf_altTagged_spec _ .Upper (2 * 2) (by decide) hl hs
    simp only [mergePairs_length, singletons_length, h] at this
    exact this
  · have hl := mergePairs_run_length 4 _ (mergePairs_run_length 2 _
      (mergePairs_run_length 1 _ (fun r hr => (singletons_run input r hr).1)))
    have hs := mergePairs_sorted _ (mergePairs_sorted _
      (mergePairs_sorted _ (fun r hr => (singletons_run input r hr).2)))
    have := runsOf_altTagged_spec _ .Upper (2 * 4) (by decide) hl hs
    simp only [mergePairs_length, singletons_length, h] at this
    exact this

theorem C3_run_doubling_witness :
    ([12, 3, 200, 7, 7, 0, 255, 9, 1, 1, 30, 2, 100, 5, 4, 8] : Sequence).length = EXPECTED_NUMS ∧
    ∃ r : PipelineRun, pipeline [12, 3, 200, 7, 7, 0, 255, 9, 1, 1, 30, 2, 100, 5, 4, 8] = .ok r ∧
      ((∀ run ∈ runsOf r.mid1.outbox,
          run.length = out_seq_len 1 ∧ (run.map Message.primitive).Sorted (· ≤ ·)) ∧
        (runsOf r.mid1.outbox).length = EXPECTED_NUMS / out_seq_len 1) ∧
      ((∀ run ∈ runsOf r.mid2.outbox,
          run.length = out_seq_len 2 ∧ (run.map Message.primitive).Sorted (· ≤ ·)) ∧
        (runsOf r.mid2.outbox).length = EXPECTED_NUMS / out_seq_len 2) ∧
      ((∀ run ∈ runsOf r.mid3.outbox,
          run.length = out_seq_len 3 ∧ (run.map Message.primitive).Sorted (· ≤ ·)) ∧
        (runsOf r.mid3.outbox).length = EXPECTED_NUMS / out_seq_len 3) :=
  ⟨by decide, C3_run_doubling [12, 3, 200, 7, 7, 0, 255, 9, 1, 1, 30, 2, 100, 5, 4, 8] (by decide)⟩

/-- C4: in a pipeline run on any 16-element input, First sends exactly 16 messages; each
Mid stage at rank 1, 2, 3, run for its 16 + in_seq_len(r) loop iterations on what its
predecessor sent, receives all 16 messages (its channel and both queues end empty) and sends
exactly 16; Last receives all 16 and appends exactly 16 elements to output_; and for every
stage the primitives it emits are a permutation of those it received. -/
theorem C4_conservation (input : Sequence) (h : input.length = EXPECTED_NUMS) :
    ∃ r : PipelineRun, pipeline input = .ok r ∧
      (r.first.outbox.length = 16 ∧ (r.first.outbox.map Message.primitive).Perm input) ∧
      (Mid.sort_loop EXPECTED_NUMS (EXPECTED_NUMS + in_seq_len 1) 0
          (Mid.init 1 EXPECTED_PROCESSES r.first.outbox) = .ok r.mid1 ∧
        r.mid1.inbox = [] ∧ r.mid1.pipes_0.queue = [] ∧ r.mid1.pipes_1.queue = [] ∧
        r.mid1.outbox.length = 16 ∧
        (r.mid1.outbox.map Message.primitive).Perm (r.first.outbox.map Message.primitive)) ∧
      (Mid.sort_loop EXPECTED_NUMS (EXPECTED_NUMS + in_seq_len 2) 0
          (Mid.init 2 EXPECTED_PROCESSES r.mid1.outbox) = .ok r.mid2 ∧
        r.mid2.inbox = [] ∧ r.mid2.pipes_0.queue = [] ∧ r.mid2.pipes_1.queue = [] ∧
        r.mid2.outbox.length = 16 ∧
        (r.mid2.outbox.map Message.primitive).Perm (r.mid1.outbox.map Message.primitive)) ∧
      (Mid.sort_loop EXPECTED_NUMS (EXPECTED_NUMS + in_seq_len 3) 0
          (Mid.init 3 EXPECTED_PROCESSES r.mid2.outbox) = .ok r.mid3 ∧
        r.mid3.inbox = [] ∧ r.mid3.pipes_0.queue = [] ∧ r.mid3.pipes_1.queue = [] ∧
        r.mid3.outbox.length = 16 ∧
        (r.mid3.outbox.map Message.primitive).Perm (r.mid2.outbox.map Message.primitive)) ∧
      (Last.sort_loop EXPECTED_NUMS (EXPECTED_NUMS + in_seq_len 4) 0
          (Last.init 4 EXPECTED_PROCESSES r.mid3.outbox) = .ok r.last ∧
        r.last.mid.inbox = [] ∧ r.last.mid.pipes_0.queue = [] ∧
        r.last.mid.pipes_1.queue = [] ∧ r.last.mid.outbox = [] ∧
        r.last.output_.length = 16 ∧
        r.last.output_.Perm (r.mid3.outbox.map Message.primitive)) := by
  obtain ⟨pf1, pf2, pf3, hrun⟩ := pipeline_run_of_length input h
  obtain ⟨hf, h1, h2, h3, h4⟩ := pipeline_stages input _ hrun
  have h16 : input.length = 16 := h
  have e0 := first_sort_outbox EXPECTED_PROCESSES input
  simp only [FIRST_PID] at e0
  have p1 := mergePairs_perm (singletons input) (by rw [singletons_length, h16])
  have p2 := mergePairs_perm (mergePairs (singletons input))
    (by rw [mergePairs_length, singletons_length, h16])
  have p3 := mergePairs_perm (mergePairs (mergePairs (singletons input)))
    (by rw [mergePairs_length, mergePairs_length, singletons_length, h16])
  have p4 := mergePairs_perm (mergePairs (mergePairs (mergePairs (singletons input))))
    (by rw [mergePairs_length, mergePairs_length, mergePairs_length, singletons_length, h16])
  rw [singletons_flatten] at p1
  have l1 := p1.length_eq
  have l2 := p2.length_eq
  have l3 := p3.length_eq
  have l4 := p4.length_eq
  refine ⟨_, hrun, ⟨?_, ?_⟩, ⟨h1, rfl, rfl, rfl, ?_, ?_⟩, ⟨h2, rfl, rfl, rfl, ?_, ?_⟩,
    ⟨h3, rfl, rfl, rfl, ?_, ?_⟩, ⟨h4, rfl, rfl, rfl, rfl, ?_, ?_⟩⟩
  · simp only [e0, alternate_length, h16]
  · simp only [e0, alternate_primitives]; exact List.Perm.refl _
  · have := congrArg List.length (altTagged_primitives (mergePairs (singletons input)) .Upper)
    simp only [List.length_map] at this
    simp only [this]; omega
  · simp only [e0, alternate_primitives, altTagged_primitives]; exact p1
  · have := congrArg List.length
      (altTagged_primitives (mergePairs (mergePairs (singletons input))) .Upper)
    simp only [List.length_map] at this
    simp only [this]; omega
  · simp only [altTagged_primitives]; exact p2
  · have := congrArg List.length
      (altTagged_primitives (mergePairs (mergePairs (mergePairs (singletons input)))) .Upper)
    simp only [List.length_map] at this
    simp only [this]; omega
  · simp only [altTagged_primitives]; exact p3
  · simp only []; omega
  · simp only [altTagged_primitives]; exact p4

theorem C4_conservation_witness :
    ([12, 3, 200, 7, 7, 0, 255, 9, 1, 1, 30, 2, 100, 5, 4, 8] : Sequence).length = EXPECTED_NUMS ∧
    ∃ r : PipelineRun, pipeline [12, 3, 200, 7, 7, 0, 255, 9, 1, 1, 30, 2, 100, 5, 4, 8] = .ok r ∧
      (r.first.outbox.length = 16 ∧ (r.first.outbox.map Message.primitive).Perm [12, 3, 200, 7, 7, 0, 255, 9, 1, 1, 30, 2, 100, 5, 4, 8]) ∧
      (Mid.sort_loop EXPECTED_NUMS (EXPECTED_NUMS + in_seq_len 1) 0
          (Mid.init 1 EXPECTED_PROCESSES r.first.outbox) = .ok r.mid1 ∧
        r.mid1.inbox = [] ∧ r.mid1.pipes_0.queue = [] ∧ r.mid1.pipes_1.queue = [] ∧
        r.mid1.outbox.length = 16 ∧
        (r.mid1.outbox.map Message.primitive).Perm (r.first.outbox.map Message.primitive)) ∧
      (Mid.sort_loop EXPECTED_NUMS (EXPECTED_NUMS + in_seq_len 2) 0
          (Mid.init 2 EXPECTED_PROCESSES r.mid1.outbox) = .ok r.mid2 ∧
        r.mid2.inbox = [] ∧ r.mid2.pipes_0.queue = [] ∧ r.mid2.pipes_1.queue = [] ∧
        r.mid2.outbox.length = 16 ∧
        (r.mid2.outbox.map Message.primitive).Perm (r.mid1.outbox.map Message.primitive)) ∧
      (Mid.sort_loop EXPECTED_NUMS (EXPECTED_NUMS + in_seq_len 3) 0
          (Mid.init 3 EXPECTED_PROCESSES r.mid2.outbox) = .ok r.mid3 ∧
        r.mid3.inbox = [] ∧ r.mid3.pipes_0.queue = [] ∧ r.mid3.pipes_1.queue = [] ∧
        r.mid3.outbox.length = 16 ∧
        (r.mid3.outbox.map Message.primitive).Perm (r.mid2.outbox.map Message.primitive)) ∧
      (Last.sort_loop EXPECTED_NUMS (EXPECTED_NUMS + in_seq_len 4) 0
          (Last.init 4 EXPECTED_PROCESSES r.mid3.outbox) = .ok r.last ∧
        r.last.mid.inbox = [] ∧ r.last.mid.pipes_0.queue = [] ∧
        r.last.mid.pipes_1.queue = [] ∧ r.last.mid.outbox = [] ∧
        r.last.output_.length = 16 ∧
        r.last.output_.Perm (r.mid3.outbox.map Message.primitive)) :=
  ⟨by decide, C4_conservation [12, 3, 200, 7, 7, 0, 255, 9, 1, 1, 30, 2, 100, 5, 4, 8] (by decide)⟩

/-- C8: for a Mid stage at any rank r (in particular r = 1, 2, 3) and every input stream, at
every point of the loop of Mid::sort the k-th message sent so far carries the tag Upper iff
floor(k / 2^r) is even, and the current outgoing tag is the one of the next position: the
tag starts at Upper and toggles exactly after every out_seq_len(r) = 2^r sends. -/
theorem C8_emission_tagging (r count : Nat) (stream : List Message) (n : Nat) (s : Mid)
    (hrun : Mid.sort_loop EXPECTED_NUMS n 0 (Mid.init r count stream) = .ok s) :
    (∀ (k : Nat) (m : Message), s.outbox[k]? = some m →
      (m.pipe = .Upper ↔ (k / 2 ^ r) % 2 = 0)) ∧
    (s.pipe_select_ = .Upper ↔ (s.outbox.length / 2 ^ r) % 2 = 0) := by
  have hlen : 0 < 2 ^ r := Nat.two_pow_pos r
  have h0 : TagInv (2 ^ r) (Mid.init r count stream) := by
    refine ⟨rfl, hlen, ?_, ?_, ?_⟩
    · simp [Mid.init]
    · simp [Mid.init, tagAt]
    · intro k m h; simp [Mid.init] at h
  obtain ⟨_, _, _, ht, hm⟩ := mid_TagInv_loop (2 ^ r) EXPECTED_NUMS hlen _ h0 n s hrun
  have key : ∀ (p : PipeSelect) (k : Nat), p = tagAt (2 ^ r) k →
      (p = .Upper ↔ (k / 2 ^ r) % 2 = 0) := by
    intro p k hp
    subst hp
    unfold tagAt
    by_cases hk : (k / 2 ^ r) % 2 = 0 <;> simp [hk]
  exact ⟨fun k m h => key _ _ (hm k m h), key _ _ ht⟩

theorem C8_emission_tagging_witness :
    Mid.sort_loop EXPECTED_NUMS 3 0 (Mid.init 1 5 sampleStream) = .ok sampleAfter3 ∧
    (∀ (k : Nat) (m : Message), sampleAfter3.outbox[k]? = some m →
      (m.pipe = .Upper ↔ (k / 2 ^ 1) % 2 = 0)) ∧
    (sampleAfter3.pipe_select_ = .Upper ↔ (sampleAfter3.outbox.length / 2 ^ 1) % 2 = 0) :=
  ⟨rfl, C8_emission_tagging 1 5 sampleStream 3 sampleAfter3 rfl⟩

/-- C9 as amended: in Mid::sort and in Last::sort, for every input stream: once the start
condition (can_sort_begin: Upper holds at least in_seq_len elements and Lower at least one)
has held after the receive of some iteration i, started_ is true in every state reached
later and after the latch of every iteration j >= i whose receive returns, so none of them
only buffers: each calls next_primitive and emits exactly one element (one message sent, or
one element appended to output_) when that call returns.  As long as the condition has held
in no iteration, started_ is false and nothing has been emitted.  In Last::sort on every
stream of 16 messages, and in Mid::sort on the streams of a pipeline run (pairs of runs of
length in_seq_len, 16 messages), every iteration is reached and completes, so there every
iteration from the start on does emit one element.  In Mid::sort on other streams
next_primitive can find the queue it selects empty, and then the iteration emits nothing. -/
theorem C9_monotonic_latch (pid count : Nat) (stream : List Message) :
    (∀ (i j : Nat) (si si0 sj : Mid),
      Mid.sort_loop EXPECTED_NUMS i 0 (Mid.init pid count stream) = .ok si →
      si.sort_recv EXPECTED_NUMS i = .ok si0 → si0.can_sort_begin = true → i ≤ j →
      Mid.sort_loop EXPECTED_NUMS j 0 (Mid.init pid count stream) = .ok sj →
      (i < j → sj.started_ = true) ∧
      ∀ sj0 : Mid, sj.sort_recv EXPECTED_NUMS j = .ok sj0 →
        sj0.sort_latch.started_ = true ∧
        (sj.sort_body EXPECTED_NUMS j = .error .emptyQueue ∨
          ∃ s1 : Mid, sj.sort_body EXPECTED_NUMS j = .ok s1 ∧ s1.started_ = true ∧
            s1.outbox.length = sj.outbox.length + 1)) ∧
    (∀ (j : Nat) (sj : Mid),
      Mid.sort_loop EXPECTED_NUMS j 0 (Mid.init pid count stream) = .ok sj →
      (∀ (i : Nat) (si si0 : Mid), i < j →
        Mid.sort_loop EXPECTED_NUMS i 0 (Mid.init pid count stream) = .ok si →
        si.sort_recv EXPECTED_NUMS i = .ok si0 → si0.can_sort_begin = false) →
      sj.started_ = false ∧ sj.outbox = []) ∧
    (∀ (i j : Nat) (si sj : Last) (mi : Mid),
      Last.sort_loop EXPECTED_NUMS i 0 (Last.init pid count stream) = .ok si →
      si.mid.sort_recv EXPECTED_NUMS i = .ok mi → mi.can_sort_begin = true → i ≤ j →
      Last.sort_loop EXPECTED_NUMS j 0 (Last.init pid count stream) = .ok sj →
      (i < j → sj.mid.started_ = true) ∧
      ∀ mj : Mid, sj.mid.sort_recv EXPECTED_NUMS j = .ok mj →
        mj.sort_latch.started_ = true ∧
        (Last.sort_body EXPECTED_NUMS j sj = .error .emptyQueue ∨
          ∃ s1 : Last, Last.sort_body EXPECTED_NUMS j sj = .ok s1 ∧
            s1.mid.started_ = true ∧ s1.output_.length = sj.output_.length + 1)) ∧
    (∀ (j : Nat) (sj : Last),
      Last.sort_loop EXPECTED_NUMS j 0 (Last.init pid count stream) = .ok sj →
      (∀ (i : Nat) (si : Last) (mi : Mid), i < j →
        Last.sort_loop EXPECTED_NUMS i 0 (Last.init pid count stream) = .ok si →
        si.mid.sort_recv EXPECTED_NUMS i = .ok mi → mi.can_sort_begin = false) →
      sj.mid.started_ = false ∧ sj.output_ = []) ∧
    (∀ (q : List Primitive × List Primitive) (ps : List (List Primitive × List Primitive)),
      0 < pid → stream = pairStream (q :: ps) →
      (∀ c ∈ q :: ps, c.1.length = in_seq_len pid ∧ c.2.length = in_seq_len pid) →
      2 * in_seq_len pid * (ps.length + 1) = EXPECTED_NUMS →
      ∀ j, j < EXPECTED_NUMS + in_seq_len pid →
        ∃ sj s1 : Mid,
          Mid.sort_loop EXPECTED_NUMS j 0 (Mid.init pid count stream) = .ok sj ∧
          sj.sort_body EXPECTED_NUMS j = .ok s1) ∧
    (∀ (u l : List Primitive),
      0 < pid → stream = tagged .Upper u ++ tagged .Lower l →
      u.length = in_seq_len pid → l.length = in_seq_len pid →
      2 * in_seq_len pid = EXPECTED_NUMS →
      ∀ j, j < EXPECTED_NUMS + in_seq_len pid →
        ∃ sj s1 : Last,
          Last.sort_loop EXPECTED_NUMS j 0 (Last.init pid count stream) = .ok sj ∧
          Last.sort_body EXPECTED_NUMS j sj = .ok s1) ∧
    (stream.length = EXPECTED_NUMS →
      ∀ (i : Nat) (si : Last) (mi : Mid),
        Last.sort_loop EXPECTED_NUMS i 0 (Last.init pid count stream) = .ok si →
        si.mid.sort_recv EXPECTED_NUMS i = .ok mi → mi.can_sort_begin = true →
        ∀ j, i ≤ j → j < EXPECTED_NUMS + in_seq_len pid →
          ∃ sj s1 : Last,
            Last.sort_loop EXPECTED_NUMS j 0 (Last.init pid count stream) = .ok sj ∧
            Last.sort_body EXPECTED_NUMS j sj = .ok s1 ∧ s1.mid.started_ = true ∧
            s1.output_.length = sj.output_.length + 1) := by
  refine ⟨?_, ?_, ?_, ?_, ?_, ?_, last_stream_emits pid count stream⟩
  · intro i j si si0 sj hi hrecv hc hij hj
    have hlater := mid_latched EXPECTED_NUMS i _ si si0 hi hrecv hc
    refine ⟨fun hlt => hlater j sj hlt hj, ?_⟩
    intro sj0 hrj
    have hst : sj0.sort_latch.started_ = true := by
      by_cases hlt : i < j
      · obtain ⟨_, _, _, _, r5, _, _⟩ := mid_sort_recv_frame _ _ sj sj0 hrj
        exact (mid_sort_latch_frame sj0).2.2.2.2.2.2.2.2.1 (by rw [r5]; exact hlater j sj hlt hj)
      · have he : i = j := by omega
        subst he
        rw [hi] at hj
        cases hj
        rw [hrecv] at hrj
        cases hrj
        exact (mid_sort_latch_frame si0).2.2.2.2.2.2.2.2.2.1 hc
    exact ⟨hst, mid_body_started _ _ sj sj0 hrj hst⟩
  · intro j sj hj hall
    exact mid_not_started EXPECTED_NUMS _ rfl rfl j sj hj hall
  · intro i j si sj mi hi hrecv hc hij hj
    have hlater := last_latched EXPECTED_NUMS i _ si mi hi hrecv hc
    refine ⟨fun hlt => hlater j sj hlt hj, ?_⟩
    intro mj hrj
    have hst : mj.sort_latch.started_ = true := by
      by_cases hlt : i < j
      · obtain ⟨_, _, _, _, r5, _, _⟩ := mid_sort_recv_frame _ _ sj.mid mj hrj
        exact (mid_sort_latch_frame mj).2.2.2.2.2.2.2.2.1 (by rw [r5]; exact hlater j sj hlt hj)
      · have he : i = j := by omega
        subst he
        rw [hi] at hj
        cases hj
        rw [hrecv] at hrj
        cases hrj
        exact (mid_sort_latch_frame mi).2.2.2.2.2.2.2.2.2.1 hc
    exact ⟨hst, last_body_started _ _ sj mj hrj hst⟩
  · intro j sj hj hall
    exact last_not_started EXPECTED_NUMS _ rfl rfl j sj hj hall
  · intro q ps hpid hs hall hN j hj
    subst hs
    obtain ⟨sj, s1, h1, h2, _⟩ := mid_sort_pairs_total pid count hpid q ps hall hN j hj
    exact ⟨sj, s1, h1, h2⟩
  · intro u l hpid hs hu hl hN j hj
    subst hs
    obtain ⟨sj, s1, h1, h2, _⟩ := last_sort_pair_total pid count hpid u l hu hl hN j hj
    exact ⟨sj, s1, h1, h2⟩

theorem C9_monotonic_latch_witness :
    (Mid.sort_loop EXPECTED_NUMS 1 0 (Mid.init 1 5 sampleStream) = .ok sampleAfter1 ∧
      sampleAfter1.sort_recv EXPECTED_NUMS 1 = .ok sampleRecv2 ∧
      sampleRecv2.can_sort_begin = true ∧
      Mid.sort_loop EXPECTED_NUMS 2 0 (Mid.init 1 5 sampleStream) = .ok sampleAfter2 ∧
      sampleAfter2.sort_body EXPECTED_NUMS 2 = .ok sampleAfter3 ∧
      ((1 < 2 → sampleAfter2.started_ = true) ∧
        ∀ sj0 : Mid, sampleAfter2.sort_recv EXPECTED_NUMS 2 = .ok sj0 →
          sj0.sort_latch.started_ = true ∧
          (sampleAfter2.sort_body EXPECTED_NUMS 2 = .error .emptyQueue ∨
            ∃ s1 : Mid, sampleAfter2.sort_body EXPECTED_NUMS 2 = .ok s1 ∧
              s1.started_ = true ∧ s1.outbox.length = sampleAfter2.outbox.length + 1))) ∧
    (raggedStream.length = EXPECTED_NUMS ∧
      Last.sort_loop EXPECTED_NUMS 8 0 (Last.init 4 5 raggedStream) = .ok raggedAfter8 ∧
      raggedAfter8.mid.sort_recv EXPECTED_NUMS 8 = .ok raggedRecv9 ∧
      raggedRecv9.can_sort_begin = true ∧
      ∃ sj s1 : Last,
        Last.sort_loop EXPECTED_NUMS 23 0 (Last.init 4 5 raggedStream) = .ok sj ∧
        Last.sort_body EXPECTED_NUMS 23 sj = .ok s1 ∧ s1.mid.started_ = true ∧
        s1.output_.length = sj.output_.length + 1) :=
  ⟨⟨rfl, rfl, rfl, rfl, rfl,
    (C9_monotonic_latch 1 5 sampleStream).1 1 2 sampleAfter1 sampleRecv2 sampleAfter2
      rfl rfl rfl (by decide) rfl⟩,
   ⟨rfl, rfl, rfl, rfl,
    (C9_monotonic_latch 4 5 raggedStream).2.2.2.2.2.2 rfl 8 raggedAfter8 raggedRecv9
      rfl rfl rfl 23 (by decide) (by decide)⟩⟩

/-- C9 as stated fails: at rank 1 on the 16 messages 1 Upper, 2 Lower, 3 .. 16 Upper the
start condition holds after the receive of iteration 1, the state after four iterations is
reached with started_ true, and iteration 4 emits nothing: pipes_[0].taken is 1, so
next_primitive takes front() of the empty pipes_[1]; Mid::sort does not complete. -/
theorem C9_monotonic_latch_counterexample :
    Mid.sort_loop EXPECTED_NUMS 1 0 (Mid.init 1 5 unpairedStream) = .ok unpairedAfter1 ∧
    unpairedAfter1.sort_recv EXPECTED_NUMS 1 = .ok unpairedRecv2 ∧
    unpairedRecv2.can_sort_begin = true ∧
    Mid.sort_loop EXPECTED_NUMS 4 0 (Mid.init 1 5 unpairedStream) = .ok unpairedAfter4 ∧
    unpairedAfter4.started_ = true ∧
    unpairedAfter4.sort_body EXPECTED_NUMS 4 = .error .emptyQueue ∧
    (¬ ∃ s1 : Mid, unpairedAfter4.sort_body EXPECTED_NUMS 4 = .ok s1 ∧
        s1.outbox.length = unpairedAfter4.outbox.length + 1) ∧
    (Mid.init 1 5 unpairedStream).sort = .error .emptyQueue := by
  have hb : unpairedAfter4.sort_body EXPECTED_NUMS 4 = .error .emptyQueue := rfl
  refine ⟨rfl, rfl, rfl, rfl, rfl, hb, ?_, rfl⟩
  rintro ⟨s1, h, _⟩
  rw [hb] at h
  cases h

/-- C10: in a pipeline run on any 16-element input, at every point of the execution of the
stage at rank r = 1, 2, 3 (Mid) and 4 (Last), that is in the state reached after n
iterations for every n up to 16 + in_seq_len(r) and in the state right after the receive
of the next iteration (the only statement that adds to a queue), the two queues together
hold at most in_seq_len(r) + 1 elements. -/
theorem C10_bounded_memory (input : Sequence) (h : input.length = EXPECTED_NUMS) :
    ∃ r : PipelineRun, pipeline input = .ok r ∧
      (∀ n : Nat, n ≤ EXPECTED_NUMS + in_seq_len 1 →
        ∃ s : Mid,
          Mid.sort_loop EXPECTED_NUMS n 0 (Mid.init 1 EXPECTED_PROCESSES r.first.outbox) =
            .ok s ∧
          occupancy s ≤ in_seq_len 1 + 1 ∧
          ∀ s0 : Mid, s.sort_recv EXPECTED_NUMS n = .ok s0 →
            occupancy s0 ≤ in_seq_len 1 + 1) ∧
      (∀ n : Nat, n ≤ EXPECTED_NUMS + in_seq_len 2 →
        ∃ s : Mid,
          Mid.sort_loop EXPECTED_NUMS n 0 (Mid.init 2 EXPECTED_PROCESSES r.mid1.outbox) =
            .ok s ∧
          occupancy s ≤ in_seq_len 2 + 1 ∧
          ∀ s0 : Mid, s.sort_recv EXPECTED_NUMS n = .ok s0 →
            occupancy s0 ≤ in_seq_len 2 + 1) ∧
      (∀ n : Nat, n ≤ EXPECTED_NUMS + in_seq_len 3 →
        ∃ s : Mid,
          Mid.sort_loop EXPECTED_NUMS n 0 (Mid.init 3 EXPECTED_PROCESSES r.mid2.outbox) =
            .ok s ∧
          occupancy s ≤ in_seq_len 3 + 1 ∧
          ∀ s0 : Mid, s.sort_recv EXPECTED_NUMS n = .ok s0 →
            occupancy s0 ≤ in_seq_len 3 + 1) ∧
      (∀ n : Nat, n ≤ EXPECTED_NUMS + in_seq_len 4 →
        ∃ s : Last,
          Last.sort_loop EXPECTED_NUMS n 0 (Last.init 4 EXPECTED_PROCESSES r.mid3.outbox) =
            .ok s ∧
          occupancy s.mid ≤ in_seq_len 4 + 1 ∧
          ∀ m0 : Mid, s.mid.sort_recv EXPECTED_NUMS n = .ok m0 →
            occupancy m0 ≤ in_seq_len 4 + 1) := by
  obtain ⟨r, hrun, ⟨q1, ps1, e1, hall1, _⟩, ⟨q2, ps2, e2, hall2, _⟩, ⟨q3, ps3, e3, hall3, _⟩,
    ⟨q4, ps4, e4, hall4, _⟩⟩ := pipeline_inboxes input h
  obtain ⟨_, h1, h2, h3, h4⟩ := pipeline_stages input r hrun
  refine ⟨r, hrun, ?_, ?_, ?_, ?_⟩
  · intro n hn
    obtain ⟨s, hs, _⟩ := mid_sort_loop_prefix EXPECTED_NUMS _
      (EXPECTED_NUMS + in_seq_len 1) n _ hn h1
    refine ⟨s, hs, ?_⟩
    rw [e1] at hs
    have hinv := mid_BufInv_loop _ _ _
      (BufInv_init 1 EXPECTED_PROCESSES (by decide) q1 ps1
        (hall1 q1 (List.mem_cons_self _ _))) n s hs
    have hocc := BufInv_occupancy _ _ hinv
    refine ⟨by omega, fun s0 hr => ?_⟩
    have := (mid_sort_recv_frame _ _ s s0 hr).2.2.2.2.2.2
    omega
  · intro n hn
    obtain ⟨s, hs, _⟩ := mid_sort_loop_prefix EXPECTED_NUMS _
      (EXPECTED_NUMS + in_seq_len 2) n _ hn h2
    refine ⟨s, hs, ?_⟩
    rw [e2] at hs
    have hinv := mid_BufInv_loop _ _ _
      (BufInv_init 2 EXPECTED_PROCESSES (by decide) q2 ps2
        (hall2 q2 (List.mem_cons_self _ _))) n s hs
    have hocc := BufInv_occupancy _ _ hinv
    refine ⟨by omega, fun s0 hr => ?_⟩
    have := (mid_sort_recv_frame _ _ s s0 hr).2.2.2.2.2.2
    omega
  · intro n hn
    obtain ⟨s, hs, _⟩ := mid_sort_loop_prefix EXPECTED_NUMS _
      (EXPECTED_NUMS + in_seq_len 3) n _ hn h3
    refine ⟨s, hs, ?_⟩
    rw [e3] at hs
    have hinv := mid_BufInv_loop _ _ _
      (BufInv_init 3 EXPECTED_PROCESSES (by decide) q3 ps3
        (hall3 q3 (List.mem_cons_self _ _))) n s hs
    have hocc := BufInv_occupancy _ _ hinv
    refine ⟨by omega, fun s0 hr => ?_⟩
    have := (mid_sort_recv_frame _ _ s s0 hr).2.2.2.2.2.2
    omega
  · intro n hn
    obtain ⟨s, hs, _⟩ := last_sort_loop_prefix EXPECTED_NUMS _
      (EXPECTED_NUMS + in_seq_len 4) n _ hn h4
    refine ⟨s, hs, ?_⟩
    rw [e4] at hs
    have hinv := last_BufInv_loop _ _ (Last.init 4 EXPECTED_PROCESSES (pairStream (q4 :: ps4)))
      (BufInv_init 4 EXPECTED_PROCESSES (by decide) q4 ps4
        (hall4 q4 (List.mem_cons_self _ _))) n s hs
    have hocc := BufInv_occupancy _ _ hinv
    refine ⟨by omega, fun m0 hr => ?_⟩
    have := (mid_sort_recv_frame _ _ s.mid m0 hr).2.2.2.2.2.2
    omega

theorem C10_bounded_memory_witness :
    ([12, 3, 200, 7, 7, 0, 255, 9, 1, 1, 30, 2, 100, 5, 4, 8] : Sequence).length = EXPECTED_NUMS ∧
    ∃ r : PipelineRun, pipeline [12, 3, 200, 7, 7, 0, 255, 9, 1, 1, 30, 2, 100, 5, 4, 8] = .ok r ∧
      (∀ n : Nat, n ≤ EXPECTED_NUMS + in_seq_len 1 →
        ∃ s : Mid,
          Mid.sort_loop EXPECTED_NUMS n 0 (Mid.init 1 EXPECTED_PROCESSES r.first.outbox) =
            .ok s ∧
          occupancy s ≤ in_seq_len 1 + 1 ∧
          ∀ s0 : Mid, s.sort_recv EXPECTED_NUMS n = .ok s0 →
            occupancy s0 ≤ in_seq_len 1 + 1) ∧
      (∀ n : Nat, n ≤ EXPECTED_NUMS + in_seq_len 2 →
        ∃ s : Mid,
          Mid.sort_loop EXPECTED_NUMS n 0 (Mid.init 2 EXPECTED_PROCESSES r.mid1.outbox) =
            .ok s ∧
          occupancy s ≤ in_seq_len 2 + 1 ∧
          ∀ s0 : Mid, s.sort_recv EXPECTED_NUMS n = .ok s0 →
            occupancy s0 ≤ in_seq_len 2 + 1) ∧
      (∀ n : Nat, n ≤ EXPECTED_NUMS + in_seq_len 3 →
        ∃ s : Mid,
          Mid.sort_loop EXPECTED_NUMS n 0 (Mid.init 3 EXPECTED_PROCESSES r.mid2.outbox) =
            .ok s ∧
          occupancy s ≤ in_seq_len 3 + 1 ∧
          ∀ s0 : Mid, s.sort_recv EXPECTED_NUMS n = .ok s0 →
            occupancy s0 ≤ in_seq_len 3 + 1) ∧
      (∀ n : Nat, n ≤ EXPECTED_NUMS + in_seq_len 4 →
        ∃ s : Last,
          Last.sort_loop EXPECTED_NUMS n 0 (Last.init 4 EXPECTED_PROCESSES r.mid3.outbox) =
            .ok s ∧
          occupancy s.mid ≤ in_seq_len 4 + 1 ∧
          ∀ m0 : Mid, s.mid.sort_recv EXPECTED_NUMS n = .ok m0 →
            occupancy m0 ≤ in_seq_len 4 + 1) :=
  ⟨by decide, C10_bounded_memory [12, 3, 200, 7, 7, 0, 255, 9, 1, 1, 30, 2, 100, 5, 4, 8] (by decide)⟩

/-- C11: First::run reaches sort() and sends messages if and only if count_ is
EXPECTED_PROCESSES (5) and the input holds exactly EXPECTED_NUMS (16) elements, and then it
sends 16 messages; when count_ is not 5 it aborts with PROCESS_ERR whatever the input file
is (the check comes first); when count_ is 5 and the input is not there or does not hold 16
elements it aborts with INPUT_ERR; at both aborts no message has been sent. -/
theorem C11_fail_fast (count : Nat) (file : Option Sequence) :
    ((∃ s : First, First.run Config.pms (First.init FIRST_PID count []) file = .ok s) ↔
      (count = EXPECTED_PROCESSES ∧
        ∃ bytes : Sequence, file = some bytes ∧ bytes.length = EXPECTED_NUMS)) ∧
    (∀ bytes : Sequence, count = EXPECTED_PROCESSES → file = some bytes →
      bytes.length = EXPECTED_NUMS →
      First.run Config.pms (First.init FIRST_PID count []) file =
        .ok (First.init FIRST_PID count bytes).sort ∧
      (First.init FIRST_PID count bytes).sort.outbox.length = EXPECTED_NUMS) ∧
    (count ≠ EXPECTED_PROCESSES →
      ∃ st : First, First.run Config.pms (First.init FIRST_PID count []) file =
        .error (.PROCESS_ERR, st) ∧ st.outbox = []) ∧
    (count = EXPECTED_PROCESSES →
      (file = none ∨ ∃ bytes : Sequence, file = some bytes ∧ bytes.length ≠ EXPECTED_NUMS) →
      ∃ st : First, First.run Config.pms (First.init FIRST_PID count []) file =
        .error (.INPUT_ERR, st) ∧ st.outbox = []) := by
  have hok : ∀ bytes : Sequence, count = EXPECTED_PROCESSES → file = some bytes →
      bytes.length = EXPECTED_NUMS →
      First.run Config.pms (First.init FIRST_PID count []) file =
        .ok (First.init FIRST_PID count bytes).sort := by
    intro bytes hc hf hl
    subst hf
    simp [First.run, First.check_processes, First.read_input, First.check_input, Config.pms,
      First.init, hc, hl]
  have hproc : count ≠ EXPECTED_PROCESSES →
      ∃ st : First, First.run Config.pms (First.init FIRST_PID count []) file =
        .error (.PROCESS_ERR, st) ∧ st.outbox = [] := by
    intro hc
    refine ⟨First.init FIRST_PID count [], ?_, rfl⟩
    simp [First.run, First.check_processes, Config.pms, First.init, hc]
  have hinp : count = EXPECTED_PROCESSES →
      (file = none ∨ ∃ bytes : Sequence, file = some bytes ∧ bytes.length ≠ EXPECTED_NUMS) →
      ∃ st : First, First.run Config.pms (First.init FIRST_PID count []) file =
        .error (.INPUT_ERR, st) ∧ st.outbox = [] := by
    intro hc hf
    rcases hf with hf | ⟨bytes, hf, hl⟩
    · subst hf
      refine ⟨First.init FIRST_PID count [], ?_, rfl⟩
      simp [First.run, First.check_processes, First.read_input, Config.pms, First.init, hc]
    · subst hf
      refine ⟨First.init FIRST_PID count bytes, ?_, rfl⟩
      simp [First.run, First.check_processes, First.read_input, First.check_input, Config.pms,
        First.init, hc, hl]
  refine ⟨⟨?_, ?_⟩, ?_, hproc, hinp⟩
  · rintro ⟨s, hs⟩
    by_cases hc : count = EXPECTED_PROCESSES
    · refine ⟨hc, ?_⟩
      cases file with
      | none =>
        obtain ⟨st, hst, _⟩ := hinp hc (Or.inl rfl)
        rw [hst] at hs
        cases hs
      | some bytes =>
        by_cases hl : bytes.length = EXPECTED_NUMS
        · exact ⟨bytes, rfl, hl⟩
        · obtain ⟨st, hst, _⟩ := hinp hc (Or.inr ⟨bytes, rfl, hl⟩)
          rw [hst] at hs
          cases hs
    · obtain ⟨st, hst, _⟩ := hproc hc
      rw [hst] at hs
      cases hs
  · rintro ⟨hc, bytes, hf, hl⟩
    exact ⟨_, hok bytes hc hf hl⟩
  · intro bytes hc hf hl
    refine ⟨hok bytes hc hf hl, ?_⟩
    rw [first_sort_outbox, alternate_length]
    exact hl

/-- C18: for every state of a Mid stage, toggle_pipe flips pipe_select_ (Upper to Lower, Lower
to Upper), sets sent_to_selected_ and both taken counters to 0 and changes nothing else
(queues, started_, pid_, count_, channels); two toggles in a row restore the tag; and no
other operation lowers a taken counter: save_message, receive_from_prev_p, start_sort and
send_to_next_p keep both, next_primitive adds 1 to one of them, and across a whole loop
iteration a taken counter goes down only when the toggle ran. -/
theorem C18_toggle_effect_frame (s : Mid) :
    s.toggle_pipe =
      { s with pipe_select_ := s.pipe_select_.toggle, sent_to_selected_ := 0,
               pipes_0 := { queue := s.pipes_0.queue, taken := 0 },
               pipes_1 := { queue := s.pipes_1.queue, taken := 0 } } ∧
    (s.pipe_select_ = .Upper → s.toggle_pipe.pipe_select_ = .Lower) ∧
    (s.pipe_select_ = .Lower → s.toggle_pipe.pipe_select_ = .Upper) ∧
    s.toggle_pipe.toggle_pipe.pipe_select_ = s.pipe_select_ ∧
    (∀ msg : Message, (s.save_message msg).pipes_0.taken = s.pipes_0.taken ∧
      (s.save_message msg).pipes_1.taken = s.pipes_1.taken) ∧
    (∀ (m : Message) (s1 : Mid), s.receive_from_prev_p = .ok (m, s1) →
      s1.pipes_0.taken = s.pipes_0.taken ∧ s1.pipes_1.taken = s.pipes_1.taken) ∧
    (s.start_sort.pipes_0.taken = s.pipes_0.taken ∧
      s.start_sort.pipes_1.taken = s.pipes_1.taken) ∧
    (∀ msg : Message, (s.send_to_next_p msg).pipes_0.taken = s.pipes_0.taken ∧
      (s.send_to_next_p msg).pipes_1.taken = s.pipes_1.taken) ∧
    (∀ (v : Primitive) (s1 : Mid), s.next_primitive = .ok (v, s1) →
      (s1.pipes_0.taken = s.pipes_0.taken + 1 ∧ s1.pipes_1.taken = s.pipes_1.taken) ∨
      (s1.pipes_0.taken = s.pipes_0.taken ∧ s1.pipes_1.taken = s.pipes_1.taken + 1)) ∧
    (∀ (nums i : Nat) (s1 : Mid), s.sort_body nums i = .ok s1 →
      (s1.pipes_0.taken < s.pipes_0.taken ∨ s1.pipes_1.taken < s.pipes_1.taken) →
      s1.pipe_select_ = s.pipe_select_.toggle ∧ s1.sent_to_selected_ = 0 ∧
      s1.pipes_0.taken = 0 ∧ s1.pipes_1.taken = 0) := by
  refine ⟨rfl, ?_, ?_, ?_, mid_save_message_taken s, mid_receive_taken s, ⟨rfl, rfl⟩,
    fun _ => ⟨rfl, rfl⟩, mid_next_primitive_taken s, ?_⟩
  · intro h; simp [Mid.toggle_pipe, Mid.clear_taken, h, PipeSelect.toggle]
  · intro h; simp [Mid.toggle_pipe, Mid.clear_taken, h, PipeSelect.toggle]
  · simp [Mid.toggle_pipe, Mid.clear_taken]
  · intro nums i s1 hb hlt
    rcases mid_sort_body_taken nums i s s1 hb with h | ⟨_, h0, h1⟩
    · exact h
    · omega

theorem C11_fail_fast_witness :
    (First.run Config.pms (First.init FIRST_PID 5 [])
        (some [12, 3, 200, 7, 7, 0, 255, 9, 1, 1, 30, 2, 100, 5, 4, 8]) =
      .ok (First.init FIRST_PID 5 [12, 3, 200, 7, 7, 0, 255, 9, 1, 1, 30, 2, 100, 5, 4, 8]).sort ∧
      (First.init FIRST_PID 5
        [12, 3, 200, 7, 7, 0, 255, 9, 1, 1, 30, 2, 100, 5, 4, 8]).sort.outbox.length = EXPECTED_NUMS) ∧
    (∃ st : First, First.run Config.pms (First.init FIRST_PID 4 [])
        (some [12, 3, 200, 7, 7, 0, 255, 9, 1, 1, 30, 2, 100, 5, 4, 8]) =
      .error (.PROCESS_ERR, st) ∧ st.outbox = []) ∧
    (∃ st : First, First.run Config.pms (First.init FIRST_PID 5 []) (some [1, 2, 3]) =
      .error (.INPUT_ERR, st) ∧ st.outbox = []) :=
  ⟨(C11_fail_fast 5 (some [12, 3, 200, 7, 7, 0, 255, 9, 1, 1, 30, 2, 100, 5, 4, 8])).2.1
      [12, 3, 200, 7, 7, 0, 255, 9, 1, 1, 30, 2, 100, 5, 4, 8] rfl rfl (by decide),
    (C11_fail_fast 4 (some [12, 3, 200, 7, 7, 0, 255, 9, 1, 1, 30, 2, 100, 5, 4, 8])).2.2.1
      (by decide),
    (C11_fail_fast 5 (some [1, 2, 3])).2.2.2 rfl (Or.inr ⟨[1, 2, 3], rfl, by decide⟩)⟩

theorem C18_toggle_effect_frame_witness :
    sampleAfter2.sort_body EXPECTED_NUMS 2 = .ok sampleAfter3 ∧
    sampleAfter3.pipes_1.taken < sampleAfter2.pipes_1.taken ∧
    (sampleAfter3.pipe_select_ = sampleAfter2.pipe_select_.toggle ∧
      sampleAfter3.sent_to_selected_ = 0 ∧
      sampleAfter3.pipes_0.taken = 0 ∧ sampleAfter3.pipes_1.taken = 0) :=
  ⟨rfl, by decide,
    (C18_toggle_effect_frame sampleAfter2).2.2.2.2.2.2.2.2.2 EXPECTED_NUMS 2 sampleAfter3 rfl
      (Or.inr (by decide))⟩

/-- C12: at rank 4 (in_seq_len = 8), for every input stream of 16 messages whose first 8 are
tagged Upper and whose last 8 are tagged Lower, Last::sort and the loop of Mid::sort both
complete, and the elements Last::sort appends to output_ are, element for element, the
primitives the loop of Mid::sort sends on the same stream (16 of them); Last::next_primitive
never changes a taken counter. -/
theorem C12_sink_merge_same (count : Nat) (stream : List Message)
    (hlen : stream.length = 16)
    (htag : ∀ (k : Nat) (m : Message), stream[k]? = some m → (m.pipe = .Upper ↔ k < 8)) :
    (∃ (l : Last) (m : Mid),
      (Last.init 4 count stream).sort = .ok l ∧ (Mid.init 4 count stream).sort = .ok m ∧
      l.output_ = m.outbox.map Message.primitive ∧ l.output_.length = 16) ∧
    (∀ (s : Mid) (v : Primitive) (s2 : Mid), Last.next_primitive s = .ok (v, s2) →
      s2.pipes_0.taken = s.pipes_0.taken ∧ s2.pipes_1.taken = s.pipes_1.taken) := by
  refine ⟨?_, last_next_primitive_taken⟩
  obtain ⟨u, l, rfl, hu, hl⟩ := stream_as_pair_4 stream hlen htag
  have h8 : in_seq_len 4 = 8 := by decide
  have hlast := last_sort_pair 4 count (by decide) u l (by rw [h8, hu]) (by rw [h8, hl])
    (by decide)
  obtain ⟨pf, hmid⟩ := mid_sort_pairs 4 count (by decide) (u, l) []
    (by
      intro c hc
      simp only [List.mem_singleton] at hc
      subst hc
      exact ⟨by rw [h8, hu], by rw [h8, hl]⟩)
    (by decide)
  simp only [pairStream, List.append_nil] at hmid
  refine ⟨_, _, hlast, hmid, ?_, ?_⟩
  · simp [altTagged, tagged_primitives]
  · simp only [mergeLE_length, hu, hl]

theorem C12_sink_merge_same_witness :
    (∃ (l : Last) (m : Mid),
      (Last.init 4 5
        (tagged .Upper [1, 3, 5, 7, 9, 11, 13, 15] ++ tagged .Lower [2, 4, 6, 8, 8, 10, 12, 14])).sort =
        .ok l ∧
      (Mid.init 4 5
        (tagged .Upper [1, 3, 5, 7, 9, 11, 13, 15] ++ tagged .Lower [2, 4, 6, 8, 8, 10, 12, 14])).sort =
        .ok m ∧
      l.output_ = m.outbox.map Message.primitive ∧ l.output_.length = 16) ∧
    (∀ (s : Mid) (v : Primitive) (s2 : Mid), Last.next_primitive s = .ok (v, s2) →
      s2.pipes_0.taken = s.pipes_0.taken ∧ s2.pipes_1.taken = s.pipes_1.taken) :=
  C12_sink_merge_same 5
    (tagged .Upper [1, 3, 5, 7, 9, 11, 13, 15] ++ tagged .Lower [2, 4, 6, 8, 8, 10, 12, 14])
    (by decide)
    (by
      intro k m h
      have hk : k < 16 := by
        by_contra hc
        rw [List.getElem?_eq_none (by simp [tagged]; omega)] at h
        cases h
      interval_cases k <;> simp [tagged] at h <;> subst h <;> decide)

/-- C13: with the constants set to N = 8 and P = 4 and four processes launched on the input
[5,1,4,2,8,3,7,6], the Sink (rank 3) ends with output_ = [1,2,3,4,5,6,7,8]; rank 1 sends
the runs [1,5], [2,4], [3,8], [6,7] in that order, tagged Upper, Lower, Upper, Lower;
rank 2 sends the runs [1,2,4,5] (Upper) and [3,6,7,8] (Lower); the output of rank 3 is one
non-decreasing run of length 8. -/
theorem C13_end_to_end_example :
    ∃ (f : First) (m1 m2 : Mid) (l : Last),
      launch { EXPECTED_NUMS := 8, EXPECTED_PROCESSES := 4 } 4
          (some [5, 1, 4, 2, 8, 3, 7, 6]) =
        .ok [.first f, .mid m1, .mid m2, .last l] ∧
      l.output_ = [1, 2, 3, 4, 5, 6, 7, 8] ∧
      runsOf m1.outbox =
        [tagged .Upper [1, 5], tagged .Lower [2, 4], tagged .Upper [3, 8],
         tagged .Lower [6, 7]] ∧
      runsOf m2.outbox = [tagged .Upper [1, 2, 4, 5], tagged .Lower [3, 6, 7, 8]] ∧
      f.outbox = alternate .Upper [5, 1, 4, 2, 8, 3, 7, 6] ∧
      l.output_.length = 8 ∧ l.output_.Sorted (· ≤ ·) :=
  ⟨{ pid_ := 0, count_ := 4, pipe_select_ := .Upper, sent_to_selected_ := 0,
     input_ := [5, 1, 4, 2, 8, 3, 7, 6],
     outbox := [{ primitive := 5, pipe := .Upper }, { primitive := 1, pipe := .Lower },
                { primitive := 4, pipe := .Upper }, { primitive := 2, pipe := .Lower },
                { primitive := 8, pipe := .Upper }, { primitive := 3, pipe := .Lower },
                { primitive := 7, pipe := .Upper }, { primitive := 6, pipe := .Lower }] },
   { pid_ := 1, count_ := 4, pipe_select_ := .Upper, sent_to_selected_ := 0,
     pipes_0 := { queue := [], taken := 0 }, pipes_1 := { queue := [], taken := 0 },
     started_ := true, inbox := [],
     outbox := [{ primitive := 1, pipe := .Upper }, { primitive := 5, pipe := .Upper },
                { primitive := 2, pipe := .Lower }, { primitive := 4, pipe := .Lower },
                { primitive := 3, pipe := .Upper }, { primitive := 8, pipe := .Upper },
                { primitive := 6, pipe := .Lower }, { primitive := 7, pipe := .Lower }] },
   { pid_ := 2, count_ := 4, pipe_select_ := .Upper, sent_to_selected_ := 0,
     pipes_0 := { queue := [], taken := 0 }, pipes_1 := { queue := [], taken := 0 },
     started_ := true, inbox := [],
     outbox := [{ primitive := 1, pipe := .Upper }, { primitive := 2, pipe := .Upper },
                { primitive := 4, pipe := .Upper }, { primitive := 5, pipe := .Upper },
                { primitive := 3, pipe := .Lower }, { primitive := 6, pipe := .Lower },
                { primitive := 7, pipe := .Lower }, { primitive := 8, pipe := .Lower }] },
   { mid := { pid_ := 3, count_ := 4, pipe_select_ := .Upper, sent_to_selected_ := 0,
              pipes_0 := { queue := [], taken := 0 },
              pipes_1 := { queue := [], taken := 0 },
              started_ := true, inbox := [], outbox := [] },
     output_ := [1, 2, 3, 4, 5, 6, 7, 8] },
   by rfl, rfl, by rfl, by rfl, by rfl, rfl, by decide⟩

/-- C14 as amended: with the constants set to N = 1 and P = 1 and one process launched on a
one-element input, rank 0 (both FIRST_PID and LAST_PID) is created as a First, because
App::get_processor tests FIRST_PID first; it passes both checks and First::sort passes its
one element, tagged Upper, to MPI_Send for next_pid() = 1, a rank that was not launched; no
Last is created, so nothing is merged and no output_ exists. -/
theorem C14_degenerate_size (x : Primitive) :
    App.get_processor { EXPECTED_NUMS := 1, EXPECTED_PROCESSES := 1 } 0 1 [] =
      .ok (.first (First.init 0 1 [])) ∧
    launch { EXPECTED_NUMS := 1, EXPECTED_PROCESSES := 1 } 1 (some [x]) =
      .ok [.first { pid_ := 0, count_ := 1, pipe_select_ := .Lower, sent_to_selected_ := 0,
                    input_ := [x], outbox := [{ primitive := x, pipe := .Upper }] }] ∧
    First.next_pid (First.init 0 1 []) = 1 := by
  refine ⟨rfl, ?_, rfl⟩
  rfl

/-- C14 as stated fails: on the input [7] the single process does send a message to a
successor, and it is not a Last, so it holds no output_ that could equal the input -/
theorem C14_degenerate_size_counterexample :
    (¬ ∃ p : Processor,
        launch { EXPECTED_NUMS := 1, EXPECTED_PROCESSES := 1 } 1 (some [7]) = .ok [p] ∧
        p.outbox = []) ∧
    (¬ ∃ (p : Processor) (l : Last),
        launch { EXPECTED_NUMS := 1, EXPECTED_PROCESSES := 1 } 1 (some [7]) = .ok [p] ∧
        p = .last l) := by
  have e : launch { EXPECTED_NUMS := 1, EXPECTED_PROCESSES := 1 } 1 (some [7]) =
      .ok [.first { pid_ := 0, count_ := 1, pipe_select_ := .Lower, sent_to_selected_ := 0,
                    input_ := [7], outbox := [{ primitive := 7, pipe := .Upper }] }] := rfl
  constructor
  · rintro ⟨p, h, hout⟩
    rw [e] at h
    simp only [Except.ok.injEq, List.cons.injEq, and_true] at h
    subst h
    simp [Processor.outbox] at hout
  · rintro ⟨p, l, h, hp⟩
    rw [e] at h
    simp only [Except.ok.injEq, List.cons.injEq, and_true] at h
    subst h
    cases hp

/-- C15: in a pipeline run on any 16-element input, every iteration of the loops of ranks
1, 2, 3 and 4 is reached and its receive returns; in every iteration from in_seq_len on
(the trailing ones without a receive included) started_ is true after the latch, so
next_primitive is called, and every such call returns a value: it never takes front() of an
empty queue.  Whenever the Upper buffer is found exhausted (taken >= in_seq_len or empty;
empty only, for Last) the Lower queue is not empty, and whenever the Lower buffer is found
exhausted, which is tested only when Upper is not, the Upper queue is not empty. -/
theorem C15_no_empty_read (input : Sequence) (h : input.length = EXPECTED_NUMS) :
    ∃ r : PipelineRun, pipeline input = .ok r ∧
      (∀ j : Nat, j < EXPECTED_NUMS + in_seq_len 1 →
        ∃ sj s0 : Mid,
          Mid.sort_loop EXPECTED_NUMS j 0 (Mid.init 1 EXPECTED_PROCESSES r.first.outbox) =
            .ok sj ∧
          sj.sort_recv EXPECTED_NUMS j = .ok s0 ∧
          (in_seq_len 1 ≤ j → s0.sort_latch.started_ = true) ∧
          (s0.sort_latch.started_ = true →
            (∃ (v : Primitive) (s2 : Mid), s0.sort_latch.next_primitive = .ok (v, s2)) ∧
            ((in_seq_len 1 ≤ s0.pipes_0.taken ∨ s0.pipes_0.queue = []) →
              s0.pipes_1.queue ≠ []) ∧
            (¬ (in_seq_len 1 ≤ s0.pipes_0.taken ∨ s0.pipes_0.queue = []) →
              (in_seq_len 1 ≤ s0.pipes_1.taken ∨ s0.pipes_1.queue = []) →
              s0.pipes_0.queue ≠ []))) ∧
      (∀ j : Nat, j < EXPECTED_NUMS + in_seq_len 2 →
        ∃ sj s0 : Mid,
          Mid.sort_loop EXPECTED_NUMS j 0 (Mid.init 2 EXPECTED_PROCESSES r.mid1.outbox) =
            .ok sj ∧
          sj.sort_recv EXPECTED_NUMS j = .ok s0 ∧
          (in_seq_len 2 ≤ j → s0.sort_latch.started_ = true) ∧
          (s0.sort_latch.started_ = true →
            (∃ (v : Primitive) (s2 : Mid), s0.sort_latch.next_primitive = .ok (v, s2)) ∧
            ((in_seq_len 2 ≤ s0.pipes_0.taken ∨ s0.pipes_0.queue = []) →
              s0.pipes_1.queue ≠ []) ∧
            (¬ (in_seq_len 2 ≤ s0.pipes_0.taken ∨ s0.pipes_0.queue = []) →
              (in_seq_len 2 ≤ s0.pipes_1.taken ∨ s0.pipes_1.queue = []) →
              s0.pipes_0.queue ≠ []))) ∧
      (∀ j : Nat, j < EXPECTED_NUMS + in_seq_len 3 →
        ∃ sj s0 : Mid,
          Mid.sort_loop EXPECTED_NUMS j 0 (Mid.init 3 EXPECTED_PROCESSES r.mid2.outbox) =
            .ok sj ∧
          sj.sort_recv EXPECTED_NUMS j = .ok s0 ∧
          (in_seq_len 3 ≤ j → s0.sort_latch.started_ = true) ∧
          (s0.sort_latch.started_ = true →
            (∃ (v : Primitive) (s2 : Mid), s0.sort_latch.next_primitive = .ok (v, s2)) ∧
            ((in_seq_len 3 ≤ s0.pipes_0.taken ∨ s0.pipes_0.queue = []) →
              s0.pipes_1.queue ≠ []) ∧
            (¬ (in_seq_len 3 ≤ s0.pipes_0.taken ∨ s0.pipes_0.queue = []) →
              (in_seq_len 3 ≤ s0.pipes_1.taken ∨ s0.pipes_1.queue = []) →
              s0.pipes_0.queue ≠ []))) ∧
      (∀ j : Nat, j < EXPECTED_NUMS + in_seq_len 4 →
        ∃ (sj : Last) (m0 : Mid),
          Last.sort_loop EXPECTED_NUMS j 0 (Last.init 4 EXPECTED_PROCESSES r.mid3.outbox) =
            .ok sj ∧
          sj.mid.sort_recv EXPECTED_NUMS j = .ok m0 ∧
          (in_seq_len 4 ≤ j → m0.sort_latch.started_ = true) ∧
          (m0.sort_latch.started_ = true →
            (∃ (v : Primitive) (m2 : Mid), Last.next_primitive m0.sort_latch = .ok (v, m2)) ∧
            (m0.pipes_0.queue = [] → m0.pipes_1.queue ≠ []) ∧
            (m0.pipes_0.queue ≠ [] → m0.pipes_1.queue = [] → m0.pipes_0.queue ≠ []))) := by
  obtain ⟨r, hrun, ⟨q1, ps1, e1, hall1, hN1⟩, ⟨q2, ps2, e2, hall2, hN2⟩,
    ⟨q3, ps3, e3, hall3, hN3⟩, ⟨q4, ps4, e4, hall4, hN4⟩⟩ := pipeline_inboxes input h
  refine ⟨r, hrun, ?_, ?_, ?_, ?_⟩
  · rw [e1]
    exact mid_no_empty_read 1 EXPECTED_PROCESSES (by decide) q1 ps1 hall1 hN1
  · rw [e2]
    exact mid_no_empty_read 2 EXPECTED_PROCESSES (by decide) q2 ps2 hall2 hN2
  · rw [e3]
    exact mid_no_empty_read 3 EXPECTED_PROCESSES (by decide) q3 ps3 hall3 hN3
  · have hps : ps4 = [] := by
      apply List.length_eq_zero.mp
      have h8 : in_seq_len 4 = 8 := rfl
      rw [h8] at hN4
      simp only [EXPECTED_NUMS] at hN4
      clear hN1 hN2 hN3
      omega
    subst hps
    have hq := hall4 q4 (List.mem_cons_self _ _)
    have e : pairStream [q4] = tagged .Upper q4.1 ++ tagged .Lower q4.2 := by
      simp [pairStream]
    rw [e4, e]
    exact last_no_empty_read 4 EXPECTED_PROCESSES (by decide) q4.1 q4.2 hq.1 hq.2
      (by simp [in_seq_len, EXPECTED_NUMS])

theorem C15_no_empty_read_witness :
    ([12, 3, 200, 7, 7, 0, 255, 9, 1, 1, 30, 2, 100, 5, 4, 8] : Sequence).length = EXPECTED_NUMS ∧
    ∃ r : PipelineRun, pipeline [12, 3, 200, 7, 7, 0, 255, 9, 1, 1, 30, 2, 100, 5, 4, 8] = .ok r ∧
      (∀ j : Nat, j < EXPECTED_NUMS + in_seq_len 1 →
        ∃ sj s0 : Mid,
          Mid.sort_loop EXPECTED_NUMS j 0 (Mid.init 1 EXPECTED_PROCESSES r.first.outbox) =
            .ok sj ∧
          sj.sort_recv EXPECTED_NUMS j = .ok s0 ∧
          (in_seq_len 1 ≤ j → s0.sort_latch.started_ = true) ∧
          (s0.sort_latch.started_ = true →
            (∃ (v : Primitive) (s2 : Mid), s0.sort_latch.next_primitive = .ok (v, s2)) ∧
            ((in_seq_len 1 ≤ s0.pipes_0.taken ∨ s0.pipes_0.queue = []) →
              s0.pipes_1.queue ≠ []) ∧
            (¬ (in_seq_len 1 ≤ s0.pipes_0.taken ∨ s0.pipes_0.queue = []) →
              (in_seq_len 1 ≤ s0.pipes_1.taken ∨ s0.pipes_1.queue = []) →
              s0.pipes_0.queue ≠ []))) ∧
      (∀ j : Nat, j < EXPECTED_NUMS + in_seq_len 2 →
        ∃ sj s0 : Mid,
          Mid.sort_loop EXPECTED_NUMS j 0 (Mid.init 2 EXPECTED_PROCESSES r.mid1.outbox) =
            .ok sj ∧
          sj.sort_recv EXPECTED_NUMS j = .ok s0 ∧
          (in_seq_len 2 ≤ j → s0.sort_latch.started_ = true) ∧
          (s0.sort_latch.started_ = true →
            (∃ (v : Primitive) (s2 : Mid), s0.sort_latch.next_primitive = .ok (v, s2)) ∧
            ((in_seq_len 2 ≤ s0.pipes_0.taken ∨ s0.pipes_0.queue = []) →
              s0.pipes_1.queue ≠ []) ∧
            (¬ (in_seq_len 2 ≤ s0.pipes_0.taken ∨ s0.pipes_0.queue = []) →
              (in_seq_len 2 ≤ s0.pipes_1.taken ∨ s0.pipes_1.queue = []) →
              s0.pipes_0.queue ≠ []))) ∧
      (∀ j : Nat, j < EXPECTED_NUMS + in_seq_len 3 →
        ∃ sj s0 : Mid,
          Mid.sort_loop EXPECTED_NUMS j 0 (Mid.init 3 EXPECTED_PROCESSES r.mid2.outbox) =
            .ok sj ∧
          sj.sort_recv EXPECTED_NUMS j = .ok s0 ∧
          (in_seq_len 3 ≤ j → s0.sort_latch.started_ = true) ∧
          (s0.sort_latch.started_ = true →
            (∃ (v : Primitive) (s2 : Mid), s0.sort_latch.next_primitive = .ok (v, s2)) ∧
            ((in_seq_len 3 ≤ s0.pipes_0.taken ∨ s0.pipes_0.queue = []) →
              s0.pipes_1.queue ≠ []) ∧
            (¬ (in_seq_len 3 ≤ s0.pipes_0.taken ∨ s0.pipes_0.queue = []) →
              (in_seq_len 3 ≤ s0.pipes_1.taken ∨ s0.pipes_1.queue = []) →
              s0.pipes_0.queue ≠ []))) ∧
      (∀ j : Nat, j < EXPECTED_NUMS + in_seq_len 4 →
        ∃ (sj : Last) (m0 : Mid),
          Last.sort_loop EXPECTED_NUMS j 0 (Last.init 4 EXPECTED_PROCESSES r.mid3.outbox) =
            .ok sj ∧
          sj.mid.sort_recv EXPECTED_NUMS j = .ok m0 ∧
          (in_seq_len 4 ≤ j → m0.sort_latch.started_ = true) ∧
          (m0.sort_latch.started_ = true →
            (∃ (v : Primitive) (m2 : Mid), Last.next_primitive m0.sort_latch = .ok (v, m2)) ∧
            (m0.pipes_0.queue = [] → m0.pipes_1.queue ≠ []) ∧
            (m0.pipes_0.queue ≠ [] → m0.pipes_1.queue = [] → m0.pipes_0.queue ≠ []))) :=
  ⟨by decide, C15_no_empty_read [12, 3, 200, 7, 7, 0, 255, 9, 1, 1, 30, 2, 100, 5, 4, 8] (by decide)⟩

/-- C16: for the stage at rank r in 1, 2, 3 (a Mid) or 4 (the Last) and every stream of 16
messages whose k-th message is tagged Upper iff floor(k / 2^(r-1)) is even, every one of the
16 + 2^(r-1) iterations is reached, its receive returns and it completes; the start
condition is false after the receive of every iteration before 2^(r-1) and true after the
receive of iteration 2^(r-1); nothing is emitted in the iterations 0 .. 2^(r-1)-1 and exactly
one element in each of the iterations 2^(r-1) .. 16 + 2^(r-1) - 1; the loop ends with 16
elements emitted and both queues empty. -/
theorem C16_start_point_lookahead (r count : Nat) (stream : List Message)
    (hlen : stream.length = 16)
    (htag : ∀ (k : Nat) (m : Message), stream[k]? = some m →
      (m.pipe = .Upper ↔ (k / 2 ^ (r - 1)) % 2 = 0)) :
    ((r = 1 ∨ r = 2 ∨ r = 3) →
      (∀ j : Nat, j < EXPECTED_NUMS + 2 ^ (r - 1) →
        ∃ sj s0 s1 : Mid,
          Mid.sort_loop EXPECTED_NUMS j 0 (Mid.init r count stream) = .ok sj ∧
          sj.sort_recv EXPECTED_NUMS j = .ok s0 ∧
          sj.sort_body EXPECTED_NUMS j = .ok s1 ∧
          (j < 2 ^ (r - 1) →
            s0.can_sort_begin = false ∧ s0.sort_latch.started_ = false ∧
            sj.outbox = [] ∧ s1.outbox = []) ∧
          (j = 2 ^ (r - 1) → s0.can_sort_begin = true) ∧
          (2 ^ (r - 1) ≤ j →
            s0.sort_latch.started_ = true ∧ s1.outbox.length = sj.outbox.length + 1)) ∧
      ∃ sf : Mid, (Mid.init r count stream).sort = .ok sf ∧
        sf.outbox.length = EXPECTED_NUMS ∧ sf.pipes_0.queue = [] ∧ sf.pipes_1.queue = []) ∧
    (r = 4 →
      (∀ j : Nat, j < EXPECTED_NUMS + 2 ^ (r - 1) →
        ∃ (sj : Last) (m0 : Mid) (s1 : Last),
          Last.sort_loop EXPECTED_NUMS j 0 (Last.init r count stream) = .ok sj ∧
          sj.mid.sort_recv EXPECTED_NUMS j = .ok m0 ∧
          Last.sort_body EXPECTED_NUMS j sj = .ok s1 ∧
          (j < 2 ^ (r - 1) →
            m0.can_sort_begin = false ∧ m0.sort_latch.started_ = false ∧
            sj.output_ = [] ∧ s1.output_ = []) ∧
          (j = 2 ^ (r - 1) → m0.can_sort_begin = true) ∧
          (2 ^ (r - 1) ≤ j →
            m0.sort_latch.started_ = true ∧ s1.output_.length = sj.output_.length + 1)) ∧
      ∃ sf : Last, (Last.init r count stream).sort = .ok sf ∧
        sf.output_.length = EXPECTED_NUMS ∧
        sf.mid.pipes_0.queue = [] ∧ sf.mid.pipes_1.queue = []) := by
  constructor
  · intro hr
    obtain ⟨q, ps, rfl, hall, hN⟩ := stream_as_pairs r hr stream hlen htag
    have hpid : 0 < r := by omega
    have hL : 2 ^ (r - 1) = in_seq_len r := by
      rcases hr with rfl | rfl | rfl <;> rfl
    rw [hL]
    refine ⟨mid_iteration_profile r count hpid q ps hall hN, ?_⟩
    obtain ⟨pf, hs⟩ := mid_sort_pairs r count hpid q ps hall hN
    obtain ⟨sf, hsf, hout, _⟩ := mid_sort_pairs_blocks r count hpid q ps hall hN
    refine ⟨sf, hsf, hout, ?_, ?_⟩
    · rw [hs] at hsf
      cases hsf
      rfl
    · rw [hs] at hsf
      cases hsf
      rfl
  · intro hr
    subst hr
    have htag4 : ∀ (k : Nat) (m : Message), stream[k]? = some m →
        (m.pipe = .Upper ↔ k < 8) := by
      intro k m hk
      have h1 := htag k m hk
      obtain ⟨hk16, _⟩ := List.getElem?_eq_some.mp hk
      rw [hlen] at hk16
      rw [h1]
      norm_num
      omega
    obtain ⟨u, l, rfl, hu, hl⟩ := stream_as_pair_4 stream hlen htag4
    have hL : 2 ^ (4 - 1) = in_seq_len 4 := rfl
    rw [hL]
    have hu4 : u.length = in_seq_len 4 := hu
    have hl4 : l.length = in_seq_len 4 := hl
    refine ⟨last_iteration_profile 4 count (by decide) u l hu4 hl4 rfl, ?_⟩
    refine ⟨_, last_sort_pair 4 count (by decide) u l hu4 hl4 rfl, ?_, rfl, rfl⟩
    simp only [mergeLE_length, hu, hl, EXPECTED_NUMS]

theorem C16_start_point_lookahead_witness :
    (      (∀ j : Nat, j < EXPECTED_NUMS + 2 ^ (2 - 1) →
        ∃ sj s0 s1 : Mid,
          Mid.sort_loop EXPECTED_NUMS j 0 (Mid.init 2 EXPECTED_PROCESSES (pairStream [([3, 9], [1, 200]), ([7, 7], [0, 255]), ([5, 6], [5, 5]), ([2, 4], [1, 8])])) = .ok sj ∧
          sj.sort_recv EXPECTED_NUMS j = .ok s0 ∧
          sj.sort_body EXPECTED_NUMS j = .ok s1 ∧
          (j < 2 ^ (2 - 1) →
            s0.can_sort_begin = false ∧ s0.sort_latch.started_ = false ∧
            sj.outbox = [] ∧ s1.outbox = []) ∧
          (j = 2 ^ (2 - 1) → s0.can_sort_begin = true) ∧
          (2 ^ (2 - 1) ≤ j →
            s0.sort_latch.started_ = true ∧ s1.outbox.length = sj.outbox.length + 1)) ∧
      ∃ sf : Mid, (Mid.init 2 EXPECTED_PROCESSES (pairStream [([3, 9], [1, 200]), ([7, 7], [0, 255]), ([5, 6], [5, 5]), ([2, 4], [1, 8])])).sort = .ok sf ∧
        sf.outbox.length = EXPECTED_NUMS ∧ sf.pipes_0.queue = [] ∧ sf.pipes_1.queue = []) ∧
    (      (∀ j : Nat, j < EXPECTED_NUMS + 2 ^ (4 - 1) →
        ∃ (sj : Last) (m0 : Mid) (s1 : Last),
          Last.sort_loop EXPECTED_NUMS j 0 (Last.init 4 EXPECTED_PROCESSES (pairStream [([1, 3, 5, 7, 9, 11, 13, 15], [0, 2, 4, 6, 8, 10, 12, 14])])) = .ok sj ∧
          sj.mid.sort_recv EXPECTED_NUMS j = .ok m0 ∧
          Last.sort_body EXPECTED_NUMS j sj = .ok s1 ∧
          (j < 2 ^ (4 - 1) →
            m0.can_sort_begin = false ∧ m0.sort_latch.started_ = false ∧
            sj.output_ = [] ∧ s1.output_ = []) ∧
          (j = 2 ^ (4 - 1) → m0.can_sort_begin = true) ∧
          (2 ^ (4 - 1) ≤ j →
            m0.sort_latch.started_ = true ∧ s1.output_.length = sj.output_.length + 1)) ∧
      ∃ sf : Last, (Last.init 4 EXPECTED_PROCESSES (pairStream [([1, 3, 5, 7, 9, 11, 13, 15], [0, 2, 4, 6, 8, 10, 12, 14])])).sort = .ok sf ∧
        sf.output_.length = EXPECTED_NUMS ∧
        sf.mid.pipes_0.queue = [] ∧ sf.mid.pipes_1.queue = []) :=
  ⟨(C16_start_point_lookahead 2 EXPECTED_PROCESSES
      (pairStream [([3, 9], [1, 200]), ([7, 7], [0, 255]), ([5, 6], [5, 5]), ([2, 4], [1, 8])])
      (by decide)
      (by
        intro k m h
        have hk : k < 16 := by
          by_contra hc
          rw [List.getElem?_eq_none (by simp [pairStream, tagged]; omega)] at h
          cases h
        interval_cases k <;> simp [pairStream, tagged] at h <;> subst h <;> decide)).1
      (Or.inr (Or.inl rfl)),
   (C16_start_point_lookahead 4 EXPECTED_PROCESSES
      (pairStream [([1, 3, 5, 7, 9, 11, 13, 15], [0, 2, 4, 6, 8, 10, 12, 14])])
      (by decide)
      (by
        intro k m h
        have hk : k < 16 := by
          by_contra hc
          rw [List.getElem?_eq_none (by simp [pairStream, tagged]; omega)] at h
          cases h
        interval_cases k <;> simp [pairStream, tagged] at h <;> subst h <;> decide)).2 rfl⟩

/-- C17: in a pipeline run on any 16-element input, at the start of every loop iteration
of the Mid stage at rank r = 1, 2, 3 the taken counters of pipes_[0] (Upper) and pipes_[1]
(Lower) add up to sent_to_selected_, sent_to_selected_ is below out_seq_len(r), and each
taken counter is at most in_seq_len(r); the iteration completes, and either the toggle ran
in it, leaving sent_to_selected_ and both taken counters at 0 under the flipped tag, or the
tag is kept and no taken counter went down: the counters count what was taken for the
current output run. -/
theorem C17_taken_counters (input : Sequence) (h : input.length = EXPECTED_NUMS) :
    ∃ r : PipelineRun, pipeline input = .ok r ∧
      (∀ j : Nat, j < EXPECTED_NUMS + in_seq_len 1 →
        ∃ sj s1 : Mid,
          Mid.sort_loop EXPECTED_NUMS j 0 (Mid.init 1 EXPECTED_PROCESSES r.first.outbox) =
            .ok sj ∧
          sj.pipes_0.taken + sj.pipes_1.taken = sj.sent_to_selected_ ∧
          sj.sent_to_selected_ < out_seq_len 1 ∧
          sj.pipes_0.taken ≤ in_seq_len 1 ∧ sj.pipes_1.taken ≤ in_seq_len 1 ∧
          sj.sort_body EXPECTED_NUMS j = .ok s1 ∧
          ((s1.pipe_select_ = sj.pipe_select_.toggle ∧ s1.sent_to_selected_ = 0 ∧
              s1.pipes_0.taken = 0 ∧ s1.pipes_1.taken = 0) ∨
           (s1.pipe_select_ = sj.pipe_select_ ∧ sj.pipes_0.taken ≤ s1.pipes_0.taken ∧
              sj.pipes_1.taken ≤ s1.pipes_1.taken))) ∧
      (∀ j : Nat, j < EXPECTED_NUMS + in_seq_len 2 →
        ∃ sj s1 : Mid,
          Mid.sort_loop EXPECTED_NUMS j 0 (Mid.init 2 EXPECTED_PROCESSES r.mid1.outbox) =
            .ok sj ∧
          sj.pipes_0.taken + sj.pipes_1.taken = sj.sent_to_selected_ ∧
          sj.sent_to_selected_ < out_seq_len 2 ∧
          sj.pipes_0.taken ≤ in_seq_len 2 ∧ sj.pipes_1.taken ≤ in_seq_len 2 ∧
          sj.sort_body EXPECTED_NUMS j = .ok s1 ∧
          ((s1.pipe_select_ = sj.pipe_select_.toggle ∧ s1.sent_to_selected_ = 0 ∧
              s1.pipes_0.taken = 0 ∧ s1.pipes_1.taken = 0) ∨
           (s1.pipe_select_ = sj.pipe_select_ ∧ sj.pipes_0.taken ≤ s1.pipes_0.taken ∧
              sj.pipes_1.taken ≤ s1.pipes_1.taken))) ∧
      (∀ j : Nat, j < EXPECTED_NUMS + in_seq_len 3 →
        ∃ sj s1 : Mid,
          Mid.sort_loop EXPECTED_NUMS j 0 (Mid.init 3 EXPECTED_PROCESSES r.mid2.outbox) =
            .ok sj ∧
          sj.pipes_0.taken + sj.pipes_1.taken = sj.sent_to_selected_ ∧
          sj.sent_to_selected_ < out_seq_len 3 ∧
          sj.pipes_0.taken ≤ in_seq_len 3 ∧ sj.pipes_1.taken ≤ in_seq_len 3 ∧
          sj.sort_body EXPECTED_NUMS j = .ok s1 ∧
          ((s1.pipe_select_ = sj.pipe_select_.toggle ∧ s1.sent_to_selected_ = 0 ∧
              s1.pipes_0.taken = 0 ∧ s1.pipes_1.taken = 0) ∨
           (s1.pipe_select_ = sj.pipe_select_ ∧ sj.pipes_0.taken ≤ s1.pipes_0.taken ∧
              sj.pipes_1.taken ≤ s1.pipes_1.taken))) := by
  obtain ⟨r, hrun, ⟨q1, ps1, e1, hall1, hN1⟩, ⟨q2, ps2, e2, hall2, hN2⟩,
    ⟨q3, ps3, e3, hall3, hN3⟩, _⟩ := pipeline_inboxes input h
  refine ⟨r, hrun, ?_, ?_, ?_⟩
  · rw [e1]
    exact mid_taken_counters 1 EXPECTED_PROCESSES (by decide) q1 ps1 hall1 hN1
  · rw [e2]
    exact mid_taken_counters 2 EXPECTED_PROCESSES (by decide) q2 ps2 hall2 hN2
  · rw [e3]
    exact mid_taken_counters 3 EXPECTED_PROCESSES (by decide) q3 ps3 hall3 hN3

theorem C17_taken_counters_witness :
    ([12, 3, 200, 7, 7, 0, 255, 9, 1, 1, 30, 2, 100, 5, 4, 8] : Sequence).length = EXPECTED_NUMS ∧
    ∃ r : PipelineRun, pipeline [12, 3, 200, 7, 7, 0, 255, 9, 1, 1, 30, 2, 100, 5, 4, 8] = .ok r ∧
      (∀ j : Nat, j < EXPECTED_NUMS + in_seq_len 1 →
        ∃ sj s1 : Mid,
          Mid.sort_loop EXPECTED_NUMS j 0 (Mid.init 1 EXPECTED_PROCESSES r.first.outbox) =
            .ok sj ∧
          sj.pipes_0.taken + sj.pipes_1.taken = sj.sent_to_selected_ ∧
          sj.sent_to_selected_ < out_seq_len 1 ∧
          sj.pipes_0.taken ≤ in_seq_len 1 ∧ sj.pipes_1.taken ≤ in_seq_len 1 ∧
          sj.sort_body EXPECTED_NUMS j = .ok s1 ∧
          ((s1.pipe_select_ = sj.pipe_select_.toggle ∧ s1.sent_to_selected_ = 0 ∧
              s1.pipes_0.taken = 0 ∧ s1.pipes_1.taken = 0) ∨
           (s1.pipe_select_ = sj.pipe_select_ ∧ sj.pipes_0.taken ≤ s1.pipes_0.taken ∧
              sj.pipes_1.taken ≤ s1.pipes_1.taken))) ∧
      (∀ j : Nat, j < EXPECTED_NUMS + in_seq_len 2 →
        ∃ sj s1 : Mid,
          Mid.sort_loop EXPECTED_NUMS j 0 (Mid.init 2 EXPECTED_PROCESSES r.mid1.outbox) =
            .ok sj ∧
          sj.pipes_0.taken + sj.pipes_1.taken = sj.sent_to_selected_ ∧
          sj.sent_to_selected_ < out_seq_len 2 ∧
          sj.pipes_0.taken ≤ in_seq_len 2 ∧ sj.pipes_1.taken ≤ in_seq_len 2 ∧
          sj.sort_body EXPECTED_NUMS j = .ok s1 ∧
          ((s1.pipe_select_ = sj.pipe_select_.toggle ∧ s1.sent_to_selected_ = 0 ∧
              s1.pipes_0.taken = 0 ∧ s1.pipes_1.taken = 0) ∨
           (s1.pipe_select_ = sj.pipe_select_ ∧ sj.pipes_0.taken ≤ s1.pipes_0.taken ∧
              sj.pipes_1.taken ≤ s1.pipes_1.taken))) ∧
      (∀ j : Nat, j < EXPECTED_NUMS + in_seq_len 3 →
        ∃ sj s1 : Mid,
          Mid.sort_loop EXPECTED_NUMS j 0 (Mid.init 3 EXPECTED_PROCESSES r.mid2.outbox) =
            .ok sj ∧
          sj.pipes_0.taken + sj.pipes_1.taken = sj.sent_to_selected_ ∧
          sj.sent_to_selected_ < out_seq_len 3 ∧
          sj.pipes_0.taken ≤ in_seq_len 3 ∧ sj.pipes_1.taken ≤ in_seq_len 3 ∧
          sj.sort_body EXPECTED_NUMS j = .ok s1 ∧
          ((s1.pipe_select_ = sj.pipe_select_.toggle ∧ s1.sent_to_selected_ = 0 ∧
              s1.pipes_0.taken = 0 ∧ s1.pipes_1.taken = 0) ∨
           (s1.pipe_select_ = sj.pipe_select_ ∧ sj.pipes_0.taken ≤ s1.pipes_0.taken ∧
              sj.pipes_1.taken ≤ s1.pipes_1.taken))) :=
  ⟨by decide, C17_taken_counters [12, 3, 200, 7, 7, 0, 255, 9, 1, 1, 30, 2, 100, 5, 4, 8] (by decide)⟩

end PMS
